import Mathlib

/-!
# Race-Strategy-Dashboard: verification of the telemetry core

Shallow embedding of the TypeScript telemetry core of the
Race-Strategy-Dashboard repository, together with theorems settling the
frozen specification claims.

Embedded components (with their source files):
* JS value model and PapaParse row objects (`CVal`, `RawRow`);
* `TelemetryCSVParser` (`normalizeRow`, `isValidRow`, `parseFile` chunk
  machine, `pivotToFrames`, `normalizeVehicleId`, `clamp`);
* `TelemetryFrame`, `Lap`, `Vehicle` domain entities with their
  validating constructors and `toJSON`;
* `LapTimeCSVParser` (`processRows`, `convertToLap`, `parseVehicleId`,
  `parseSectorTimes`);
* `TelemetryRepository` (in-memory) and the `TelemetryCache` LRU
  decorator, whose doubly-linked list is modelled as an explicit node
  heap addressed by allocation ids (JS object identity).

JS `Date` parsing/formatting is not reimplemented: every definition that
evaluates `new Date(x).getTime()` is parametrised by a function
`dateFn : CVal → Option Int` (`none` models `NaN`), and ISO-8601
serialisation by `toISO : Int → String`.  Number-to-string coercion of
non-integral numbers (never exercised by the claims) is abstracted in
`CVal.jsString`.
-/

namespace RaceDash

/-- A JavaScript runtime value as it appears in a PapaParse row object
with `dynamicTyping`: absent property (`undefined`), `null`, a string, a
finite number (modelled as a rational), or `NaN`. -/
inductive CVal where
  | undef : CVal
  | null : CVal
  | str : String → CVal
  | num : ℚ → CVal
  | nan : CVal
deriving DecidableEq, Repr

/-- JS truthiness: `undefined`, `null`, `""`, `0` and `NaN` are falsy. -/
def CVal.truthy : CVal → Bool
  | .undef => false
  | .null => false
  | .str s => s != ""
  | .num q => q != 0
  | .nan => false

/-- `typeof x === 'number'` (note: `NaN` is a number in JS). -/
def CVal.isNum : CVal → Bool
  | .num _ => true
  | .nan => true
  | _ => false

/-- JS `a || b`. -/
def jsOr (a b : CVal) : CVal := if a.truthy then a else b

/-- JS `a ?? b` (nullish coalescing). -/
def jsCoalesce (a b : CVal) : CVal :=
  match a with
  | .undef => b
  | .null => b
  | v => v

/-- JS `ToNumber` coercion, `none` meaning `NaN`.  String coercion is
abstracted: the empty string coerces to `0` (as in JS) and every other
string to `NaN`; with PapaParse `dynamicTyping` numeric-looking strings
have already been converted to numbers, so this branch is only reached
by genuinely non-numeric strings. -/
def CVal.toNumber : CVal → Option ℚ
  | .num q => some q
  | .null => some 0
  | .str s => if s = "" then some 0 else none
  | .undef => none
  | .nan => none

/-- Result of a JS arithmetic/Math operation re-packed as a value
(`none` = `NaN`). -/
def numOrNaN : Option ℚ → CVal
  | some q => .num q
  | none => .nan

/-- JS `Math.max(a, b)` after `ToNumber` coercion (`NaN` propagates). -/
def jsMaxQ (a b : Option ℚ) : Option ℚ :=
  match a, b with
  | some x, some y => some (max x y)
  | _, _ => none

/-- JS `Math.min(a, b)` after `ToNumber` coercion (`NaN` propagates). -/
def jsMinQ (a b : Option ℚ) : Option ℚ :=
  match a, b with
  | some x, some y => some (min x y)
  | _, _ => none

/-- JS `a < b` for a value against a number literal (`NaN` compares
false; `undefined` coerces to `NaN`, `null` to `0`). -/
def CVal.ltNum (a : CVal) (b : ℚ) : Bool :=
  match a.toNumber with
  | some x => x < b
  | none => false

/-- JS `a > b` for a value against a number literal. -/
def CVal.gtNum (a : CVal) (b : ℚ) : Bool :=
  match a.toNumber with
  | some x => x > b
  | none => false

/-- JS `String(x)`.  Integer numbers print exactly as in JS; the decimal
rendering of non-integral numbers is abstracted (not exercised by any
claim). -/
def CVal.jsString : CVal → String
  | .undef => "undefined"
  | .null => "null"
  | .str s => s
  | .num q => if q.den = 1 then toString q.num else toString q
  | .nan => "NaN"

/-- A PapaParse row object: property name to value, in property order.
A key that is absent reads as `undefined`. -/
abbrev RawRow := List (String × CVal)

/-- Property read `raw.k`. -/
def RawRow.get (raw : RawRow) (k : String) : CVal :=
  (List.lookup k raw).getD CVal.undef

/-- `Object.prototype.hasOwnProperty`, which is what the object-spread
`{...raw}` override is sensitive to. -/
def RawRow.hasKey (raw : RawRow) (k : String) : Bool :=
  (List.lookup k raw).isSome

end RaceDash

namespace RaceDash

/-! ## TelemetryCSVParser: row normalisation and validation -/

/-- The canonical row shape produced by `TelemetryCSVParser.normalizeRow`
(interface `TelemetryRow`).  Only the five canonical fields are read
downstream (validation, filtering, pivoting). -/
structure TRow where
  timestamp : CVal
  vehicle_id : CVal
  lap : CVal
  telemetry_name : CVal
  telemetry_value : CVal
deriving DecidableEq, Repr

/-- Effect of the trailing object spread `{...raw}` in `normalizeRow`: a
property present on the raw row (even with a falsy value) overrides the
alias-resolved value. -/
def overrideField (raw : RawRow) (k : String) (computed : CVal) : CVal :=
  if raw.hasKey k then raw.get k else computed

/-- `TelemetryCSVParser.normalizeRow`: ordered alias lists (`||` for the
first four fields, `??` for `telemetry_value`), then the `...raw`
spread override. -/
def normalizeRow (raw : RawRow) : TRow :=
  { timestamp := overrideField raw "timestamp"
      (jsOr (raw.get "timestamp") (jsOr (raw.get "Time") (raw.get "time")))
    vehicle_id := overrideField raw "vehicle_id"
      (jsOr (raw.get "vehicle_id") (jsOr (raw.get "VehicleId") (raw.get "vehicleId")))
    lap := overrideField raw "lap"
      (jsOr (raw.get "lap") (jsOr (raw.get "Lap") (raw.get "lapNumber")))
    telemetry_name := overrideField raw "telemetry_name"
      (jsOr (raw.get "telemetry_name")
        (jsOr (raw.get "name") (jsOr (raw.get "Parameter") (raw.get "signal"))))
    telemetry_value := overrideField raw "telemetry_value"
      (jsCoalesce (raw.get "telemetry_value")
        (jsCoalesce (raw.get "value")
          (jsCoalesce (raw.get "Value") (raw.get "result")))) }

/-- `TelemetryCSVParser.isValidRow`. -/
def isValidRow (r : TRow) : Bool :=
  r.telemetry_name.truthy &&
  (r.telemetry_value.truthy || r.telemetry_value == .num 0) &&
  r.timestamp.truthy &&
  r.vehicle_id.truthy &&
  r.lap.isNum

/-- `String.prototype.toLowerCase` (ASCII range; non-ASCII case mapping
is not exercised by the claims), implemented structurally. -/
def jsToLower (s : String) : String :=
  String.mk (s.toList.map (fun c =>
    if 'A' ≤ c && c ≤ 'Z' then Char.ofNat (c.toNat + 32) else c))

/-- `s.startsWith p`, implemented structurally. -/
def strStarts (s p : String) : Bool := p.toList.isPrefixOf s.toList

/-- `s.drop n`, implemented structurally. -/
def strDrop (s : String) (n : Nat) : String := String.mk (s.toList.drop n)

/-- `String.prototype.split` on a single character, implemented
structurally (matches JS `split` for one-character separators). -/
def splitOnChar (c : Char) (s : String) : List String :=
  go s.toList []
where
  go : List Char → List Char → List String
    | [], acc => [String.mk acc.reverse]
    | d :: t, acc =>
      if d = c then String.mk acc.reverse :: go t []
      else go t (d :: acc)

/-- Substring occurrence test on character lists. -/
def hasInfixList (sub : List Char) : List Char → Bool
  | [] => sub.isEmpty
  | c :: t => sub.isPrefixOf (c :: t) || hasInfixList sub t

/-- `TelemetryCSVParser.normalizeVehicleId`: strip the vendor prefix
`GR86-` (the anchored regex replace). -/
def normalizeVehicleId (s : String) : String :=
  if strStarts s "GR86-" then strDrop s 5 else s

/-- `TelemetryCSVParser.clamp`: `Math.min(Math.max(value, min), max)`. -/
def clamp (v : CVal) (lo hi : ℚ) : CVal :=
  numOrNaN (jsMinQ (jsMaxQ v.toNumber (some lo)) (some hi))

/-- `String.prototype.trim`: strip leading and trailing whitespace
(implemented structurally so that concrete evaluation reduces). -/
def jsTrim (s : String) : String :=
  String.mk (((s.toList.dropWhile Char.isWhitespace).reverse.dropWhile
    Char.isWhitespace).reverse)

/-! ## TelemetryFrame entity -/

/-- The `timestamp` member of `TelemetryFrameData`: `string | Date`.
A `Date` object carries its millisecond value, `none` for an invalid
date. -/
inductive TsIn where
  | ofStr : String → TsIn
  | ofDate : Option Int → TsIn
deriving DecidableEq, Repr

/-- JS truthiness of the timestamp input (`Date` objects are always
truthy, a string is falsy only when empty). -/
def TsIn.truthy : TsIn → Bool
  | .ofStr s => s != ""
  | .ofDate _ => true

/-- `new Date(data.timestamp).getTime()` (`none` = `NaN`). -/
def TsIn.eval (dateFn : CVal → Option Int) : TsIn → Option Int
  | .ofStr s => dateFn (.str s)
  | .ofDate t => t

/-- Interface `TelemetryFrameData`.  The numeric fields are `CVal`
because the pivot step feeds raw metric-table values into the
constructor. -/
structure FrameData where
  timestamp : TsIn
  vehicleId : String
  lap : CVal
  speed : CVal
  throttlePos : CVal
  brakePos : CVal
  gpsLatitude : CVal
  gpsLongitude : CVal
  steeringAngle : CVal := .undef
  gear : CVal := .undef
deriving DecidableEq, Repr

/-- The immutable `TelemetryFrame` entity (post-validation). -/
structure TelemetryFrame where
  timestamp : Int
  vehicleId : String
  lap : CVal
  speed : CVal
  throttlePos : CVal
  brakePos : CVal
  gpsLatitude : CVal
  gpsLongitude : CVal
  steeringAngle : CVal
  gear : CVal
deriving DecidableEq, Repr

/-- The error branches of the `TelemetryFrame` constructor, in source
order. -/
inductive FrameErr where
  | badTimestamp | badVehicleId | badLap | badSpeed | badThrottle | badBrake
deriving DecidableEq, Repr

/-- The `TelemetryFrame` constructor: validation in source order, then
field assignment. -/
def mkFrame (dateFn : CVal → Option Int) (d : FrameData) : Except FrameErr TelemetryFrame :=
  if !d.timestamp.truthy || (d.timestamp.eval dateFn).isNone then .error .badTimestamp
  else if d.vehicleId == "" || jsTrim d.vehicleId == "" then .error .badVehicleId
  else if d.lap.ltNum 0 then .error .badLap
  else if d.speed.ltNum 0 then .error .badSpeed
  else if d.throttlePos.ltNum 0 || d.throttlePos.gtNum 100 then .error .badThrottle
  else if d.brakePos.ltNum 0 || d.brakePos.gtNum 100 then .error .badBrake
  else .ok
    { timestamp := (d.timestamp.eval dateFn).getD 0
      vehicleId := d.vehicleId
      lap := d.lap
      speed := d.speed
      throttlePos := d.throttlePos
      brakePos := d.brakePos
      gpsLatitude := d.gpsLatitude
      gpsLongitude := d.gpsLongitude
      steeringAngle := d.steeringAngle
      gear := d.gear }

/-- `TelemetryFrame.toJSON`, parametrised by ISO-8601 serialisation of
the timestamp instant. -/
def TelemetryFrame.toJSON (toISO : Int → String) (f : TelemetryFrame) : FrameData :=
  { timestamp := .ofStr (toISO f.timestamp)
    vehicleId := f.vehicleId
    lap := f.lap
    speed := f.speed
    throttlePos := f.throttlePos
    brakePos := f.brakePos
    gpsLatitude := f.gpsLatitude
    gpsLongitude := f.gpsLongitude
    steeringAngle := f.steeringAngle
    gear := f.gear }

end RaceDash

namespace RaceDash

/-! ## TelemetryCSVParser: pivot step -/

/-- The per-group metric table (`Map<string, number>` in the source,
holding raw values), in insertion order. -/
abbrev Metrics := List (String × CVal)

/-- `Map.prototype.get` (absent keys read as `undefined`). -/
def Metrics.getV (m : Metrics) (k : String) : CVal :=
  (List.lookup k m).getD CVal.undef

/-- `Map.prototype.has`. -/
def Metrics.hasK (m : Metrics) (k : String) : Bool :=
  (List.lookup k m).isSome

/-- `Map.prototype.set`: replace in place, else append. -/
def Metrics.setV (m : Metrics) (k : String) (v : CVal) : Metrics :=
  if (List.lookup k m).isSome then
    m.map (fun p => if p.1 = k then (k, v) else p)
  else m ++ [(k, v)]

/-- The pivot grouping key: the template literal
`timestamp + "_" + vehicle_id + "_" + lap` over the raw field values. -/
def groupKey (r : TRow) : String :=
  r.timestamp.jsString ++ "_" ++ r.vehicle_id.jsString ++ "_" ++ r.lap.jsString

/-- Replace-or-append on the insertion-ordered groups map. -/
def groupsSet (gs : List (String × Metrics)) (k : String) (m : Metrics) :
    List (String × Metrics) :=
  if (List.lookup k gs).isSome then
    gs.map (fun p => if p.1 = k then (k, m) else p)
  else gs ++ [(k, m)]

/-- One iteration of the grouping loop of `pivotToFrames`: store the
lowercased metric name, then set the `_timestamp` / `_vehicle_id` /
`_lap` bookkeeping keys only if still absent. -/
def pivotStep (dateFn : CVal → Option Int) (gs : List (String × Metrics))
    (row : TRow) : List (String × Metrics) :=
  let key := groupKey row
  let m0 := (List.lookup key gs).getD []
  let m1 := m0.setV (jsToLower row.telemetry_name.jsString) row.telemetry_value
  let m2 := if m1.hasK "_timestamp" then m1 else
    m1.setV "_timestamp" (numOrNaN ((dateFn row.timestamp).map (fun t => (t : ℚ))))
  let m3 := if m2.hasK "_vehicle_id" then m2 else m2.setV "_vehicle_id" row.vehicle_id
  let m4 := if m3.hasK "_lap" then m3 else m3.setV "_lap" row.lap
  groupsSet gs key m4

/-- The grouping phase of `pivotToFrames`. -/
def buildGroups (dateFn : CVal → Option Int) (rows : List TRow) :
    List (String × Metrics) :=
  rows.foldl (pivotStep dateFn) []

/-- The `frameData` object built from one group's metric table
(precedence chains, clamping, brake max). -/
def groupFrameData (dateFn : CVal → Option Int) (m : Metrics) : FrameData :=
  { timestamp := .ofDate (dateFn (m.getV "_timestamp"))
    vehicleId := normalizeVehicleId (m.getV "_vehicle_id").jsString
    lap := m.getV "_lap"
    speed := jsOr (m.getV "speed") (jsOr (m.getV "speed_can") (.num 0))
    throttlePos := clamp
      (jsOr (m.getV "ath")
        (jsOr (m.getV "throttle_pos") (jsOr (m.getV "throttle") (.num 0)))) 0 100
    brakePos := clamp
      (numOrNaN (jsMaxQ
        (jsMaxQ (jsOr (m.getV "pbrake_f") (.num 0)).toNumber
                (jsOr (m.getV "pbrake_r") (.num 0)).toNumber)
        (jsOr (m.getV "brake_pos") (.num 0)).toNumber)) 0 100
    gpsLatitude := jsOr (m.getV "gps_lat")
      (jsOr (m.getV "gps_latitude") (jsOr (m.getV "latitude") (.num 0)))
    gpsLongitude := jsOr (m.getV "gps_lon")
      (jsOr (m.getV "gps_longitude") (jsOr (m.getV "longitude") (.num 0)))
    gear := jsOr (m.getV "gear") .undef }

/-- `TelemetryCSVParser.pivotToFrames`: group, construct (dropping
groups whose frame constructor throws), sort ascending by timestamp
(stable sort, as in modern JS engines). -/
def pivotToFrames (dateFn : CVal → Option Int) (rows : List TRow) :
    List TelemetryFrame :=
  let frames := (buildGroups dateFn rows).filterMap
    (fun g => (mkFrame dateFn (groupFrameData dateFn g.2)).toOption)
  frames.insertionSort (fun a b => a.timestamp ≤ b.timestamp)

/-! ## TelemetryCSVParser: streaming ingestion machine -/

/-- The options object of `parseFile` (progress callback omitted: it
does not influence the parser state or result). `filter` being absent
is behaviourally identical to both fields being absent. -/
structure PCfg where
  maxRows : Nat := 100000
  skipRows : Nat := 0
  filterV : Option String := none
  filterLap : Option ℚ := none
deriving DecidableEq, Repr

/-- The closure state of one `parseFile` run: accumulated matched rows,
cumulative scanned-row count, the `aborted` flag, and the resolved
result (set once). -/
structure PSt where
  rawRows : List TRow := []
  rowCount : Nat := 0
  aborted : Bool := false
  result : Option (List TelemetryFrame) := none
deriving DecidableEq, Repr

/-- The row filter inside the chunk callback: skip when a truthy filter
vehicle id differs from the normalized row vehicle id, or a truthy
filter lap differs from the row lap (`filter.vehicleId &&` /
`filter.lap &&`, so `""` and `0` disable the respective check). -/
def rowSkipped (cfg : PCfg) (row : TRow) : Bool :=
  (match cfg.filterV with
   | some v => v != "" && normalizeVehicleId row.vehicle_id.jsString != v
   | none => false) ||
  (match cfg.filterLap with
   | some l => l != 0 && row.lap != .num l
   | none => false)

/-- The row loop of the chunk callback.  `st.rowCount` has already been
advanced by the whole chunk length, as in the source.  Accumulating the
`maxRows`-th matched row aborts: the result is resolved from the rows
accumulated so far and the remaining rows of the chunk are not
processed (the `return` statement). -/
def chunkRows (dateFn : CVal → Option Int) (cfg : PCfg) :
    List RawRow → PSt → PSt
  | [], st => st
  | raw :: rest, st =>
    if st.rowCount ≤ cfg.skipRows then chunkRows dateFn cfg rest st
    else
      let row := normalizeRow raw
      if isValidRow row then
        if rowSkipped cfg row then chunkRows dateFn cfg rest st
        else
          let st1 := { st with rawRows := st.rawRows ++ [row] }
          if cfg.maxRows ≤ st1.rawRows.length then
            { st1 with aborted := true,
                       result := some (pivotToFrames dateFn st1.rawRows) }
          else chunkRows dateFn cfg rest st1
      else chunkRows dateFn cfg rest st

/-- The chunk callback: a no-op once aborted, otherwise bump the scanned
count by the chunk length and run the row loop. -/
def procChunk (dateFn : CVal → Option Int) (cfg : PCfg) (st : PSt)
    (chunk : List RawRow) : PSt :=
  if st.aborted then st
  else chunkRows dateFn cfg chunk { st with rowCount := st.rowCount + chunk.length }

/-- A whole `parseFile` run over a chunked source: process the chunks,
then the `complete` callback pivots the accumulated rows unless the run
already resolved by abortion. -/
def runParse (dateFn : CVal → Option Int) (cfg : PCfg)
    (chunks : List (List RawRow)) : List TelemetryFrame :=
  let fin := chunks.foldl (procChunk dateFn cfg) {}
  if fin.aborted then fin.result.getD []
  else pivotToFrames dateFn fin.rawRows

/-- Functional description of the matched rows of one chunk, given the
scanned-row count before the chunk (the `rowCount <= skipRows` check
compares the post-increment count, so a chunk is skipped or taken as a
whole). -/
def chunkMatched (cfg : PCfg) (rcBefore : Nat) (chunk : List RawRow) : List TRow :=
  if rcBefore + chunk.length ≤ cfg.skipRows then []
  else chunk.filterMap (fun raw =>
    let row := normalizeRow raw
    if isValidRow row && !rowSkipped cfg row then some row else none)

/-- Functional description of the full matched-row stream of a chunked
source (the rows that pass skipping, validation and filtering, in
order). -/
def allMatched (cfg : PCfg) : Nat → List (List RawRow) → List TRow
  | _, [] => []
  | rc, c :: cs => chunkMatched cfg rc c ++ allMatched cfg (rc + c.length) cs

end RaceDash

namespace RaceDash

/-! ## Vehicle and Lap entities, LapTimeCSVParser -/

/-- JS `parseInt(s, 10)`: optional sign, then leading decimal digits;
`none` models `NaN`. -/
def jsParseInt (s : String) : Option Int :=
  let cs := s.toList
  let signRest : Int × List Char :=
    match cs with
    | '-' :: r => (-1, r)
    | '+' :: r => (1, r)
    | r => (1, r)
  let ds := signRest.2.takeWhile Char.isDigit
  if ds.isEmpty then none
  else some (signRest.1 * (ds.foldl (fun a c => 10 * a + ((c.toNat : Int) - ('0'.toNat : Int))) 0))

/-- The `Vehicle` entity: chassis, car number (`none` = `NaN` from
`parseInt`), and the composite id computed in the constructor. -/
structure Vehicle where
  chassis : String
  carNumber : Option Int
  id : String
deriving DecidableEq, Repr

/-- Rendering of the car number in the composite id template literal. -/
def carNumStr : Option Int → String
  | some n => toString n
  | none => "NaN"

/-- The `Vehicle` constructor (validation plus composite id). -/
def mkVehicle (chassis : String) (carNumber : Option Int) : Option Vehicle :=
  if chassis == "" || jsTrim chassis == "" then none
  else if (match carNumber with | some n => decide (n < 0) | none => false) then none
  else some { chassis := chassis, carNumber := carNumber,
              id := chassis ++ "-" ++ carNumStr carNumber }

/-- `Vehicle.toJSON`. -/
def Vehicle.toJSONv (v : Vehicle) : String × Option Int := (v.chassis, v.carNumber)

/-- The `Lap` entity (post-validation). `lapNumber` is a raw JS number
(possibly `NaN`), times are valid millisecond instants. -/
structure Lap where
  lapNumber : CVal
  vehicle : Vehicle
  startTime : Int
  endTime : Int
  sectorTimes : List (String × ℚ)
deriving DecidableEq, Repr

/-- Interface `LapData` (constructor input). -/
structure LapData where
  lapNumber : CVal
  vehicle : Option Vehicle
  startTime : TsIn
  endTime : TsIn
  sectorTimes : List (String × ℚ) := []
deriving DecidableEq, Repr

/-- The `Lap` constructor: validation in source order. -/
def mkLap (dateFn : CVal → Option Int) (d : LapData) : Option Lap :=
  if d.lapNumber.ltNum 0 then none
  else match d.vehicle with
  | none => none
  | some veh =>
    if !d.startTime.truthy then none
    else match d.startTime.eval dateFn with
    | none => none
    | some ts =>
      if !d.endTime.truthy then none
      else match d.endTime.eval dateFn with
      | none => none
      | some te =>
        if te ≤ ts then none
        else some { lapNumber := d.lapNumber, vehicle := veh,
                    startTime := ts, endTime := te, sectorTimes := d.sectorTimes }

/-- `Lap.durationMs` (derived). -/
def Lap.durationMs (l : Lap) : Int := l.endTime - l.startTime

/-- `Lap.toJSON` output (interface `LapDataJSON`), parametrised by ISO
serialisation. -/
structure LapJSON where
  lapNumber : CVal
  vehicle : String × Option Int
  startTime : String
  endTime : String
  durationMs : Int
  sectorTimes : List (String × ℚ)
deriving DecidableEq, Repr

/-- `Lap.toJSON`. -/
def Lap.toJSONl (toISO : Int → String) (l : Lap) : LapJSON :=
  { lapNumber := l.lapNumber
    vehicle := l.vehicle.toJSONv
    startTime := toISO l.startTime
    endTime := toISO l.endTime
    durationMs := l.durationMs
    sectorTimes := l.sectorTimes }

/-- Modelled from the spec: rebuilding a `Lap` from its serialized plain
form.  The repository has no `fromJSON` for `Lap`; per §8 "Round-trip"
the rebuild constructs a `Vehicle` from the plain vehicle data and a
`Lap` from the remaining plain fields. -/
def rebuildLap (dateFn : CVal → Option Int) (j : LapJSON) : Option Lap :=
  mkLap dateFn
    { lapNumber := j.lapNumber
      vehicle := mkVehicle j.vehicle.1 j.vehicle.2
      startTime := .ofStr j.startTime
      endTime := .ofStr j.endTime
      sectorTimes := j.sectorTimes }

/-- `LapTimeCSVParser.isValidRow` (the lap parser reads raw fields
directly, no alias normalisation). -/
def lapRowValid (r : RawRow) : Bool :=
  (r.get "vehicle_id").truthy && (r.get "lap").isNum && (r.get "timestamp").truthy

/-- `LapTimeCSVParser.parseVehicleId`: split on `-`; with at least three
parts, chassis is part 1 and car number `parseInt` of part 2, else the
whole id with car number 0. -/
def parseVehicleId (vehicleId : String) : String × Option Int :=
  let parts := splitOnChar '-' vehicleId
  if 3 ≤ parts.length then (parts.getD 1 "", jsParseInt (parts.getD 2 ""))
  else (vehicleId, some 0)

/-- Substring test (JS `String.prototype.includes`). -/
def strContains (s sub : String) : Bool := hasInfixList sub.toList s.toList

/-- `LapTimeCSVParser.parseSectorTimes`: keys starting with `sector_` or
whose lowercase form contains `im`, keeping positive numeric values.
(Parsed CSV rows have pairwise distinct property names.) -/
def parseSectorTimes (row : RawRow) : List (String × ℚ) :=
  row.filterMap (fun p =>
    if strStarts p.1 "sector_" || strContains (jsToLower p.1) "im" then
      match p.2 with
      | .num q => if 0 < q then some (p.1, q) else none
      | _ => none
    else none)

/-- JS `a > b` on row `value` fields: string-vs-string compares
lexicographically, otherwise numeric comparison with `NaN` false. -/
def cvalGtVal (a b : CVal) : Bool :=
  match a, b with
  | .str s, .str t => t < s
  | x, y =>
    match x.toNumber, y.toNumber with
    | some p, some q => q < p
    | _, _ => false

/-- The `(a, b) => a.lap - b.lap` comparator as a sort precondition
(total: rows with a `NaN` lap have no defined order, as in JS). -/
def leLap (a b : RawRow) : Bool :=
  match (a.get "lap").toNumber, (b.get "lap").toNumber with
  | some x, some y => x ≤ y
  | _, _ => true

/-- One step of the duplicate-lap fold: keep the existing row unless the
new row's raw `value` is strictly larger. -/
def dedupeStep (m : List (CVal × RawRow)) (row : RawRow) : List (CVal × RawRow) :=
  match List.lookup (row.get "lap") m with
  | some existing =>
    if cvalGtVal (row.get "value") (existing.get "value") then
      m.map (fun p => if p.1 = row.get "lap" then (p.1, row) else p)
    else m
  | none => m ++ [(row.get "lap", row)]

/-- Per-vehicle pipeline of `processRows`: sort by lap, deduplicate by
lap number (larger raw `value` wins), and sort the unique rows by lap
again. -/
def sortedUniqueRows (vrows : List RawRow) : List RawRow :=
  let sorted := vrows.insertionSort (fun a b => leLap a b = true)
  let uniq := sorted.foldl dedupeStep []
  (uniq.map Prod.snd).insertionSort (fun a b => leLap a b = true)

/-- `LapTimeCSVParser.convertToLap` (the caller catches construction
errors, so failures yield `none`). -/
def convertToLap (dateFn : CVal → Option Int) (row : RawRow)
    (prevRow : Option RawRow) : Option Lap :=
  match row.get "vehicle_id" with
  | .str vid =>
    let pv := parseVehicleId vid
    match mkVehicle pv.1 pv.2 with
    | none => none
    | some veh =>
      let endTime : Option Int := dateFn (row.get "timestamp")
      let start0 : Option Int :=
        match prevRow with
        | some p => dateFn (p.get "timestamp")
        | none => endTime.map (fun t => t - 120000)
      let start1 : Option Int :=
        match start0, endTime with
        | some s, some e => if s ≥ e then some (e - 120000) else some s
        | s, _ => s
      mkLap dateFn
        { lapNumber := row.get "lap"
          vehicle := some veh
          startTime := .ofDate start1
          endTime := .ofDate endTime
          sectorTimes := parseSectorTimes row }
  | _ => none

/-- The conversion loop over a vehicle's sorted unique rows: the
previous row advances even when a conversion fails. -/
def lapsOf (dateFn : CVal → Option Int) : Option RawRow → List RawRow → List Lap
  | _, [] => []
  | prev, r :: rs =>
    match convertToLap dateFn r prev with
    | some l => l :: lapsOf dateFn (some r) rs
    | none => lapsOf dateFn (some r) rs

/-- Insertion-ordered grouping of lap rows by raw `vehicle_id`. -/
def groupByVehicle (rows : List RawRow) : List (CVal × List RawRow) :=
  rows.foldl (fun gs row =>
    let k := row.get "vehicle_id"
    if (List.lookup k gs).isSome then
      gs.map (fun p => if p.1 = k then (p.1, p.2 ++ [row]) else p)
    else gs ++ [(k, [row])]) []

/-- `LapTimeCSVParser.processRows`. -/
def processRows (dateFn : CVal → Option Int) (rows : List RawRow) : List Lap :=
  (groupByVehicle rows).flatMap (fun g => lapsOf dateFn none (sortedUniqueRows g.2))

/-- A whole lap-parser run (`step` accumulates valid rows, `complete`
processes them). -/
def runLapParse (dateFn : CVal → Option Int) (rows : List RawRow) : List Lap :=
  processRows dateFn (rows.filter lapRowValid)

end RaceDash

namespace RaceDash

/-! ## TelemetryCache: LRU decorator

The doubly-linked `CacheNode` objects are modelled as a heap of records
addressed by allocation ids (`Nat`), so JS reference identity and
aliasing are explicit.  Every field read re-reads the current heap, in
statement order, exactly as the source mutates node objects. -/

/-- A `CacheNode` record: key plus prev/next references (`none` =
`null`). -/
structure CacheNode where
  key : String
  prev : Option Nat
  next : Option Nat
deriving DecidableEq, Repr

/-- The `TelemetryCache` state over cached data of type `α`: the node
heap, the allocation counter, the insertion-ordered hash map
`key → (node id, data)`, the list head/tail and the capacity. -/
structure CacheState (α : Type) where
  nodes : List (Nat × CacheNode)
  nextId : Nat
  entries : List (String × Nat × α)
  head : Option Nat
  tail : Option Nat
  maxSize : Nat
deriving DecidableEq, Repr

/-- A fresh cache (constructor). -/
def emptyCache (α : Type) (maxSize : Nat) : CacheState α :=
  { nodes := [], nextId := 0, entries := [], head := none, tail := none,
    maxSize := maxSize }

/-- Read a node object from the heap. -/
def getNode (s : CacheState α) (i : Nat) : Option CacheNode :=
  List.lookup i s.nodes

/-- Mutate `node.next` of the node with id `i`. -/
def updNext (s : CacheState α) (i : Nat) (v : Option Nat) : CacheState α :=
  { s with nodes := s.nodes.map (fun p => if p.1 = i then (p.1, { p.2 with next := v }) else p) }

/-- Mutate `node.prev` of the node with id `i`. -/
def updPrev (s : CacheState α) (i : Nat) (v : Option Nat) : CacheState α :=
  { s with nodes := s.nodes.map (fun p => if p.1 = i then (p.1, { p.2 with prev := v }) else p) }

/-- `Map.prototype.has` on the cache map. -/
def cacheHas (s : CacheState α) (k : String) : Bool :=
  (List.lookup k s.entries).isSome

/-- `Map.prototype.get` on the cache map. -/
def cacheLookup (s : CacheState α) (k : String) : Option (Nat × α) :=
  List.lookup k s.entries

/-- `Map.prototype.set` on the cache map (replace in place or append). -/
def cacheMapSet (s : CacheState α) (k : String) (v : Nat × α) : CacheState α :=
  if (List.lookup k s.entries).isSome then
    { s with entries := s.entries.map (fun p => if p.1 = k then (k, v) else p) }
  else { s with entries := s.entries ++ [(k, v)] }

/-- `Map.prototype.delete` on the cache map. -/
def cacheMapDelete (s : CacheState α) (k : String) : CacheState α :=
  { s with entries := s.entries.filter (fun p => p.1 ≠ k) }

/-- `TelemetryCache.addToFront`, statement by statement. -/
def addToFront (s : CacheState α) (i : Nat) : CacheState α :=
  let s1 := updNext s i s.head
  let s2 := updPrev s1 i none
  let s3 := match s2.head with
    | some h => updPrev s2 h (some i)
    | none => s2
  let s4 := { s3 with head := some i }
  if s4.tail = none then { s4 with tail := some i } else s4

/-- `TelemetryCache.moveToFront`.  Note: the source does not special-case
the node already being the head; field reads after each mutation re-read
the heap. -/
def moveToFront (s : CacheState α) (k : String) : CacheState α :=
  match cacheLookup s k with
  | none => s
  | some (i, _) =>
    match getNode s i with
    | none => s
    | some nd =>
      let s1 := match nd.prev with
        | some p => updNext s p nd.next
        | none => s
      let nd1 := (getNode s1 i).getD nd
      let s2 := match nd1.next with
        | some q => updPrev s1 q nd1.prev
        | none => s1
      let nd2 := (getNode s2 i).getD nd1
      let s3 := if s2.tail = some i then { s2 with tail := nd2.prev } else s2
      addToFront s3 i

/-- `TelemetryCache.remove` (unlinks the node; the map entry is not
deleted here, exactly as in the source). -/
def cacheRemove (s : CacheState α) (k : String) : CacheState α :=
  match cacheLookup s k with
  | none => s
  | some (i, _) =>
    match getNode s i with
    | none => s
    | some nd =>
      let s1 := match nd.prev with
        | some p => updNext s p nd.next
        | none => s
      let nd1 := (getNode s1 i).getD nd
      let s2 := match nd1.next with
        | some q => updPrev s1 q nd1.prev
        | none => s1
      let nd2 := (getNode s2 i).getD nd1
      let s3 := if s2.head = some i then { s2 with head := nd2.next } else s2
      let nd3 := (getNode s3 i).getD nd2
      if s3.tail = some i then { s3 with tail := nd3.prev } else s3

/-- `TelemetryCache.removeTail`. -/
def removeTail (s : CacheState α) : CacheState α :=
  match s.tail with
  | none => s
  | some t =>
    match getNode s t with
    | none => s
    | some nd =>
      match nd.prev with
      | some p =>
        let s1 := updNext s p none
        let nd1 := (getNode s1 t).getD nd
        { s1 with tail := nd1.prev }
      | none => { s with head := none, tail := none }

/-- The eviction step of `TelemetryCache.set`: at capacity, delete the
tail node's key from the map and unlink the tail. -/
def cacheEvict (s1 : CacheState α) : CacheState α :=
  if s1.maxSize ≤ s1.entries.length then
    match s1.tail with
    | some t =>
      removeTail (match getNode s1 t with
        | some nd => cacheMapDelete s1 nd.key
        | none => s1)
    | none => s1
  else s1

/-- `TelemetryCache.set`: optional unlink of an existing node, eviction
of the tail entry at capacity, then allocation of a fresh node placed at
the front. -/
def cacheSet (s : CacheState α) (k : String) (d : α) : CacheState α :=
  let s1 := if cacheHas s k then cacheRemove s k else s
  let s2 := cacheEvict s1
  let i := s2.nextId
  let s3 := { s2 with nodes := s2.nodes ++ [(i, { key := k, prev := none, next := none })],
                      nextId := i + 1 }
  let s4 := cacheMapSet s3 k (i, d)
  addToFront s4 i

/-- `TelemetryCache.getTelemetryByVehicleAndLap` over an abstract inner
repository function: composite key, hit path (move to front, return the
cached data), miss path (delegate, insert).  The lap argument is the raw
JS number of the call (modelled as an integer). -/
def cacheGet (s : CacheState α) (repo : String → Int → α) (v : String)
    (lap : Int) : α × CacheState α :=
  let key := v ++ "-" ++ toString lap
  match cacheLookup s key with
  | some (_, d) => (d, moveToFront s key)
  | none =>
    let d := repo v lap
    (d, cacheSet s key d)

/-- `TelemetryCache.saveTelemetry` / `clear` effect on the cache state:
full invalidation (the stale node objects stay in the heap, unreferenced,
as in JS before garbage collection). -/
def cacheClear (s : CacheState α) : CacheState α :=
  { s with entries := [], head := none, tail := none }

/-- Fold a list of `getTelemetryByVehicleAndLap` calls. -/
def runGets (repo : String → Int → α) (s : CacheState α)
    (ps : List (String × Int)) : CacheState α :=
  ps.foldl (fun st p => (cacheGet st repo p.1 p.2).2) s

end RaceDash

namespace RaceDash

/-! ## In-memory TelemetryRepository and the decorated call sequences -/

/-- `TelemetryRepository`: nested insertion-ordered map
`vehicleId → lap → TelemetryFrame[]`.  Lap keys are raw JS numbers
(`CVal`), compared with SameValueZero as JS `Map` keys are. -/
structure RepoState where
  data : List (String × List (CVal × List TelemetryFrame)) := []
deriving DecidableEq, Repr

/-- `TelemetryRepository.getTelemetryByVehicleAndLap` (returns a copy;
value semantics make the copy invisible). -/
def repoGetVL (R : RepoState) (v : String) (lap : CVal) : List TelemetryFrame :=
  match List.lookup v R.data with
  | none => []
  | some vd => (List.lookup lap vd).getD []

/-- `TelemetryRepository.getTelemetryByTimeRange`: all of the vehicle's
laps in map order, filtered to the closed time range, sorted by
timestamp. -/
def repoGetRange (R : RepoState) (v : String) (s e : Int) : List TelemetryFrame :=
  match List.lookup v R.data with
  | none => []
  | some vd =>
    (vd.flatMap (fun p =>
      p.2.filter (fun f => s ≤ f.timestamp && f.timestamp ≤ e))).insertionSort
      (fun a b => a.timestamp ≤ b.timestamp)

/-- `TelemetryRepository.getAllVehicleIds`. -/
def repoAllIds (R : RepoState) : List String := R.data.map Prod.fst

/-- `TelemetryRepository.getMaxLapNumber`: `Math.max` over the vehicle's
lap keys, `0` when the vehicle is absent or has no laps. -/
def repoMaxLap (R : RepoState) (v : String) : CVal :=
  match List.lookup v R.data with
  | none => .num 0
  | some vd =>
    match vd.map (fun p => p.1.toNumber) with
    | [] => .num 0
    | k :: ks => numOrNaN (ks.foldl jsMaxQ k)

/-- Append one frame into the nested store (get-or-create both
levels). -/
def repoInsert (R : RepoState) (f : TelemetryFrame) : RepoState :=
  let v := f.vehicleId
  let lap := f.lap
  match List.lookup v R.data with
  | none => { data := R.data ++ [(v, [(lap, [f])])] }
  | some vd =>
    let vd1 :=
      match List.lookup lap vd with
      | none => vd ++ [(lap, [f])]
      | some ld => vd.map (fun p => if p.1 = lap then (p.1, ld ++ [f]) else p)
    { data := R.data.map (fun p => if p.1 = v then (p.1, vd1) else p) }

/-- `TelemetryRepository.saveTelemetry`: insert all frames, then sort
each lap's frames by timestamp. -/
def repoSave (R : RepoState) (fs : List TelemetryFrame) : RepoState :=
  let R1 := fs.foldl repoInsert R
  { data := R1.data.map (fun p =>
      (p.1, p.2.map (fun q =>
        (q.1, q.2.insertionSort (fun a b => a.timestamp ≤ b.timestamp))))) }

/-- A repository-interface call. -/
inductive RCall where
  | getVL (v : String) (lap : Int)
  | getRange (v : String) (s e : Int)
  | allIds
  | maxLap (v : String)
  | save (fs : List TelemetryFrame)
  | clearAll
deriving DecidableEq, Repr

/-- The observable result of one repository-interface call. -/
inductive RObs where
  | frames (fs : List TelemetryFrame)
  | ids (l : List String)
  | numv (v : CVal)
  | done
deriving DecidableEq, Repr

/-- One call against the undecorated `TelemetryRepository`. -/
def stepRepo (R : RepoState) : RCall → RObs × RepoState
  | .getVL v lap => (.frames (repoGetVL R v (.num (lap : ℚ))), R)
  | .getRange v s e => (.frames (repoGetRange R v s e), R)
  | .allIds => (.ids (repoAllIds R), R)
  | .maxLap v => (.numv (repoMaxLap R v), R)
  | .save fs => (.done, repoSave R fs)
  | .clearAll => (.done, { data := [] })

/-- The decorated state: `TelemetryCache` wrapping the repository. -/
abbrev DecState := CacheState (List TelemetryFrame) × RepoState

/-- One call against the cache decorator (`TelemetryCache`): by-lap gets
go through the LRU, writes invalidate the whole cache, everything else
delegates. -/
def stepDec (d : DecState) : RCall → RObs × DecState
  | .getVL v lap =>
    let r := cacheGet d.1 (fun w l => repoGetVL d.2 w (.num (l : ℚ))) v lap
    (.frames r.1, (r.2, d.2))
  | .getRange v s e => (.frames (repoGetRange d.2 v s e), d)
  | .allIds => (.ids (repoAllIds d.2), d)
  | .maxLap v => (.numv (repoMaxLap d.2 v), d)
  | .save fs => (.done, (cacheClear d.1, repoSave d.2 fs))
  | .clearAll => (.done, (cacheClear d.1, { data := [] }))

/-- Run a call sequence against the undecorated repository, collecting
the observations. -/
def runRepoCalls (R : RepoState) : List RCall → List RObs × RepoState
  | [] => ([], R)
  | c :: cs =>
    let r := stepRepo R c
    let rest := runRepoCalls r.2 cs
    (r.1 :: rest.1, rest.2)

/-- Run a call sequence against the decorated repository. -/
def runDecCalls (d : DecState) : List RCall → List RObs × DecState
  | [] => ([], d)
  | c :: cs =>
    let r := stepDec d c
    let rest := runDecCalls r.2 cs
    (r.1 :: rest.1, rest.2)

end RaceDash

namespace RaceDash

/-! ## Claim C10: a lap filter of 0 is not applied -/

theorem chunkRows_congr (dateFn : CVal → Option Int) (cfg1 cfg2 : PCfg)
    (hmax : cfg1.maxRows = cfg2.maxRows) (hskip : cfg1.skipRows = cfg2.skipRows)
    (hf : ∀ r, rowSkipped cfg1 r = rowSkipped cfg2 r) :
    ∀ rows st, chunkRows dateFn cfg1 rows st = chunkRows dateFn cfg2 rows st := by
  intro rows
  induction rows with
  | nil => intro st; rfl
  | cons raw rest ih =>
    intro st
    simp only [chunkRows, hmax, hskip, hf]
    split <;> try exact ih st
    split <;> try exact ih st
    split <;> try exact ih st
    split
    · rfl
    · exact ih _

theorem runParse_congr (dateFn : CVal → Option Int) (cfg1 cfg2 : PCfg)
    (hmax : cfg1.maxRows = cfg2.maxRows) (hskip : cfg1.skipRows = cfg2.skipRows)
    (hf : ∀ r, rowSkipped cfg1 r = rowSkipped cfg2 r)
    (chunks : List (List RawRow)) :
    runParse dateFn cfg1 chunks = runParse dateFn cfg2 chunks := by
  have hproc : ∀ st c, procChunk dateFn cfg1 st c = procChunk dateFn cfg2 st c := by
    intro st c
    simp only [procChunk]
    split
    · rfl
    · exact chunkRows_congr dateFn cfg1 cfg2 hmax hskip hf c _
  have hfold : ∀ (cs : List (List RawRow)) st,
      cs.foldl (procChunk dateFn cfg1) st = cs.foldl (procChunk dateFn cfg2) st := by
    intro cs
    induction cs with
    | nil => intro st; rfl
    | cons c cs ih => intro st; simp only [List.foldl, hproc, ih]
  simp only [runParse, hfold]

theorem allMatched_congr (cfg1 cfg2 : PCfg)
    (hskip : cfg1.skipRows = cfg2.skipRows)
    (hf : ∀ r, rowSkipped cfg1 r = rowSkipped cfg2 r) :
    ∀ n chunks, allMatched cfg1 n chunks = allMatched cfg2 n chunks := by
  intro n chunks
  induction chunks generalizing n with
  | nil => rfl
  | cons c cs ih =>
    simp only [allMatched, chunkMatched, hskip, hf, ih]

/-- C10: with `filter.lap = 0` the lap filter is not applied at all:
`filter.lap &&` is falsy at `0`, so the run is identical — same
accumulated matched rows, same pivoted output — to the run whose filter
omits `lap`. -/
theorem c10_lap_zero_filter (dateFn : CVal → Option Int) (cfg : PCfg)
    (chunks : List (List RawRow)) :
    runParse dateFn { cfg with filterLap := some 0 } chunks =
      runParse dateFn { cfg with filterLap := none } chunks ∧
    allMatched { cfg with filterLap := some 0 } 0 chunks =
      allMatched { cfg with filterLap := none } 0 chunks := by
  have hf : ∀ r, rowSkipped { cfg with filterLap := some 0 } r =
      rowSkipped { cfg with filterLap := none } r := by
    intro r
    simp [rowSkipped]
  exact ⟨runParse_congr dateFn { cfg with filterLap := some 0 }
      { cfg with filterLap := none } rfl rfl hf chunks,
    allMatched_congr { cfg with filterLap := some 0 }
      { cfg with filterLap := none } rfl hf 0 chunks⟩

end RaceDash


namespace RaceDash

/-! ## Claim C9: serialisation round-trips -/

theorem mkLap_inv (dateFn : CVal → Option Int) (d : LapData) (l : Lap)
    (h : mkLap dateFn d = some l) :
    l.lapNumber.ltNum 0 = false ∧ l.startTime < l.endTime := by
  simp only [mkLap] at h
  split at h
  next h1 => simp at h
  next h1 =>
    split at h
    next => simp at h
    next veh =>
      split at h
      next h2 => simp at h
      next h2 =>
        split at h
        next => simp at h
        next ts =>
          split at h
          next h3 => simp at h
          next h3 =>
            split at h
            next => simp at h
            next te =>
              split at h
              next h4 => simp at h
              next h4 =>
                injection h with h
                subst h
                refine ⟨by simpa using h1, by simpa using h4⟩

theorem mkFrame_inv (dateFn : CVal → Option Int) (d : FrameData)
    (f : TelemetryFrame) (h : mkFrame dateFn d = .ok f) :
    f = { timestamp := (d.timestamp.eval dateFn).getD 0, vehicleId := d.vehicleId,
          lap := d.lap, speed := d.speed, throttlePos := d.throttlePos,
          brakePos := d.brakePos, gpsLatitude := d.gpsLatitude,
          gpsLongitude := d.gpsLongitude, steeringAngle := d.steeringAngle,
          gear := d.gear } ∧
    (d.vehicleId == "" || jsTrim d.vehicleId == "") = false ∧
    d.lap.ltNum 0 = false ∧ d.speed.ltNum 0 = false ∧
    (d.throttlePos.ltNum 0 || d.throttlePos.gtNum 100) = false ∧
    (d.brakePos.ltNum 0 || d.brakePos.gtNum 100) = false := by
  simp only [mkFrame] at h
  split at h
  next h1 => simp at h
  next h1 =>
    split at h
    next h2 => simp at h
    next h2 =>
      split at h
      next h3 => simp at h
      next h3 =>
        split at h
        next h4 => simp at h
        next h4 =>
          split at h
          next h5 => simp at h
          next h5 =>
            split at h
            next h6 => simp at h
            next h6 =>
              injection h with h
              subst h
              refine ⟨rfl, by simpa using h2, by simpa using h3,
                by simpa using h4, by simpa using h5, by simpa using h6⟩

/-- C9: a `TelemetryFrame` rebuilt from its `toJSON` output equals the
original frame in every field, and a `Lap` rebuilt from its serialized
plain form equals the original lap (hence has the same derived
`durationMs`) - whenever ISO serialisation round-trips on the instants
involved (the documented behaviour of `Date.prototype.toISOString` with
the `Date` constructor, stated pointwise) and the lap's vehicle was
itself built by the `Vehicle` constructor. -/
theorem c9_round_trip (dateFn : CVal → Option Int) (toISO : Int → String)
    (d : FrameData) (f : TelemetryFrame) (dL : LapData) (l : Lap)
    (hf : mkFrame dateFn d = .ok f)
    (hiso : dateFn (.str (toISO f.timestamp)) = some f.timestamp)
    (hne : toISO f.timestamp ≠ "")
    (hl : mkLap dateFn dL = some l)
    (hisoS : dateFn (.str (toISO l.startTime)) = some l.startTime)
    (hisoE : dateFn (.str (toISO l.endTime)) = some l.endTime)
    (hneS : toISO l.startTime ≠ "") (hneE : toISO l.endTime ≠ "")
    (hveh : mkVehicle l.vehicle.chassis l.vehicle.carNumber = some l.vehicle) :
    mkFrame dateFn (f.toJSON toISO) = .ok f ∧
    rebuildLap dateFn (l.toJSONl toISO) = some l ∧
    ∀ l2, rebuildLap dateFn (l.toJSONl toISO) = some l2 →
      l2.durationMs = l.durationMs := by
  obtain ⟨hfeq, hv, hlap, hsp, hth, hbr⟩ := mkFrame_inv dateFn d f hf
  obtain ⟨hlapn, hlt⟩ := mkLap_inv dateFn dL l hl
  have hv2 : (f.vehicleId == "" || jsTrim f.vehicleId == "") = false := by
    rw [hfeq]; exact hv
  have hlap2 : f.lap.ltNum 0 = false := by rw [hfeq]; exact hlap
  have hsp2 : f.speed.ltNum 0 = false := by rw [hfeq]; exact hsp
  have hth2 : (f.throttlePos.ltNum 0 || f.throttlePos.gtNum 100) = false := by
    rw [hfeq]; exact hth
  have hbr2 : (f.brakePos.ltNum 0 || f.brakePos.gtNum 100) = false := by
    rw [hfeq]; exact hbr
  have hne2 : (toISO f.timestamp != "") = true := by simpa using hne
  have part1 : mkFrame dateFn (f.toJSON toISO) = .ok f := by
    simp only [mkFrame, TelemetryFrame.toJSON, TsIn.eval, TsIn.truthy, hiso,
      hne2, Option.isNone_some, Bool.not_true, Bool.or_false, Bool.false_eq_true,
      if_false, hv2, hlap2, hsp2, hth2, hbr2, Option.getD_some]
  have hreb : rebuildLap dateFn (l.toJSONl toISO) = some l := by
    have cS : (toISO l.startTime != "") = true := by simpa using hneS
    have cE : (toISO l.endTime != "") = true := by simpa using hneE
    simp only [rebuildLap, Lap.toJSONl, Vehicle.toJSONv, hveh, mkLap, hlapn,
      Bool.false_eq_true, if_false, cS, cE, Bool.not_true, TsIn.truthy, TsIn.eval,
      hisoS, hisoE]
    rw [if_neg (by omega)]
  exact ⟨part1, hreb, fun l2 h2 => by
    rw [hreb] at h2; injection h2 with h2; rw [h2]⟩

end RaceDash

namespace RaceDash

/-- Concrete date function for witnesses: inverts `toString` on the
instants 0, 7 and 42. -/
def dateFnW : CVal → Option Int := fun v =>
  match v with
  | .str "42" => some 42
  | .str "7" => some 7
  | .str "0" => some 0
  | _ => none

/-- Concrete ISO serialiser for witnesses. -/
def isoW : Int → String := fun t => toString t

def frameDataW : FrameData :=
  { timestamp := .ofDate (some 42), vehicleId := "V", lap := .num 3,
    speed := .num 0, throttlePos := .num 0, brakePos := .num 0,
    gpsLatitude := .num 0, gpsLongitude := .num 0 }

def frameW : TelemetryFrame :=
  { timestamp := 42, vehicleId := "V", lap := .num 3, speed := .num 0,
    throttlePos := .num 0, brakePos := .num 0, gpsLatitude := .num 0,
    gpsLongitude := .num 0, steeringAngle := .undef, gear := .undef }

def vehicleW : Vehicle := { chassis := "C", carNumber := some 3, id := "C-3" }

def lapDataW : LapData :=
  { lapNumber := .num 1, vehicle := some vehicleW,
    startTime := .ofDate (some 0), endTime := .ofDate (some 42) }

def lapW : Lap :=
  { lapNumber := .num 1, vehicle := vehicleW, startTime := 0, endTime := 42,
    sectorTimes := [] }

theorem c9_round_trip_witness :
    mkFrame dateFnW frameDataW = .ok frameW ∧
    mkFrame dateFnW (frameW.toJSON isoW) = .ok frameW ∧
    rebuildLap dateFnW (lapW.toJSONl isoW) = some lapW :=
  have h := c9_round_trip dateFnW isoW frameDataW frameW lapDataW lapW
    rfl rfl (by decide) rfl rfl rfl (by decide) (by decide) rfl
  ⟨rfl, h.1, h.2.1⟩

end RaceDash

namespace RaceDash

/-! ## Claim C5: row validity predicate -/

/-- A JS value that is a string or nullish. -/
def strOrNull (v : CVal) : Prop := (∃ s, v = .str s) ∨ v = .undef ∨ v = .null

/-- A JS value that is a finite number or nullish. -/
def numOrNull (v : CVal) : Prop := (∃ q, v = .num q) ∨ v = .undef ∨ v = .null

theorem chunkRows_rawRows_valid (dateFn : CVal → Option Int) (cfg : PCfg) :
    ∀ rows (st : PSt), (∀ r ∈ st.rawRows, isValidRow r = true) →
      ∀ r ∈ (chunkRows dateFn cfg rows st).rawRows, isValidRow r = true := by
  intro rows
  induction rows with
  | nil => intro st h; exact h
  | cons raw rest ih =>
    intro st h
    simp only [chunkRows]
    split
    · exact ih st h
    · split
      next hvalid =>
        split
        · exact ih st h
        · have happ : ∀ r ∈ st.rawRows ++ [normalizeRow raw], isValidRow r = true := by
            intro r hr
            rcases List.mem_append.mp hr with hr | hr
            · exact h r hr
            · rcases List.mem_singleton.mp hr with rfl
              exact hvalid
          split
          · exact happ
          · exact ih _ happ
      next => exact ih st h

theorem foldl_rawRows_valid (dateFn : CVal → Option Int) (cfg : PCfg) :
    ∀ (chunks : List (List RawRow)) (st : PSt),
      (∀ r ∈ st.rawRows, isValidRow r = true) →
      ∀ r ∈ (chunks.foldl (procChunk dateFn cfg) st).rawRows, isValidRow r = true := by
  intro chunks
  induction chunks with
  | nil => intro st h; exact h
  | cons c cs ih =>
    intro st h
    refine ih _ ?_
    simp only [procChunk]
    split
    · exact h
    · exact chunkRows_rawRows_valid dateFn cfg c _ h

theorem truthy_iff_str (v : CVal) (h : strOrNull v) :
    v.truthy = true ↔ ∃ s, v = .str s ∧ s ≠ "" := by
  rcases h with ⟨s, rfl⟩ | rfl | rfl <;> simp [CVal.truthy]

theorem present_iff_num (v : CVal) (h : numOrNull v) :
    (v.truthy || v == .num 0) = true ↔ ∃ q, v = .num q := by
  rcases h with ⟨q, rfl⟩ | rfl | rfl
  · by_cases hq : q = 0 <;> simp [CVal.truthy, hq]
  · simp [CVal.truthy]
  · simp [CVal.truthy]

theorem isNum_iff (v : CVal) (h : v ≠ CVal.nan) :
    v.isNum = true ↔ ∃ q, v = .num q := by
  cases v with
  | nan => exact absurd rfl h
  | _ => simp [CVal.isNum]

/-- C5: under the field types declared by the `TelemetryRow` interface
(string-or-missing `telemetry_name`, `timestamp`, `vehicle_id`;
number-or-missing `telemetry_value`; non-`NaN` `lap`), a normalized
record is accepted by `isValidRow` iff its telemetry_name is a non-empty
string, its telemetry_value is a present number (zero included), its
timestamp and vehicle_id are non-empty strings, and its lap is numeric;
and every row the ingestion machine ever accumulates (hence everything
handed to the pivot step) satisfies `isValidRow` - invalid records are
dropped and never reach the Pivot Engine. -/
theorem c5_row_validity (row : TRow)
    (hname : strOrNull row.telemetry_name)
    (hval : numOrNull row.telemetry_value)
    (hts : strOrNull row.timestamp)
    (hvid : strOrNull row.vehicle_id)
    (hlapn : row.lap ≠ .nan) :
    (isValidRow row = true ↔
      ((∃ s, row.telemetry_name = .str s ∧ s ≠ "") ∧
       (∃ q, row.telemetry_value = .num q) ∧
       (∃ s, row.timestamp = .str s ∧ s ≠ "") ∧
       (∃ s, row.vehicle_id = .str s ∧ s ≠ "") ∧
       (∃ q, row.lap = .num q))) ∧
    (∀ (dateFn : CVal → Option Int) (cfg : PCfg) (chunks : List (List RawRow)) (n : Nat),
      ∀ r ∈ (((chunks.take n).foldl (procChunk dateFn cfg) {}) : PSt).rawRows,
        isValidRow r = true) := by
  constructor
  · simp only [isValidRow, Bool.and_eq_true, truthy_iff_str _ hname,
      present_iff_num _ hval, truthy_iff_str _ hts, truthy_iff_str _ hvid,
      isNum_iff _ hlapn, and_assoc]
  · intro dateFn cfg chunks n
    exact foldl_rawRows_valid dateFn cfg (chunks.take n) {}
      (by intro r hr; simp [PSt.rawRows] at hr)

end RaceDash

namespace RaceDash

def rowW : TRow :=
  { timestamp := .str "t", vehicle_id := .str "V", lap := .num 2,
    telemetry_name := .str "speed", telemetry_value := .num 0 }

theorem c5_row_validity_witness : isValidRow rowW = true :=
  (c5_row_validity rowW (Or.inl ⟨"speed", rfl⟩) (Or.inl ⟨0, rfl⟩)
    (Or.inl ⟨"t", rfl⟩) (Or.inl ⟨"V", rfl⟩) (by decide)).1.mpr
    ⟨⟨"speed", rfl, by decide⟩, ⟨0, rfl⟩, ⟨"t", rfl, by decide⟩,
     ⟨"V", rfl, by decide⟩, ⟨2, rfl⟩⟩

end RaceDash

namespace RaceDash

/-! ## Association-list lookup lemmas (shared) -/

theorem lookup_cons {α β : Type} [BEq α] (k a : α) (b : β) (l : List (α × β)) :
    List.lookup k ((a, b) :: l) =
      if k == a then some b else List.lookup k l := by
  cases h : k == a <;> simp [List.lookup, h]

theorem lookup_map_repl {α β : Type} [BEq α] [LawfulBEq α] [DecidableEq α]
    (k k2 : α) (v : β) (h : k ≠ k2) :
    ∀ m : List (α × β),
      List.lookup k (m.map (fun p => if p.1 = k2 then (k2, v) else p)) =
        List.lookup k m := by
  intro m
  induction m with
  | nil => rfl
  | cons p m ih =>
    obtain ⟨a, b⟩ := p
    by_cases hp : a = k2
    · subst hp
      have hk : (k == a) = false := by simpa using h
      simp [List.map, lookup_cons, hk, ih]
    · simp only [List.map, if_neg hp, lookup_cons]
      cases k == a
      · simpa using ih
      · rfl

theorem lookup_map_repl_self {α β : Type} [BEq α] [LawfulBEq α] [DecidableEq α]
    (k : α) (v : β) :
    ∀ m : List (α × β), (List.lookup k m).isSome →
      List.lookup k (m.map (fun p => if p.1 = k then (k, v) else p)) = some v := by
  intro m
  induction m with
  | nil => intro h; simp [List.lookup] at h
  | cons p m ih =>
    intro h
    obtain ⟨a, b⟩ := p
    by_cases hp : a = k
    · subst hp
      simp [List.map, lookup_cons]
    · have hk : (k == a) = false := by
        simp only [beq_eq_false_iff_ne, ne_eq]
        exact fun h2 => hp h2.symm
      simp only [lookup_cons, hk] at h
      simp only [List.map, if_neg hp, lookup_cons, hk]
      exact ih h

theorem lookup_append_kv {α β : Type} [BEq α] (k : α) :
    ∀ (m l2 : List (α × β)),
      List.lookup k (m ++ l2) =
        (match List.lookup k m with
         | some v => some v
         | none => List.lookup k l2) := by
  intro m l2
  induction m with
  | nil => rfl
  | cons p m ih =>
    obtain ⟨a, b⟩ := p
    simp only [List.cons_append, lookup_cons]
    cases k == a
    · simpa using ih
    · rfl

theorem lookup_setV (k k2 : String) (v : CVal) (m : Metrics) :
    List.lookup k (m.setV k2 v) = if k = k2 then some v else List.lookup k m := by
  by_cases hs : (List.lookup k2 m).isSome
  · simp only [Metrics.setV, hs, if_true]
    by_cases hk : k = k2
    · subst hk
      rw [lookup_map_repl_self k v m hs]
      simp
    · rw [lookup_map_repl k k2 v hk m, if_neg hk]
  · have hs2 : (List.lookup k2 m).isSome = false := Bool.eq_false_iff.mpr hs
    simp only [Metrics.setV, hs2, Bool.false_eq_true, if_false]
    rw [lookup_append_kv]
    by_cases hk : k = k2
    · subst hk
      have hnone : List.lookup k m = none := by
        cases h : List.lookup k m
        · rfl
        · rw [h] at hs; simp at hs
      rw [hnone, if_pos rfl]
      simp [lookup_cons]
    · rw [if_neg hk]
      cases h : List.lookup k m
      · have hkb : (k == k2) = false := by simpa using hk
        simp [lookup_cons, hkb]
      · rfl

end RaceDash

namespace RaceDash

/-! ## Claim C7: throttle/brake clamping -/

theorem mem_of_lookup {α β : Type} [BEq α] [LawfulBEq α] (k : α) (b : β) :
    ∀ l : List (α × β), List.lookup k l = some b → (k, b) ∈ l := by
  intro l
  induction l with
  | nil => intro h; simp [List.lookup] at h
  | cons p l ih =>
    obtain ⟨a, c⟩ := p
    rw [lookup_cons]
    by_cases hk : (k == a) = true
    · rw [if_pos hk]
      intro h
      injection h with h
      subst h
      have : k = a := by simpa using hk
      subst this
      exact List.mem_cons_self _ _
    · rw [if_neg hk]
      intro h
      exact List.mem_cons_of_mem _ (ih h)

theorem mem_groupsSet (gs : List (String × Metrics)) (k : String) (m : Metrics) :
    ∀ g ∈ groupsSet gs k m, g ∈ gs ∨ g = (k, m) := by
  intro g hg
  by_cases h : (List.lookup k gs).isSome
  · simp only [groupsSet, h, if_true] at hg
    obtain ⟨p, hp, he⟩ := List.mem_map.mp hg
    by_cases hpk : p.1 = k
    · right; rw [← he, if_pos hpk]
    · left; rw [← he, if_neg hpk]; exact hp
  · have h2 : (List.lookup k gs).isSome = false := Bool.eq_false_iff.mpr h
    simp only [groupsSet, h2, Bool.false_eq_true, if_false] at hg
    rcases List.mem_append.mp hg with hg | hg
    · exact Or.inl hg
    · exact Or.inr (List.mem_singleton.mp hg)

/-- The three bookkeeping keys of a pivot group's metric table. -/
def reservedKeys : List String := ["_timestamp", "_vehicle_id", "_lap"]

/-- A (key, value) read of a metric table that is either absent or a
finite number. -/
def numOrMissing (mt : Metrics) (key : String) : Prop :=
  List.lookup key mt = none ∨ ∃ q, List.lookup key mt = some (.num q)

/-- All non-bookkeeping keys of the table hold finite numbers (when the
source rows' telemetry values are numbers). -/
def tableOK (mt : Metrics) : Prop :=
  ∀ key, key ∉ reservedKeys → numOrMissing mt key

theorem pivotStep_tableOK (dateFn : CVal → Option Int)
    (gs : List (String × Metrics)) (r : TRow)
    (hr : ∃ q, r.telemetry_value = .num q)
    (hgs : ∀ g ∈ gs, tableOK g.2) :
    ∀ g ∈ pivotStep dateFn gs r, tableOK g.2 := by
  intro g hg
  rcases mem_groupsSet _ _ _ g hg with hmem | rfl
  · exact hgs g hmem
  · intro key hk
    have hk1 : key ≠ "_timestamp" := fun h => hk (by simp [reservedKeys, h])
    have hk2 : key ≠ "_vehicle_id" := fun h => hk (by simp [reservedKeys, h])
    have hk3 : key ≠ "_lap" := fun h => hk (by simp [reservedKeys, h])
    show numOrMissing _ key
    simp only
    set m0 := (List.lookup (groupKey r) gs).getD [] with hm0
    have h4 : ∀ mt : Metrics, List.lookup key
        (if mt.hasK "_lap" then mt else mt.setV "_lap" r.lap) = List.lookup key mt := by
      intro mt
      split
      · rfl
      · rw [lookup_setV, if_neg hk3]
    have h3 : ∀ mt : Metrics, List.lookup key
        (if mt.hasK "_vehicle_id" then mt else mt.setV "_vehicle_id" r.vehicle_id) =
          List.lookup key mt := by
      intro mt
      split
      · rfl
      · rw [lookup_setV, if_neg hk2]
    have h2 : ∀ mt : Metrics, List.lookup key
        (if mt.hasK "_timestamp" then mt else
          mt.setV "_timestamp" (numOrNaN ((dateFn r.timestamp).map (fun t => (t : ℚ))))) =
          List.lookup key mt := by
      intro mt
      split
      · rfl
      · rw [lookup_setV, if_neg hk1]
    unfold numOrMissing
    rw [h4, h3, h2, lookup_setV]
    by_cases hname : key = jsToLower r.telemetry_name.jsString
    · rw [if_pos hname]
      obtain ⟨q, hq⟩ := hr
      exact Or.inr ⟨q, by rw [hq]⟩
    · rw [if_neg hname]
      cases hl : List.lookup (groupKey r) gs with
      | none => simp [hm0, hl, List.lookup]
      | some mt =>
        have hmt := hgs (groupKey r, mt) (mem_of_lookup _ _ _ hl)
        have hme : m0 = mt := by rw [hm0, hl]; rfl
        rw [hme]
        exact hmt key hk

theorem pivot_fold_tableOK (dateFn : CVal → Option Int) :
    ∀ (rows : List TRow) (gs : List (String × Metrics)),
      (∀ r ∈ rows, ∃ q, r.telemetry_value = .num q) →
      (∀ g ∈ gs, tableOK g.2) →
      ∀ g ∈ rows.foldl (pivotStep dateFn) gs, tableOK g.2 := by
  intro rows
  induction rows with
  | nil => intro gs _ hgs; exact hgs
  | cons r rest ih =>
    intro gs hv hgs
    exact ih (pivotStep dateFn gs r)
      (fun x hx => hv x (List.mem_cons_of_mem _ hx))
      (pivotStep_tableOK dateFn gs r (hv r (List.mem_cons_self _ _)) hgs)

theorem getV_numOrMissing (mt : Metrics) (key : String)
    (h : numOrMissing mt key) :
    mt.getV key = .undef ∨ ∃ q, mt.getV key = .num q := by
  rcases h with h | ⟨q, h⟩
  · left; simp [Metrics.getV, h]
  · right; exact ⟨q, by simp [Metrics.getV, h]⟩

theorem jsOr_chain_num (a rest : CVal)
    (ha : a = .undef ∨ ∃ q, a = .num q) (hrest : ∃ q, rest = .num q) :
    ∃ q, jsOr a rest = .num q := by
  rcases ha with rfl | ⟨q, rfl⟩
  · simpa [jsOr, CVal.truthy] using hrest
  · by_cases hq : q = 0
    · simpa [jsOr, CVal.truthy, hq] using hrest
    · exact ⟨q, by simp [jsOr, CVal.truthy, hq]⟩

theorem clamp_num_bounds (q : ℚ) :
    clamp (.num q) 0 100 = .num (min (max q 0) 100) ∧
    0 ≤ min (max q 0) 100 ∧ min (max q 0) 100 ≤ 100 := by
  refine ⟨rfl, ?_, min_le_right _ _⟩
  exact le_min (le_max_right _ _) (by norm_num)

theorem throttle_num (dateFn : CVal → Option Int) (mt : Metrics)
    (h : tableOK mt) :
    ∃ q, (groupFrameData dateFn mt).throttlePos = .num q ∧ 0 ≤ q ∧ q ≤ 100 := by
  have ha := getV_numOrMissing mt "ath" (h _ (by decide))
  have hb := getV_numOrMissing mt "throttle_pos" (h _ (by decide))
  have hc := getV_numOrMissing mt "throttle" (h _ (by decide))
  obtain ⟨q, hq⟩ := jsOr_chain_num _ _ ha
    (jsOr_chain_num _ _ hb (jsOr_chain_num _ _ hc ⟨0, rfl⟩))
  obtain ⟨hcl, h0, h100⟩ := clamp_num_bounds q
  refine ⟨min (max q 0) 100, ?_, h0, h100⟩
  simp only [groupFrameData]
  rw [hq, hcl]

theorem brake_num (dateFn : CVal → Option Int) (mt : Metrics)
    (h : tableOK mt) :
    ∃ q, (groupFrameData dateFn mt).brakePos = .num q ∧ 0 ≤ q ∧ q ≤ 100 := by
  have ha := getV_numOrMissing mt "pbrake_f" (h _ (by decide))
  have hb := getV_numOrMissing mt "pbrake_r" (h _ (by decide))
  have hc := getV_numOrMissing mt "brake_pos" (h _ (by decide))
  obtain ⟨qa, hqa⟩ := jsOr_chain_num _ _ ha ⟨0, rfl⟩
  obtain ⟨qb, hqb⟩ := jsOr_chain_num _ _ hb ⟨0, rfl⟩
  obtain ⟨qc, hqc⟩ := jsOr_chain_num _ _ hc ⟨0, rfl⟩
  have hmax : numOrNaN (jsMaxQ
      (jsMaxQ (jsOr (mt.getV "pbrake_f") (.num 0)).toNumber
              (jsOr (mt.getV "pbrake_r") (.num 0)).toNumber)
      (jsOr (mt.getV "brake_pos") (.num 0)).toNumber) =
        .num (max (max qa qb) qc) := by
    rw [hqa, hqb, hqc]
    rfl
  obtain ⟨hcl, h0, h100⟩ := clamp_num_bounds (max (max qa qb) qc)
  refine ⟨min (max (max (max qa qb) qc) 0) 100, ?_, h0, h100⟩
  simp only [groupFrameData]
  rw [hmax, hcl]

theorem mkFrame_no_clamp_error (dateFn : CVal → Option Int) (d : FrameData)
    (hth : (d.throttlePos.ltNum 0 || d.throttlePos.gtNum 100) = false)
    (hbr : (d.brakePos.ltNum 0 || d.brakePos.gtNum 100) = false) :
    mkFrame dateFn d ≠ .error .badThrottle ∧
    mkFrame dateFn d ≠ .error .badBrake := by
  simp only [mkFrame, hth, hbr, Bool.false_eq_true, if_false]
  split
  · exact ⟨by simp, by simp⟩
  · split
    · exact ⟨by simp, by simp⟩
    · split
      · exact ⟨by simp, by simp⟩
      · split
        · exact ⟨by simp, by simp⟩
        · exact ⟨by simp, by simp⟩

theorem num_not_out_of_range (v : CVal) (q : ℚ) (hv : v = .num q)
    (h0 : 0 ≤ q) (h100 : q ≤ 100) :
    (v.ltNum 0 || v.gtNum 100) = false := by
  subst hv
  simp [CVal.ltNum, CVal.gtNum, CVal.toNumber, not_lt.mpr h0, not_lt.mpr h100]

/-- C7: throttlePos and brakePos of every pivot-produced frame are
finite numbers in [0,100] whatever the (numeric) source metric values,
brake being the clamped maximum of the three brake channels with missing
channels treated as 0; consequently the TelemetryFrame constructor's
out-of-range throttle and brake branches are unreachable for
pivot-produced frame data. -/
theorem c7_clamping (dateFn : CVal → Option Int) (rows : List TRow)
    (hv : ∀ r ∈ rows, ∃ q, r.telemetry_value = .num q) :
    (∀ f ∈ pivotToFrames dateFn rows,
      (∃ q, f.throttlePos = .num q ∧ 0 ≤ q ∧ q ≤ 100) ∧
      (∃ q, f.brakePos = .num q ∧ 0 ≤ q ∧ q ≤ 100)) ∧
    (∀ g ∈ buildGroups dateFn rows,
      mkFrame dateFn (groupFrameData dateFn g.2) ≠ .error .badThrottle ∧
      mkFrame dateFn (groupFrameData dateFn g.2) ≠ .error .badBrake) := by
  have htab : ∀ g ∈ buildGroups dateFn rows, tableOK g.2 :=
    pivot_fold_tableOK dateFn rows [] hv (by intro g hg; simp at hg)
  constructor
  · intro f hf
    rw [pivotToFrames] at hf
    rw [List.mem_insertionSort, List.mem_filterMap] at hf
    obtain ⟨g, hg, hok⟩ := hf
    have hok2 : mkFrame dateFn (groupFrameData dateFn g.2) = .ok f := by
      cases hmk : mkFrame dateFn (groupFrameData dateFn g.2) with
      | ok x => rw [hmk] at hok; simpa [Except.toOption] using hok
      | error e => rw [hmk] at hok; simp [Except.toOption] at hok
    obtain ⟨hfeq, _, _, _, _, _⟩ := mkFrame_inv dateFn _ f hok2
    obtain ⟨qt, hqt, hqt0, hqt100⟩ := throttle_num dateFn g.2 (htab g hg)
    obtain ⟨qb, hqb, hqb0, hqb100⟩ := brake_num dateFn g.2 (htab g hg)
    constructor
    · exact ⟨qt, by rw [hfeq]; exact hqt, hqt0, hqt100⟩
    · exact ⟨qb, by rw [hfeq]; exact hqb, hqb0, hqb100⟩
  · intro g hg
    obtain ⟨qt, hqt, hqt0, hqt100⟩ := throttle_num dateFn g.2 (htab g hg)
    obtain ⟨qb, hqb, hqb0, hqb100⟩ := brake_num dateFn g.2 (htab g hg)
    exact mkFrame_no_clamp_error dateFn _
      (num_not_out_of_range _ _ hqt hqt0 hqt100)
      (num_not_out_of_range _ _ hqb hqb0 hqb100)

end RaceDash

namespace RaceDash

def dateFnC : CVal → Option Int := fun _ => some 0

def tableW : Metrics :=
  [("speed", .num 0), ("_timestamp", .num 0), ("_vehicle_id", .str "V"),
   ("_lap", .num 2)]

theorem c7_clamping_witness :
    mkFrame dateFnC (groupFrameData dateFnC tableW) ≠ .error .badThrottle ∧
    mkFrame dateFnC (groupFrameData dateFnC tableW) ≠ .error .badBrake :=
  (c7_clamping dateFnC [rowW]
    (fun r hr => by
      rcases List.mem_singleton.mp hr with rfl
      exact ⟨0, rfl⟩)).2 ("t_V_2", tableW) (by decide)

end RaceDash

namespace RaceDash

/-! ## Claim C3: maxRows cap and early termination -/

/-- The matched-row extraction applied to one raw row. -/
def matchedOf (cfg : PCfg) (raw : RawRow) : Option TRow :=
  let row := normalizeRow raw
  if isValidRow row && !rowSkipped cfg row then some row else none

theorem chunkMatched_eq (cfg : PCfg) (rc : Nat) (chunk : List RawRow) :
    chunkMatched cfg rc chunk =
      if rc + chunk.length ≤ cfg.skipRows then [] else chunk.filterMap (matchedOf cfg) := rfl

theorem chunkRows_skipAll (dateFn : CVal → Option Int) (cfg : PCfg) :
    ∀ (rows : List RawRow) (st : PSt), st.rowCount ≤ cfg.skipRows →
      chunkRows dateFn cfg rows st = st := by
  intro rows
  induction rows with
  | nil => intro st _; rfl
  | cons raw rest ih =>
    intro st h
    simp only [chunkRows, if_pos h]
    exact ih st h

theorem chunkRows_run (dateFn : CVal → Option Int) (cfg : PCfg) :
    ∀ (rows : List RawRow) (st : PSt),
      ¬ st.rowCount ≤ cfg.skipRows →
      st.aborted = false → st.result = none →
      st.rawRows.length < cfg.maxRows →
      chunkRows dateFn cfg rows st =
        (if (st.rawRows ++ rows.filterMap (matchedOf cfg)).length < cfg.maxRows then
          { st with rawRows := st.rawRows ++ rows.filterMap (matchedOf cfg) }
         else
          { st with
            rawRows := (st.rawRows ++ rows.filterMap (matchedOf cfg)).take cfg.maxRows,
            aborted := true,
            result := some (pivotToFrames dateFn
              ((st.rawRows ++ rows.filterMap (matchedOf cfg)).take cfg.maxRows)) }) := by
  intro rows
  induction rows with
  | nil =>
    intro st hskip hab hres hlen
    simp only [chunkRows, List.filterMap_nil, List.append_nil]
    rw [if_pos hlen]
  | cons raw rest ih =>
    intro st hskip hab hres hlen
    simp only [chunkRows, if_neg hskip]
    by_cases hvalid : isValidRow (normalizeRow raw) = true
    · simp only [hvalid, if_true]
      by_cases hskipped : rowSkipped cfg (normalizeRow raw) = true
      · simp only [hskipped, if_true]
        rw [ih st hskip hab hres hlen]
        have : rest.filterMap (matchedOf cfg) =
            (raw :: rest).filterMap (matchedOf cfg) := by
          simp [List.filterMap_cons, matchedOf, hvalid, hskipped]
        rw [this]
      · simp only [hskipped, Bool.false_eq_true, if_false]
        have hmcons : (raw :: rest).filterMap (matchedOf cfg) =
            normalizeRow raw :: rest.filterMap (matchedOf cfg) := by
          simp [List.filterMap_cons, matchedOf, hvalid, hskipped]
        by_cases hfull : cfg.maxRows ≤ (st.rawRows ++ [normalizeRow raw]).length
        · rw [if_pos hfull]
          have hlen1 : (st.rawRows ++ [normalizeRow raw]).length = cfg.maxRows := by
            simp only [List.length_append, List.length_singleton]
            simp only [List.length_append, List.length_singleton] at hfull
            omega
          have htake : ∀ tail : List TRow,
              (st.rawRows ++ normalizeRow raw :: tail).take cfg.maxRows =
                st.rawRows ++ [normalizeRow raw] := by
            intro tail
            rw [show st.rawRows ++ normalizeRow raw :: tail =
              (st.rawRows ++ [normalizeRow raw]) ++ tail by simp]
            rw [← hlen1]
            exact List.take_left _ _
          rw [hmcons]
          have hnotlt : ¬ (st.rawRows ++ normalizeRow raw ::
              rest.filterMap (matchedOf cfg)).length < cfg.maxRows := by
            simp only [List.length_append, List.length_cons]
            simp only [List.length_append, List.length_singleton] at hfull
            omega
          rw [if_neg hnotlt, htake]
        · rw [if_neg hfull]
          have hlt1 : (st.rawRows ++ [normalizeRow raw]).length < cfg.maxRows := by
            omega
          rw [ih { st with rawRows := st.rawRows ++ [normalizeRow raw] }
            hskip hab hres hlt1]
          rw [hmcons]
          have hassoc : ∀ tail : List TRow,
              (st.rawRows ++ [normalizeRow raw]) ++ tail =
                st.rawRows ++ normalizeRow raw :: tail := by
            intro tail; simp
          simp only [hassoc]
    · simp only [hvalid, Bool.false_eq_true, if_false]
      rw [ih st hskip hab hres hlen]
      have : rest.filterMap (matchedOf cfg) =
          (raw :: rest).filterMap (matchedOf cfg) := by
        simp [List.filterMap_cons, matchedOf, hvalid]
      rw [this]

end RaceDash

namespace RaceDash

/-- Total number of rows in a chunk list. -/
def totalLen (chunks : List (List RawRow)) : Nat := (chunks.map List.length).sum

theorem allMatched_append (cfg : PCfg) :
    ∀ (xs ys : List (List RawRow)) (n : Nat),
      allMatched cfg n (xs ++ ys) =
        allMatched cfg n xs ++ allMatched cfg (n + totalLen xs) ys := by
  intro xs
  induction xs with
  | nil => intro ys n; simp [allMatched, totalLen]
  | cons c xs ih =>
    intro ys n
    simp only [List.cons_append, allMatched, List.append_eq]
    rw [ih]
    have : n + c.length + totalLen xs = n + totalLen (c :: xs) := by
      simp [totalLen]; omega
    rw [this, List.append_assoc]

theorem foldl_proc_aborted (dateFn : CVal → Option Int) (cfg : PCfg) :
    ∀ (cs : List (List RawRow)) (st : PSt), st.aborted = true →
      cs.foldl (procChunk dateFn cfg) st = st := by
  intro cs
  induction cs with
  | nil => intro st _; rfl
  | cons c cs ih =>
    intro st h
    simp only [List.foldl, procChunk, h, if_true]
    exact ih st h

theorem foldl_proc_spec (dateFn : CVal → Option Int) (cfg : PCfg)
    (hM : 1 ≤ cfg.maxRows) :
    ∀ (chunks : List (List RawRow)),
      (((chunks.foldl (procChunk dateFn cfg) {}) : PSt).aborted = false ∧
       ((chunks.foldl (procChunk dateFn cfg) {}) : PSt).result = none ∧
       ((chunks.foldl (procChunk dateFn cfg) {}) : PSt).rowCount = totalLen chunks ∧
       ((chunks.foldl (procChunk dateFn cfg) {}) : PSt).rawRows =
         allMatched cfg 0 chunks ∧
       ((chunks.foldl (procChunk dateFn cfg) {}) : PSt).rawRows.length < cfg.maxRows)
      ∨
      (((chunks.foldl (procChunk dateFn cfg) {}) : PSt).aborted = true ∧
       ((chunks.foldl (procChunk dateFn cfg) {}) : PSt).rawRows =
         (allMatched cfg 0 chunks).take cfg.maxRows ∧
       cfg.maxRows ≤ (allMatched cfg 0 chunks).length ∧
       ((chunks.foldl (procChunk dateFn cfg) {}) : PSt).result =
         some (pivotToFrames dateFn
           (((chunks.foldl (procChunk dateFn cfg) {}) : PSt).rawRows))) := by
  intro chunks
  induction chunks using List.reverseRecOn with
  | nil =>
    left
    refine ⟨rfl, rfl, rfl, rfl, ?_⟩
    simpa [PSt.rawRows] using hM
  | append_singleton xs c ih =>
    rw [List.foldl_append] at *
    set st := xs.foldl (procChunk dateFn cfg) ({} : PSt) with hst
    have hAM : allMatched cfg 0 (xs ++ [c]) =
        allMatched cfg 0 xs ++ chunkMatched cfg (totalLen xs) c := by
      rw [allMatched_append]
      simp [allMatched]
    rcases ih with ⟨hab, hres, hrc, hraw, hlen⟩ | ⟨hab, hraw, hlenM, hres⟩
    · have hne : ¬ (st.aborted = true) := by rw [hab]; simp
      simp only [List.foldl, procChunk]
      rw [if_neg hne]
      by_cases hskip : st.rowCount + c.length ≤ cfg.skipRows
      · rw [chunkRows_skipAll dateFn cfg c _ (by simpa using hskip)]
        left
        have hcm : chunkMatched cfg (totalLen xs) c = [] := by
          rw [chunkMatched_eq, if_pos (by rw [← hrc]; exact hskip)]
        refine ⟨hab, hres, ?_, ?_, ?_⟩
        · simp [totalLen, hrc]
        · simp [hraw, hAM, hcm]
        · simpa [hraw] using hlen
      · have hrun := chunkRows_run dateFn cfg c
          { st with rowCount := st.rowCount + c.length }
          (by simpa using hskip) hab hres hlen
        rw [hrun]
        have hcm : chunkMatched cfg (totalLen xs) c = c.filterMap (matchedOf cfg) := by
          rw [chunkMatched_eq, if_neg (by rw [← hrc]; exact hskip)]
        by_cases hlt : (st.rawRows ++ c.filterMap (matchedOf cfg)).length < cfg.maxRows
        · rw [if_pos hlt]
          left
          refine ⟨hab, hres, ?_, ?_, ?_⟩
          · simp [totalLen, hrc]
          · simp [hraw, hAM, hcm]
          · simpa [hraw] using hlt
        · rw [if_neg hlt]
          right
          rw [hraw] at hlt
          refine ⟨rfl, ?_, ?_, rfl⟩
          · rw [hraw, hAM, hcm]
          · rw [hAM, hcm]
            omega
    · have : procChunk dateFn cfg st c = st := by
        simp [procChunk, hab]
      simp only [List.foldl_cons, List.foldl_nil, this]
      right
      have hle2 : cfg.maxRows ≤ (allMatched cfg 0 (xs ++ [c])).length := by
        rw [hAM, List.length_append]
        omega
      refine ⟨hab, ?_, hle2, hres⟩
      rw [hraw, hAM, List.take_append_of_le_length hlenM]

end RaceDash

namespace RaceDash

/-- C3: with `maxRows = M` (at least 1), the accumulated matched rows
never exceed M at any point of the run; the resolved result is the pivot
of exactly the first M matched rows of the stream (so rows and chunks
after the M-th match contribute nothing); and once a prefix has aborted,
processing any further chunks leaves the resolved result unchanged. -/
theorem c3_cap (dateFn : CVal → Option Int) (cfg : PCfg)
    (chunks : List (List RawRow)) (hM : 1 ≤ cfg.maxRows) :
    (∀ n, ((((chunks.take n).foldl (procChunk dateFn cfg) {}) : PSt)).rawRows.length ≤
      cfg.maxRows) ∧
    runParse dateFn cfg chunks =
      pivotToFrames dateFn ((allMatched cfg 0 chunks).take cfg.maxRows) ∧
    (∀ n, ((((chunks.take n).foldl (procChunk dateFn cfg) {}) : PSt)).aborted = true →
      ∀ more, runParse dateFn cfg (chunks.take n ++ more) =
        runParse dateFn cfg (chunks.take n)) := by
  refine ⟨?_, ?_, ?_⟩
  · intro n
    rcases foldl_proc_spec dateFn cfg hM (chunks.take n) with
      ⟨_, _, _, _, hlen⟩ | ⟨_, hraw, _, _⟩
    · omega
    · rw [hraw, List.length_take]
      omega
  · rcases foldl_proc_spec dateFn cfg hM chunks with
      ⟨hab, hres, hrc, hraw, hlen⟩ | ⟨hab, hraw, hlenM, hres⟩
    · simp only [runParse, hab, Bool.false_eq_true, if_false]
      rw [hraw, List.take_of_length_le]
      rw [← hraw]
      omega
    · simp only [runParse, hab, if_true, hres, Option.getD_some]
      rw [hraw]
  · intro n habort more
    simp only [runParse, List.foldl_append]
    rw [foldl_proc_aborted dateFn cfg more _ habort]

end RaceDash

namespace RaceDash

def rawA : RawRow :=
  [("timestamp", .str "t"), ("vehicle_id", .str "A"), ("lap", .num 1),
   ("telemetry_name", .str "s"), ("telemetry_value", .num 1)]

def cfgW3 : PCfg := { maxRows := 1 }

theorem c3_cap_witness :
    runParse dateFnC cfgW3 [[rawA, rawA]] =
      pivotToFrames dateFnC ((allMatched cfgW3 0 [[rawA, rawA]]).take 1) ∧
    ((([[rawA, rawA]].take 1).foldl (procChunk dateFnC cfgW3) {}) : PSt).rawRows.length ≤ 1 :=
  have h := c3_cap dateFnC cfgW3 [[rawA, rawA]] (by decide)
  ⟨h.2.1, h.1 1⟩

end RaceDash

namespace RaceDash

/-! ## Claim C4: filter exactness -/

theorem runParse_pivot_take (dateFn : CVal → Option Int) (cfg : PCfg)
    (chunks : List (List RawRow)) (hM : 1 ≤ cfg.maxRows) :
    runParse dateFn cfg chunks =
      pivotToFrames dateFn ((allMatched cfg 0 chunks).take cfg.maxRows) := by
  rcases foldl_proc_spec dateFn cfg hM chunks with
    ⟨hab, hres, hrc, hraw, hlen⟩ | ⟨hab, hraw, hlenM, hres⟩
  · simp only [runParse, hab, Bool.false_eq_true, if_false]
    rw [hraw, List.take_of_length_le]
    rw [← hraw]
    omega
  · simp only [runParse, hab, if_true, hres, Option.getD_some]
    rw [hraw]

theorem mem_allMatched (cfg : PCfg) :
    ∀ (chunks : List (List RawRow)) (n : Nat) (r : TRow),
      r ∈ allMatched cfg n chunks →
      isValidRow r = true ∧ rowSkipped cfg r = false := by
  intro chunks
  induction chunks with
  | nil => intro n r h; simp [allMatched] at h
  | cons c cs ih =>
    intro n r h
    simp only [allMatched] at h
    rcases List.mem_append.mp h with h | h
    · rw [chunkMatched_eq] at h
      split at h
      · simp at h
      · obtain ⟨raw, _, hm⟩ := List.mem_filterMap.mp h
        simp only [matchedOf] at hm
        split at hm
        · next hc =>
          injection hm with hm
          subst hm
          have hc2 : isValidRow (normalizeRow raw) = true ∧
              rowSkipped cfg (normalizeRow raw) = false := by
            simpa using hc
          exact hc2
        · exact absurd hm (by simp)
    · exact ih _ r h

/-- The per-group bookkeeping invariant used for filter exactness: the
group's `_vehicle_id` is a string whose normalisation is V, and its
`_lap` is the number L. -/
def GInv (V : String) (L : ℚ) (gs : List (String × Metrics)) : Prop :=
  ∀ g ∈ gs,
    (∃ s, List.lookup "_vehicle_id" g.2 = some (.str s) ∧ normalizeVehicleId s = V) ∧
    List.lookup "_lap" g.2 = some (.num L)

theorem pivotStep_GInv (dateFn : CVal → Option Int) (V : String) (L : ℚ)
    (gs : List (String × Metrics)) (r : TRow)
    (hname : jsToLower r.telemetry_name.jsString ≠ "_vehicle_id" ∧
             jsToLower r.telemetry_name.jsString ≠ "_lap")
    (hvid : ∃ s, r.vehicle_id = .str s ∧ normalizeVehicleId s = V)
    (hlap : r.lap = .num L)
    (hgs : GInv V L gs) :
    GInv V L (pivotStep dateFn gs r) := by
  intro g hg
  rcases mem_groupsSet _ _ _ g hg with hmem | rfl
  · exact hgs g hmem
  · simp only
    set m0 := (List.lookup (groupKey r) gs).getD [] with hm0
    set m1 := m0.setV (jsToLower r.telemetry_name.jsString) r.telemetry_value with hm1
    set m2 := (if m1.hasK "_timestamp" then m1 else
      m1.setV "_timestamp" (numOrNaN ((dateFn r.timestamp).map (fun t => (t : ℚ))))) with hm2
    have hl1v : List.lookup "_vehicle_id" m1 = List.lookup "_vehicle_id" m0 := by
      rw [hm1, lookup_setV, if_neg (fun h => hname.1 h.symm)]
    have hl1l : List.lookup "_lap" m1 = List.lookup "_lap" m0 := by
      rw [hm1, lookup_setV, if_neg (fun h => hname.2 h.symm)]
    have hl2v : List.lookup "_vehicle_id" m2 = List.lookup "_vehicle_id" m0 := by
      rw [hm2]
      split
      · exact hl1v
      · rw [lookup_setV, if_neg (by decide)]
        exact hl1v
    have hl2l : List.lookup "_lap" m2 = List.lookup "_lap" m0 := by
      rw [hm2]
      split
      · exact hl1l
      · rw [lookup_setV, if_neg (by decide)]
        exact hl1l
    cases hl : List.lookup (groupKey r) gs with
    | none =>
      have hm0e : m0 = [] := by rw [hm0, hl]; rfl
      have h0v : List.lookup "_vehicle_id" m0 = none := by rw [hm0e]; rfl
      have h0l : List.lookup "_lap" m0 = none := by rw [hm0e]; rfl
      have hhas2 : m2.hasK "_vehicle_id" = false := by
        simp [Metrics.hasK, hl2v, h0v]
      simp only [hhas2, Bool.false_eq_true, if_false]
      set m3 := m2.setV "_vehicle_id" r.vehicle_id with hm3
      have hl3v : List.lookup "_vehicle_id" m3 = some r.vehicle_id := by
        rw [hm3, lookup_setV, if_pos rfl]
      have hl3l : List.lookup "_lap" m3 = none := by
        rw [hm3, lookup_setV, if_neg (by decide), hl2l, h0l]
      have hhas3 : m3.hasK "_lap" = false := by simp [Metrics.hasK, hl3l]
      simp only [hhas3, Bool.false_eq_true, if_false]
      constructor
      · obtain ⟨s, hs, hns⟩ := hvid
        refine ⟨s, ?_, hns⟩
        rw [lookup_setV, if_neg (by decide), hl3v, hs]
      · rw [lookup_setV, if_pos rfl, hlap]
    | some mt =>
      have hm0e : m0 = mt := by rw [hm0, hl]; rfl
      obtain ⟨⟨s, hsv, hns⟩, hsl⟩ := hgs (groupKey r, mt) (mem_of_lookup _ _ _ hl)
      have h0v : List.lookup "_vehicle_id" m0 = some (.str s) := by rw [hm0e]; exact hsv
      have h0l : List.lookup "_lap" m0 = some (.num L) := by rw [hm0e]; exact hsl
      have hhas2 : m2.hasK "_vehicle_id" = true := by
        simp [Metrics.hasK, hl2v, h0v]
      simp only [hhas2, if_true]
      have hhas3 : m2.hasK "_lap" = true := by
        simp [Metrics.hasK, hl2l, h0l]
      simp only [hhas3, if_true]
      exact ⟨⟨s, by rw [hl2v]; exact h0v, hns⟩, by rw [hl2l]; exact h0l⟩

theorem buildGroups_GInv (dateFn : CVal → Option Int) (V : String) (L : ℚ) :
    ∀ (rows : List TRow) (gs : List (String × Metrics)),
      (∀ r ∈ rows,
        (jsToLower r.telemetry_name.jsString ≠ "_vehicle_id" ∧
         jsToLower r.telemetry_name.jsString ≠ "_lap") ∧
        (∃ s, r.vehicle_id = .str s ∧ normalizeVehicleId s = V) ∧
        r.lap = .num L) →
      GInv V L gs →
      GInv V L (rows.foldl (pivotStep dateFn) gs) := by
  intro rows
  induction rows with
  | nil => intro gs _ h; exact h
  | cons r rest ih =>
    intro gs hr hgs
    have h0 := hr r (List.mem_cons_self _ _)
    exact ih (pivotStep dateFn gs r)
      (fun x hx => hr x (List.mem_cons_of_mem _ hx))
      (pivotStep_GInv dateFn V L gs r h0.1 h0.2.1 h0.2.2 hgs)

end RaceDash

namespace RaceDash

theorem matched_props (cfg : PCfg) (V : String) (L : ℚ)
    (hV : cfg.filterV = some V) (hVne : V ≠ "")
    (hL : cfg.filterLap = some L) (hLne : L ≠ 0) (r : TRow)
    (hsk : rowSkipped cfg r = false) :
    normalizeVehicleId r.vehicle_id.jsString = V ∧ r.lap = .num L := by
  simp only [rowSkipped, hV, hL] at hsk
  simp only [Bool.or_eq_false_iff, Bool.and_eq_false_iff] at hsk
  obtain ⟨h1, h2⟩ := hsk
  constructor
  · rcases h1 with h1 | h1
    · exact absurd (by simpa using h1) hVne
    · simpa using h1
  · rcases h2 with h2 | h2
    · exact absurd (by simpa using h2) hLne
    · simpa using h2

/-- C4 amended: filter exactness holds provided the filter values are
truthy (V nonempty, L nonzero), matched rows carry string vehicle ids
(as typed by the TelemetryRow interface), and no matched row's
lowercased telemetry name collides with the reserved group keys
`_vehicle_id` / `_lap`. -/
theorem c4_filter_exactness (dateFn : CVal → Option Int) (cfg : PCfg)
    (chunks : List (List RawRow)) (V : String) (L : ℚ)
    (hM : 1 ≤ cfg.maxRows)
    (hV : cfg.filterV = some V) (hVne : V ≠ "")
    (hL : cfg.filterLap = some L) (hLne : L ≠ 0)
    (hstr : ∀ r ∈ allMatched cfg 0 chunks, ∃ s, r.vehicle_id = .str s)
    (hres : ∀ r ∈ allMatched cfg 0 chunks,
      jsToLower r.telemetry_name.jsString ≠ "_vehicle_id" ∧
      jsToLower r.telemetry_name.jsString ≠ "_lap") :
    ∀ f ∈ runParse dateFn cfg chunks, f.vehicleId = V ∧ f.lap = .num L := by
  intro f hf
  rw [runParse_pivot_take dateFn cfg chunks hM] at hf
  have hsub : ∀ r ∈ (allMatched cfg 0 chunks).take cfg.maxRows,
      r ∈ allMatched cfg 0 chunks := fun r hr => List.take_subset _ _ hr
  have hginv : GInv V L (buildGroups dateFn ((allMatched cfg 0 chunks).take cfg.maxRows)) := by
    refine buildGroups_GInv dateFn V L _ [] ?_ ?_
    · intro r hr
      have hmem := hsub r hr
      have hmp := mem_allMatched cfg chunks 0 r hmem
      obtain ⟨s, hs⟩ := hstr r hmem
      obtain ⟨hnv, hnl⟩ := matched_props cfg V L hV hVne hL hLne r hmp.2
      refine ⟨hres r hmem, ⟨s, hs, ?_⟩, hnl⟩
      rw [hs] at hnv
      exact hnv
    · intro g hg
      exact absurd hg (List.not_mem_nil g)
  rw [pivotToFrames] at hf
  rw [List.mem_insertionSort, List.mem_filterMap] at hf
  obtain ⟨g, hg, hok⟩ := hf
  have hok2 : mkFrame dateFn (groupFrameData dateFn g.2) = .ok f := by
    cases hmk : mkFrame dateFn (groupFrameData dateFn g.2) with
    | ok x => rw [hmk] at hok; simpa [Except.toOption] using hok
    | error e => rw [hmk] at hok; simp [Except.toOption] at hok
  obtain ⟨hfeq, _, _, _, _, _⟩ := mkFrame_inv dateFn _ f hok2
  obtain ⟨⟨s, hsv, hns⟩, hsl⟩ := hginv g hg
  constructor
  · rw [hfeq]
    show normalizeVehicleId (g.2.getV "_vehicle_id").jsString = V
    rw [Metrics.getV, hsv]
    exact hns
  · rw [hfeq]
    show g.2.getV "_lap" = CVal.num L
    rw [Metrics.getV, hsl]
    rfl

def raw4a : RawRow :=
  [("timestamp", .str "t"), ("vehicle_id", .str "X"), ("lap", .num 1),
   ("telemetry_name", .str "speed"), ("telemetry_value", .num 5)]

def raw4b : RawRow :=
  [("timestamp", .str "t"), ("vehicle_id", .str "B"), ("lap", .num 5),
   ("telemetry_name", .str "speed"), ("telemetry_value", .num 5)]

def raw4c : RawRow :=
  [("timestamp", .str "t"), ("vehicle_id", .str "X"), ("lap", .num 1),
   ("telemetry_name", .str "_LAP"), ("telemetry_value", .num 7)]

/-- C4 counterexample: three concrete runs with `filter` set on which
the claim as stated fails.  With `lap = 0` the output contains a frame
of lap 1; with `vehicleId = ""` the output contains a frame of vehicle
"B"; and with a metric literally named `_LAP` the output frame's lap is
the metric value 7, not the filtered lap 1. -/
theorem c4_filter_exactness_cex :
    (runParse dateFnC { filterV := some "X", filterLap := some 0 } [[raw4a]]).map
      (fun f => f.lap) = [.num 1] ∧ CVal.num 1 ≠ CVal.num 0 ∧
    (runParse dateFnC { filterV := some "", filterLap := some 5 } [[raw4b]]).map
      (fun f => f.vehicleId) = ["B"] ∧ "B" ≠ "" ∧
    (runParse dateFnC { filterV := some "X", filterLap := some 1 } [[raw4c]]).map
      (fun f => f.lap) = [.num 7] ∧ CVal.num 7 ≠ CVal.num 1 := by
  decide

end RaceDash

namespace RaceDash

def cfgW4 : PCfg := { filterV := some "X", filterLap := some 1 }

def frameW4 : TelemetryFrame :=
  { timestamp := 0, vehicleId := "X", lap := .num 1, speed := .num 5,
    throttlePos := .num 0, brakePos := .num 0, gpsLatitude := .num 0,
    gpsLongitude := .num 0, steeringAngle := .undef, gear := .undef }

theorem c4_filter_exactness_witness :
    frameW4.vehicleId = "X" ∧ frameW4.lap = .num 1 :=
  c4_filter_exactness dateFnC cfgW4 [[raw4a]] "X" 1 (by decide) rfl (by decide)
    rfl (by decide)
    (fun r hr => by
      have hall : allMatched cfgW4 0 [[raw4a]] =
          [⟨.str "t", .str "X", .num 1, .str "speed", .num 5⟩] := by decide
      rw [hall] at hr
      rcases List.mem_singleton.mp hr with rfl
      exact ⟨"X", rfl⟩)
    (fun r hr => by
      have hall : allMatched cfgW4 0 [[raw4a]] =
          [⟨.str "t", .str "X", .num 1, .str "speed", .num 5⟩] := by decide
      rw [hall] at hr
      rcases List.mem_singleton.mp hr with rfl
      exact ⟨by decide, by decide⟩)
    frameW4 (by decide)

end RaceDash

namespace RaceDash

/-! ## Claim C6: lap boundary reconstruction -/

theorem mkLap_eval (dateFn : CVal → Option Int) (d : LapData) (L : Lap)
    (h : mkLap dateFn d = some L) :
    ∃ ts te veh, d.startTime.eval dateFn = some ts ∧
      d.endTime.eval dateFn = some te ∧ ts < te ∧ d.vehicle = some veh ∧
      L = { lapNumber := d.lapNumber, vehicle := veh, startTime := ts,
            endTime := te, sectorTimes := d.sectorTimes } := by
  simp only [mkLap] at h
  split at h
  next h1 => simp at h
  next h1 =>
    split at h
    next => simp at h
    next veh hveh2 =>
      split at h
      next h2 => simp at h
      next h2 =>
        split at h
        next => simp at h
        next ts hts =>
          split at h
          next h3 => simp at h
          next h3 =>
            split at h
            next => simp at h
            next te hte =>
              split at h
              next h4 => simp at h
              next h4 =>
                injection h with h
                exact ⟨ts, te, veh, hts, hte, by omega, hveh2, h.symm⟩

theorem convertToLap_times (dateFn : CVal → Option Int) (row : RawRow)
    (prev : Option RawRow) (L : Lap)
    (h : convertToLap dateFn row prev = some L) :
    ∃ te, dateFn (row.get "timestamp") = some te ∧ L.endTime = te ∧
      (prev = none → L.startTime = te - 120000) ∧
      (∀ p, prev = some p → ∃ tp, dateFn (p.get "timestamp") = some tp ∧
        L.startTime = if tp ≥ te then te - 120000 else tp) := by
  simp only [convertToLap] at h
  split at h
  case h_2 => exact absurd h (by simp)
  case h_1 vid hvid =>
    split at h
    next => exact absurd h (by simp)
    next veh hveh =>
      obtain ⟨ts, te, veh2, hts, hte, hlt, _, hL⟩ := mkLap_eval dateFn _ L h
      simp only [TsIn.eval] at hts hte
      refine ⟨te, hte, by rw [hL], ?_, ?_⟩
      · intro hprev
        subst hprev
        rw [hte] at hts
        simp only [Option.map] at hts
        rw [if_neg (by omega)] at hts
        injection hts with hts
        rw [hL]
        show ts = te - 120000
        omega
      · intro p hprev
        subst hprev
        have hts2 : (match dateFn (p.get "timestamp"), dateFn (row.get "timestamp") with
            | some s, some e => if s ≥ e then some (e - 120000) else some s
            | s, _ => s) = some ts := hts
        cases hdp : dateFn (p.get "timestamp") with
        | none =>
          rw [hdp, hte] at hts2
          simp at hts2
        | some tp =>
          rw [hdp, hte] at hts2
          have hts3 : (if tp ≥ te then some (te - 120000) else some tp) = some ts := hts2
          refine ⟨tp, rfl, ?_⟩
          rw [hL]
          show ts = if tp ≥ te then te - 120000 else tp
          by_cases hge : tp ≥ te
          · rw [if_pos hge] at hts3 ⊢
            injection hts3 with hts3
            omega
          · rw [if_neg hge] at hts3 ⊢
            injection hts3 with hts3
            omega

end RaceDash

namespace RaceDash

theorem lapsOf_some (dateFn : CVal → Option Int) :
    ∀ (rs : List RawRow) (p : RawRow),
      lapsOf dateFn (some p) rs = (List.range rs.length).filterMap
        (fun i => convertToLap dateFn (rs.getD i [])
          (some (if i = 0 then p else rs.getD (i - 1) []))) := by
  intro rs
  induction rs with
  | nil => intro p; rfl
  | cons r rs ih =>
    intro p
    rw [List.length_cons, List.range_succ_eq_map, List.filterMap_cons,
      List.filterMap_map]
    have hf0 : convertToLap dateFn ((r :: rs).getD 0 [])
        (some (if 0 = 0 then p else (r :: rs).getD (0 - 1) [])) =
        convertToLap dateFn r (some p) := rfl
    rw [hf0]
    have htail : (List.range rs.length).filterMap
        ((fun i => convertToLap dateFn ((r :: rs).getD i [])
          (some (if i = 0 then p else (r :: rs).getD (i - 1) []))) ∘ Nat.succ) =
        (List.range rs.length).filterMap
          (fun i => convertToLap dateFn (rs.getD i [])
            (some (if i = 0 then r else rs.getD (i - 1) []))) := by
      apply List.filterMap_congr
      intro i _
      simp only [Function.comp]
      have h1 : (r :: rs).getD (i + 1) [] = rs.getD i [] := rfl
      have h2 : (if i + 1 = 0 then p else (r :: rs).getD (i + 1 - 1) []) =
          (if i = 0 then r else rs.getD (i - 1) []) := by
        rw [if_neg (Nat.succ_ne_zero i)]
        cases i with
        | zero => rfl
        | succ j => rfl
      rw [h1, h2]
    rw [htail, ← ih r]
    cases hc : convertToLap dateFn r (some p) with
    | none => simp only [lapsOf, hc]
    | some l => simp only [lapsOf, hc]

theorem lapsOf_none (dateFn : CVal → Option Int) (rows0 : List RawRow) :
    lapsOf dateFn none rows0 = (List.range rows0.length).filterMap
      (fun i => convertToLap dateFn (rows0.getD i [])
        (if i = 0 then none else some (rows0.getD (i - 1) []))) := by
  cases rows0 with
  | nil => rfl
  | cons r rs =>
    rw [List.length_cons, List.range_succ_eq_map, List.filterMap_cons,
      List.filterMap_map]
    have hf0 : convertToLap dateFn ((r :: rs).getD 0 [])
        (if 0 = 0 then none else some ((r :: rs).getD (0 - 1) [])) =
        convertToLap dateFn r none := rfl
    rw [hf0]
    have htail : (List.range rs.length).filterMap
        ((fun i => convertToLap dateFn ((r :: rs).getD i [])
          (if i = 0 then none else some ((r :: rs).getD (i - 1) []))) ∘ Nat.succ) =
        (List.range rs.length).filterMap
          (fun i => convertToLap dateFn (rs.getD i [])
            (some (if i = 0 then r else rs.getD (i - 1) []))) := by
      apply List.filterMap_congr
      intro i _
      simp only [Function.comp]
      have h1 : (r :: rs).getD (i + 1) [] = rs.getD i [] := rfl
      have h2 : (if i + 1 = 0 then none else some ((r :: rs).getD (i + 1 - 1) [])) =
          some (if i = 0 then r else rs.getD (i - 1) []) := by
        rw [if_neg (Nat.succ_ne_zero i)]
        cases i with
        | zero => rfl
        | succ j => rfl
      rw [h1, h2]
    rw [htail, ← lapsOf_some dateFn rs r]
    cases hc : convertToLap dateFn r none with
    | none => simp only [lapsOf, hc]
    | some l => simp only [lapsOf, hc]

end RaceDash

namespace RaceDash

/-- C6: the lap parser output is, per vehicle, the conversion of the
deduplicated lap-sorted rows where each row's predecessor is the
previous unique row; and every produced Lap's end time is its row's
parsed timestamp, with the start time being the previous unique row's
timestamp, forced to end − 120000 ms for the first row of a vehicle or
whenever the computed start would be ≥ the end. -/
theorem c6_lap_reconstruction (dateFn : CVal → Option Int)
    (rows vrows : List RawRow) :
    runLapParse dateFn rows =
      (groupByVehicle (rows.filter lapRowValid)).flatMap
        (fun g => lapsOf dateFn none (sortedUniqueRows g.2)) ∧
    lapsOf dateFn none (sortedUniqueRows vrows) =
      (List.range (sortedUniqueRows vrows).length).filterMap
        (fun i => convertToLap dateFn ((sortedUniqueRows vrows).getD i [])
          (if i = 0 then none else some ((sortedUniqueRows vrows).getD (i - 1) []))) ∧
    (∀ (row : RawRow) (prev : Option RawRow) (L : Lap),
      convertToLap dateFn row prev = some L →
      ∃ te, dateFn (row.get "timestamp") = some te ∧ L.endTime = te ∧
        (prev = none → L.startTime = te - 120000) ∧
        (∀ p, prev = some p → ∃ tp, dateFn (p.get "timestamp") = some tp ∧
          L.startTime = if tp ≥ te then te - 120000 else tp)) :=
  ⟨rfl, lapsOf_none dateFn _,
    fun row prev L h => convertToLap_times dateFn row prev L h⟩

def p6 : RawRow := [("timestamp", .str "7"), ("vehicle_id", .str "V-C-3"),
  ("lap", .num 1), ("value", .num 90)]

def r6 : RawRow := [("timestamp", .str "42"), ("vehicle_id", .str "V-C-3"),
  ("lap", .num 2), ("value", .num 95)]

def lap6 : Lap :=
  { lapNumber := .num 2,
    vehicle := { chassis := "C", carNumber := some 3, id := "C-3" },
    startTime := 7, endTime := 42, sectorTimes := [] }

theorem c6_lap_reconstruction_witness :
    ∃ te, dateFnW (r6.get "timestamp") = some te ∧ lap6.endTime = te ∧
      (some p6 = none → lap6.startTime = te - 120000) ∧
      (∀ p, some p6 = some p → ∃ tp, dateFnW (p.get "timestamp") = some tp ∧
        lap6.startTime = if tp ≥ te then te - 120000 else tp) :=
  (c6_lap_reconstruction dateFnW [] []).2.2 r6 (some p6) lap6 (by decide)

end RaceDash

namespace RaceDash

/-! ## Claim C2: map/list agreement of the cache -/

/-- Walk the `next` pointers from a node reference, fuel-bounded by the
heap size (a well-formed list is exhausted within the fuel). -/
def nextChainAux (s : CacheState α) : Nat → Option Nat → List Nat
  | 0, _ => []
  | _ + 1, none => []
  | fuel + 1, some i => i :: nextChainAux s fuel ((getNode s i).bind (fun nd => nd.next))

/-- Node ids reachable from `head` via `next`. -/
def reachableFromHead (s : CacheState α) : List Nat :=
  nextChainAux s (s.nodes.length + 1) s.head

/-- Walk the `prev` pointers from a node reference. -/
def prevChainAux (s : CacheState α) : Nat → Option Nat → List Nat
  | 0, _ => []
  | _ + 1, none => []
  | fuel + 1, some i => i :: prevChainAux s fuel ((getNode s i).bind (fun nd => nd.prev))

/-- Node ids reachable from `tail` via `prev`. -/
def reachableFromTail (s : CacheState α) : List Nat :=
  prevChainAux s (s.nodes.length + 1) s.tail

/-- The cache state after `get A-1` (miss), `get B-1` (miss), `get B-1`
(hit on the most-recently-used key) on a capacity-2 cache. -/
def c2state : CacheState Nat :=
  (cacheGet (runGets (fun _ _ => 0) (emptyCache Nat 2) [("A", 1), ("B", 1)])
    (fun _ _ => 0) "B" 1).2

/-- C2 is violated by the code: after a hit on the key that is already
most recently used, `moveToFront` (which, unlike `remove`, never updates
`head` for the head node) links the head node to itself.  In the
resulting state both keys are still in the hash map, but the node of
`A-1` (id 0) is unreachable from `head` via `next`, the node of `B-1`
(id 1) is unreachable from `tail` via `prev`, and the head node's `next`
points back to itself - the list is cyclic and map and list disagree. -/
theorem c2_cache_invariant_bug :
    cacheHas c2state "A-1" = true ∧
    cacheLookup c2state "A-1" = some (0, 0) ∧
    (0 ∈ reachableFromHead c2state) = False ∧
    cacheHas c2state "B-1" = true ∧
    cacheLookup c2state "B-1" = some (1, 0) ∧
    (1 ∈ reachableFromTail c2state) = False ∧
    c2state.head = some 1 ∧
    getNode c2state 1 = some { key := "B-1", prev := some 1, next := some 1 } := by
  decide

end RaceDash

namespace RaceDash

/-! ## Claim C8: cache decorator transparency -/

/-- The composite cache key of a by-lap get. -/
def keyOf (v : String) (lap : Int) : String := v ++ "-" ++ toString lap

theorem updNext_entries (s : CacheState α) (i : Nat) (v : Option Nat) :
    (updNext s i v).entries = s.entries := rfl

theorem updPrev_entries (s : CacheState α) (i : Nat) (v : Option Nat) :
    (updPrev s i v).entries = s.entries := rfl

theorem addToFront_entries (s : CacheState α) (i : Nat) :
    (addToFront s i).entries = s.entries := by
  simp only [addToFront]
  split
  · split <;> rfl
  · split <;> rfl

theorem moveToFront_entries (s : CacheState α) (k : String) :
    (moveToFront s k).entries = s.entries := by
  simp only [moveToFront]
  split
  · rfl
  · split
    · rfl
    · rw [addToFront_entries]
      split
      · split <;> split <;> rfl
      · split <;> split <;> rfl

theorem cacheRemove_entries (s : CacheState α) (k : String) :
    (cacheRemove s k).entries = s.entries := by
  simp only [cacheRemove]
  split
  · rfl
  · split
    · rfl
    · split <;> split <;> split <;> split <;> rfl

theorem removeTail_entries (s : CacheState α) :
    (removeTail s).entries = s.entries := by
  simp only [removeTail]
  split
  · rfl
  · split
    · rfl
    · split <;> rfl

theorem mem_cacheMapSet (s : CacheState α) (k : String) (v : Nat × α) :
    ∀ e ∈ (cacheMapSet s k v).entries, e = (k, v) ∨ e ∈ s.entries := by
  intro e he
  simp only [cacheMapSet] at he
  split at he
  · obtain ⟨p, hp, hpe⟩ := List.mem_map.mp he
    by_cases hpk : p.1 = k
    · left; rw [← hpe, if_pos hpk]
    · right; rw [← hpe, if_neg hpk]; exact hp
  · rcases List.mem_append.mp he with he | he
    · exact Or.inr he
    · exact Or.inl (List.mem_singleton.mp he)

theorem evict_entries_sub (s1 : CacheState α) :
    ∀ x ∈ (cacheEvict s1).entries, x ∈ s1.entries := by
  intro x hx
  simp only [cacheEvict] at hx
  split at hx
  · split at hx
    · rw [removeTail_entries] at hx
      split at hx
      · exact (List.mem_filter.mp hx).1
      · exact hx
    · exact hx
  · exact hx

theorem mem_cacheSet (s : CacheState α) (k : String) (d : α) :
    ∀ e ∈ (cacheSet s k d).entries,
      (e.1 = k ∧ e.2.2 = d) ∨ e ∈ s.entries := by
  intro e he
  simp only [cacheSet, addToFront_entries] at he
  rcases mem_cacheMapSet _ _ _ e he with rfl | he2
  · exact Or.inl ⟨rfl, rfl⟩
  · have he3 : e ∈ (cacheEvict (if cacheHas s k then cacheRemove s k else s)).entries := he2
    have he4 := evict_entries_sub _ e he3
    right
    split at he4
    · rw [cacheRemove_entries] at he4
      exact he4
    · exact he4

end RaceDash

namespace RaceDash

/-- No two distinct by-lap gets of the call sequence collide on the
composite cache key. -/
def KeyInj (calls : List RCall) : Prop :=
  ∀ v1 l1 v2 l2, RCall.getVL v1 l1 ∈ calls → RCall.getVL v2 l2 ∈ calls →
    keyOf v1 l1 = keyOf v2 l2 → v1 = v2 ∧ l1 = l2

theorem dec_repo_sim (calls : List RCall) (hinj : KeyInj calls) :
    ∀ (rest : List RCall) (c : CacheState (List TelemetryFrame)) (R : RepoState),
      (∀ x ∈ rest, x ∈ calls) →
      (∀ e ∈ c.entries, ∃ v l, e.1 = keyOf v l ∧ RCall.getVL v l ∈ calls ∧
        e.2.2 = repoGetVL R v (.num (l : ℚ))) →
      (runDecCalls (c, R) rest).1 = (runRepoCalls R rest).1 := by
  intro rest
  induction rest with
  | nil => intro c R _ _; rfl
  | cons x rest ih =>
    intro c R hsub hok
    have hsub2 : ∀ y ∈ rest, y ∈ calls :=
      fun y hy => hsub y (List.mem_cons_of_mem _ hy)
    cases x with
    | getVL v l =>
      simp only [runDecCalls, runRepoCalls, stepDec, stepRepo, cacheGet]
      cases hl : cacheLookup c (v ++ "-" ++ toString l) with
      | some p =>
        obtain ⟨v2, l2, hk, hcall, hd⟩ :=
          hok (v ++ "-" ++ toString l, p) (mem_of_lookup _ _ _ hl)
        obtain ⟨rfl, rfl⟩ := hinj v l v2 l2
          (hsub _ (List.mem_cons_self _ _)) hcall hk
        simp only [hl]
        rw [hd]
        congr 1
        exact ih (moveToFront c (v ++ "-" ++ toString l)) R hsub2
          (by rw [moveToFront_entries]; exact hok)
      | none =>
        simp only [hl]
        congr 1
        refine ih _ R hsub2 ?_
        intro e he
        rcases mem_cacheSet _ _ _ e he with ⟨hek, hed⟩ | he2
        · exact ⟨v, l, hek, hsub _ (List.mem_cons_self _ _), by rw [hed]⟩
        · exact hok e he2
    | getRange v a b =>
      simp only [runDecCalls, runRepoCalls, stepDec, stepRepo]
      congr 1
      exact ih c R hsub2 hok
    | allIds =>
      simp only [runDecCalls, runRepoCalls, stepDec, stepRepo]
      congr 1
      exact ih c R hsub2 hok
    | maxLap v =>
      simp only [runDecCalls, runRepoCalls, stepDec, stepRepo]
      congr 1
      exact ih c R hsub2 hok
    | save fs =>
      simp only [runDecCalls, runRepoCalls, stepDec, stepRepo]
      congr 1
      refine ih (cacheClear c) (repoSave R fs) hsub2 ?_
      intro e he
      simp [cacheClear] at he
    | clearAll =>
      simp only [runDecCalls, runRepoCalls, stepDec, stepRepo]
      congr 1
      refine ih (cacheClear c) { data := [] } hsub2 ?_
      intro e he
      simp [cacheClear] at he

/-- C8 amended: the decorated repository is observation-for-observation
equivalent to the undecorated one on every call sequence in which
distinct by-lap get argument pairs never produce the same composite key
`vehicleId-lap` (in particular, whenever laps are non-negative
integers). -/
theorem c8_transparency (M : Nat) (calls : List RCall) (hinj : KeyInj calls) :
    (runDecCalls (emptyCache (List TelemetryFrame) M, {}) calls).1 =
      (runRepoCalls {} calls).1 :=
  dec_repo_sim calls hinj calls (emptyCache _ M) {} (fun _ hx => hx)
    (by intro e he; simp [emptyCache] at he)

end RaceDash

namespace RaceDash

def f8 : TelemetryFrame :=
  { timestamp := 0, vehicleId := "A-", lap := .num 2, speed := .num 1,
    throttlePos := .num 0, brakePos := .num 0, gpsLatitude := .num 0,
    gpsLongitude := .num 0, steeringAngle := .undef, gear := .undef }

def c8calls : List RCall := [.save [f8], .getVL "A-" 2, .getVL "A" (-2)]

/-- C8 counterexample: the keys of `("A-", 2)` and `("A", -2)` collide
(`"A--2"`), so after a get for `("A-", 2)` populates the cache, the
decorated repository answers the get for `("A", -2)` with the other
pair's frames, while the undecorated repository answers with the empty
sequence. -/
theorem c8_transparency_cex :
    (runRepoCalls {} c8calls).1.getD 2 .done = .frames [] ∧
    (runDecCalls (emptyCache (List TelemetryFrame) 100, {}) c8calls).1.getD 2 .done =
      .frames [f8] ∧
    (runDecCalls (emptyCache (List TelemetryFrame) 100, {}) c8calls).1 ≠
      (runRepoCalls {} c8calls).1 := by
  decide

theorem c8_transparency_witness :
    (runDecCalls (emptyCache (List TelemetryFrame) 5, {}) [RCall.getVL "A" 1]).1 =
      (runRepoCalls {} [RCall.getVL "A" 1]).1 :=
  c8_transparency 5 [RCall.getVL "A" 1] (by
    intro v1 l1 v2 l2 h1 h2 _
    have e1 := List.mem_singleton.mp h1
    have e2 := List.mem_singleton.mp h2
    injection e1 with a1 b1
    injection e2 with a2 b2
    subst a1; subst b1; subst a2; subst b2
    exact ⟨rfl, rfl⟩)

end RaceDash

namespace RaceDash

/-! ## Claim C1: LRU correctness

Well-formedness of a cache state: the recency list is described by the
node ids `ids` (most recent first) and the map contents by `kds`
(keys with data, most recent first). -/

/-- `headOr is q`: the node following the current one - the head of the
remaining segment, or the outgoing reference `q` at the segment end. -/
def headOr (is : List Nat) (q : Option Nat) : Option Nat :=
  match is with
  | [] => q
  | j :: _ => some j

/-- The doubly-linked chain of nodes `is` carrying keys `ks`, entered
with incoming `prev` reference `p` and leaving with outgoing `next`
reference `q`. -/
def ChainTo (ns : List (Nat × CacheNode)) :
    Option Nat → List Nat → List String → Option Nat → Prop
  | _, [], [], _ => True
  | p, i :: is, k :: ks, q =>
    List.lookup i ns = some { key := k, prev := p, next := headOr is q } ∧
      ChainTo ns (some i) is ks q
  | _, _, _, _ => False

/-- The model of the cache map: key maps to its node id and data. -/
def modelEntries {α : Type} (ids : List Nat) (kds : List (String × α)) :
    List (String × Nat × α) :=
  (ids.zip kds).map (fun p => (p.2.1, p.1, p.2.2))

/-- Well-formedness of a cache state w.r.t. the abstract recency list:
distinct node ids below the allocation counter, `head`/`tail` at the
ends, a consistent doubly-linked chain, and the map a permutation of
the association of keys to nodes and data. -/
def Queued {α : Type} (s : CacheState α) (ids : List Nat)
    (kds : List (String × α)) : Prop :=
  (s.nodes.map Prod.fst).Nodup ∧ (∀ p ∈ s.nodes, p.1 < s.nextId) ∧
  ids.length = kds.length ∧ ids.Nodup ∧ (kds.map Prod.fst).Nodup ∧
  s.head = ids.head? ∧ s.tail = ids.getLast? ∧
  ChainTo s.nodes none ids (kds.map Prod.fst) none ∧
  s.entries.Perm (modelEntries ids kds)

theorem chainTo_congr (ns1 ns2 : List (Nat × CacheNode)) :
    ∀ (is : List Nat) (ks : List String) (p q : Option Nat),
      (∀ i ∈ is, List.lookup i ns2 = List.lookup i ns1) →
      ChainTo ns1 p is ks q → ChainTo ns2 p is ks q := by
  intro is
  induction is with
  | nil =>
    intro ks p q _ h
    cases ks with
    | nil => trivial
    | cons k ks => exact absurd h (by simp [ChainTo])
  | cons i is ih =>
    intro ks p q hl h
    cases ks with
    | nil => exact absurd h (by simp [ChainTo])
    | cons k ks =>
      obtain ⟨h1, h2⟩ := h
      exact ⟨by rw [hl i (List.mem_cons_self _ _)]; exact h1,
        ih ks (some i) q (fun x hx => hl x (List.mem_cons_of_mem _ hx)) h2⟩

theorem chainTo_mem_lookup (ns : List (Nat × CacheNode)) :
    ∀ (is : List Nat) (ks : List String) (p q : Option Nat),
      ChainTo ns p is ks q → ∀ i ∈ is, ∃ nd, List.lookup i ns = some nd := by
  intro is
  induction is with
  | nil => intro ks p q _ i hi; exact absurd hi (List.not_mem_nil i)
  | cons j is ih =>
    intro ks p q h i hi
    cases ks with
    | nil => exact absurd h (by simp [ChainTo])
    | cons k ks =>
      obtain ⟨h1, h2⟩ := h
      rcases List.mem_cons.mp hi with rfl | hi
      · exact ⟨_, h1⟩
      · exact ih ks (some j) q h2 i hi

theorem chainTo_append (ns : List (Nat × CacheNode)) :
    ∀ (is1 : List Nat) (ks1 : List String) (is2 : List Nat) (ks2 : List String)
      (p q : Option Nat), is1.length = ks1.length →
      (ChainTo ns p (is1 ++ is2) (ks1 ++ ks2) q ↔
        ChainTo ns p is1 ks1 (headOr is2 q) ∧
        ChainTo ns (match is1.getLast? with | none => p | some x => some x)
          is2 ks2 q) := by
  intro is1
  induction is1 with
  | nil =>
    intro ks1 is2 ks2 p q hlen
    cases ks1 with
    | nil => simp [ChainTo]
    | cons k ks => simp at hlen
  | cons i is ih =>
    intro ks1 is2 ks2 p q hlen
    cases ks1 with
    | nil => simp at hlen
    | cons k ks =>
      simp only [List.length_cons] at hlen
      simp only [List.cons_append, ChainTo, List.append_eq]
      rw [ih ks is2 ks2 (some i) q (by omega)]
      have hh : headOr (is ++ is2) q = headOr is (headOr is2 q) := by
        cases is <;> rfl
      have hlast : (match (i :: is).getLast? with
          | none => p | some x => some x) =
          (match is.getLast? with | none => some i | some x => some x) := by
        cases is with
        | nil => simp
        | cons a as =>
          rw [List.getLast?_cons_cons]
          cases hcase : (a :: as).getLast? with
          | none => exact absurd (List.getLast?_eq_none_iff.mp hcase) (by simp)
          | some x => rfl
      rw [hh, hlast]
      constructor
      · rintro ⟨h1, h2, h3⟩
        exact ⟨⟨h1, h2⟩, h3⟩
      · rintro ⟨⟨h1, h2⟩, h3⟩
        exact ⟨h1, h2, h3⟩


theorem lookup_map_adj {β : Type} (f : β → β) (j : Nat) :
    ∀ (m : List (Nat × β)) (i : Nat),
      List.lookup i (m.map (fun p => if p.1 = j then (p.1, f p.2) else p)) =
        (if i = j then (List.lookup i m).map f else List.lookup i m) := by
  intro m
  induction m with
  | nil => intro i; simp [List.lookup]
  | cons p m ih =>
    intro i
    obtain ⟨a, b⟩ := p
    by_cases ha : a = j
    · subst ha
      by_cases hi : i = a
      · subst hi
        simp [List.map, lookup_cons]
      · have hb : (i == a) = false := by simpa using hi
        simp [List.map, lookup_cons, hb, ih, hi]
    · simp only [List.map, if_neg ha, lookup_cons]
      by_cases hi : i = a
      · subst hi
        have hb : (i == i) = true := by simp
        simp [lookup_cons, if_neg ha, ha]
      · have hb : (i == a) = false := by simpa using hi
        simp only [hb, Bool.false_eq_true, if_false]
        exact ih i

theorem map_fst_adj {β : Type} (f : β → β) (j : Nat) (m : List (Nat × β)) :
    (m.map (fun p => if p.1 = j then (p.1, f p.2) else p)).map Prod.fst =
      m.map Prod.fst := by
  rw [List.map_map]
  apply List.map_congr_left
  intro p _
  by_cases h : p.1 = j <;> simp [h]

theorem mem_fst_adj {β : Type} (f : β → β) (j : Nat) (m : List (Nat × β))
    (n : Nat) (hm : ∀ p ∈ m, p.1 < n) :
    ∀ p ∈ m.map (fun p => if p.1 = j then (p.1, f p.2) else p), p.1 < n := by
  intro p hp
  obtain ⟨q, hq, rfl⟩ := List.mem_map.mp hp
  by_cases h : q.1 = j
  · rw [if_pos h]
    exact h ▸ hm q hq
  · rw [if_neg h]
    exact hm q hq

theorem lookup_eq_none_of_not_mem {κ β : Type} [BEq κ] [LawfulBEq κ] (i : κ) :
    ∀ m : List (κ × β), i ∉ m.map Prod.fst → List.lookup i m = none := by
  intro m
  induction m with
  | nil => intro _; rfl
  | cons p m ih =>
    intro h
    obtain ⟨a, b⟩ := p
    simp only [List.map, List.mem_cons, not_or] at h
    have hb : (i == a) = false := by simpa using h.1
    rw [lookup_cons, if_neg (by simp [hb])]
    exact ih h.2

theorem getNode_updNext {α : Type} (s : CacheState α) (j : Nat) (v : Option Nat)
    (i : Nat) :
    getNode (updNext s j v) i =
      (if i = j then (getNode s i).map (fun nd => { nd with next := v })
       else getNode s i) := by
  simp only [getNode, updNext]
  exact lookup_map_adj (fun nd => { nd with next := v }) j s.nodes i

theorem getNode_updPrev {α : Type} (s : CacheState α) (j : Nat) (v : Option Nat)
    (i : Nat) :
    getNode (updPrev s j v) i =
      (if i = j then (getNode s i).map (fun nd => { nd with prev := v })
       else getNode s i) := by
  simp only [getNode, updPrev]
  exact lookup_map_adj (fun nd => { nd with prev := v }) j s.nodes i


theorem headOr_none (is : List Nat) : headOr is none = is.head? := by
  cases is <;> rfl

theorem updNext_head {α : Type} (s : CacheState α) (j : Nat) (v : Option Nat) :
    (updNext s j v).head = s.head := rfl

theorem updPrev_head {α : Type} (s : CacheState α) (j : Nat) (v : Option Nat) :
    (updPrev s j v).head = s.head := rfl

theorem updNext_tail {α : Type} (s : CacheState α) (j : Nat) (v : Option Nat) :
    (updNext s j v).tail = s.tail := rfl

theorem updPrev_tail {α : Type} (s : CacheState α) (j : Nat) (v : Option Nat) :
    (updPrev s j v).tail = s.tail := rfl

theorem modelEntries_map_fst {α : Type} :
    ∀ (ids : List Nat) (kds : List (String × α)), ids.length = kds.length →
      (modelEntries ids kds).map Prod.fst = kds.map Prod.fst := by
  intro ids
  induction ids with
  | nil =>
    intro kds h
    cases kds with
    | nil => rfl
    | cons a l => simp at h
  | cons i ids ih =>
    intro kds h
    cases kds with
    | nil => simp at h
    | cons a l =>
      simp only [List.length_cons] at h
      simp only [modelEntries, List.zip_cons_cons, List.map_cons]
      exact congrArg (List.cons a.1) (ih l (by omega))

theorem queued_ids_lt {α : Type} {s : CacheState α} {ids : List Nat}
    {kds : List (String × α)} (hq : Queued s ids kds) :
    ∀ i ∈ ids, i < s.nextId := by
  intro i hi
  obtain ⟨hnd, hlt, hlen, hidn, hkdn, hhead, htail, hchain, hperm⟩ := hq
  obtain ⟨nd, hnd2⟩ := chainTo_mem_lookup s.nodes ids _ none none hchain i hi
  exact hlt _ (mem_of_lookup i nd s.nodes hnd2)

theorem queued_entries_keys {α : Type} {s : CacheState α} {ids : List Nat}
    {kds : List (String × α)} (hq : Queued s ids kds) :
    (s.entries.map Prod.fst).Perm (kds.map Prod.fst) := by
  obtain ⟨hnd, hlt, hlen, hidn, hkdn, hhead, htail, hchain, hperm⟩ := hq
  have := hperm.map Prod.fst
  rwa [modelEntries_map_fst ids kds hlen] at this

theorem queued_lookup_none {α : Type} {s : CacheState α} {ids : List Nat}
    {kds : List (String × α)} (hq : Queued s ids kds) (k : String)
    (hk : k ∉ kds.map Prod.fst) : List.lookup k s.entries = none := by
  apply lookup_eq_none_of_not_mem
  intro hmem
  exact hk ((queued_entries_keys hq).mem_iff.mp hmem)


theorem addToFront_head {α : Type} (s : CacheState α) (i : Nat) :
    (addToFront s i).head = some i := by
  simp only [addToFront, updPrev_head, updNext_head]
  cases hh : s.head <;> simp [updPrev_tail, updNext_tail] <;> split <;> rfl

theorem addToFront_nextId {α : Type} (s : CacheState α) (i : Nat) :
    (addToFront s i).nextId = s.nextId := by
  simp only [addToFront, updPrev_head, updNext_head]
  cases hh : s.head <;> simp [updPrev_tail, updNext_tail] <;> split <;> rfl

theorem addToFront_maxSize {α : Type} (s : CacheState α) (i : Nat) :
    (addToFront s i).maxSize = s.maxSize := by
  simp only [addToFront, updPrev_head, updNext_head]
  cases hh : s.head <;> simp [updPrev_tail, updNext_tail] <;> split <;> rfl

theorem addToFront_tail_none {α : Type} (s : CacheState α) (i : Nat)
    (ht : s.tail = none) : (addToFront s i).tail = some i := by
  simp only [addToFront, updPrev_head, updNext_head]
  cases hh : s.head <;> simp [updPrev_tail, updNext_tail, ht]

theorem addToFront_tail_some {α : Type} (s : CacheState α) (i : Nat)
    (ht : s.tail ≠ none) : (addToFront s i).tail = s.tail := by
  simp only [addToFront, updPrev_head, updNext_head]
  cases hh : s.head <;> simp [updPrev_tail, updNext_tail, ht]

theorem addToFront_nodes {α : Type} (s : CacheState α) (i : Nat) :
    (addToFront s i).nodes =
      (match s.head with
       | some h => (updPrev (updPrev (updNext s i s.head) i none) h (some i)).nodes
       | none => (updPrev (updNext s i s.head) i none).nodes) := by
  simp only [addToFront, updPrev_head, updNext_head]
  cases hh : s.head <;> simp only [hh, updPrev_tail, updNext_tail] <;> split <;> rfl


theorem updNext_nodes_fst {α : Type} (s : CacheState α) (j : Nat)
    (v : Option Nat) :
    (updNext s j v).nodes.map Prod.fst = s.nodes.map Prod.fst := by
  simp only [updNext]
  exact map_fst_adj (fun nd => { nd with next := v }) j s.nodes

theorem updPrev_nodes_fst {α : Type} (s : CacheState α) (j : Nat)
    (v : Option Nat) :
    (updPrev s j v).nodes.map Prod.fst = s.nodes.map Prod.fst := by
  simp only [updPrev]
  exact map_fst_adj (fun nd => { nd with prev := v }) j s.nodes

theorem updNext_nodes_bound {α : Type} (s : CacheState α) (j : Nat)
    (v : Option Nat) (n : Nat) (h : ∀ p ∈ s.nodes, p.1 < n) :
    ∀ p ∈ (updNext s j v).nodes, p.1 < n := by
  simp only [updNext]
  exact mem_fst_adj (fun nd => { nd with next := v }) j s.nodes n h

theorem updPrev_nodes_bound {α : Type} (s : CacheState α) (j : Nat)
    (v : Option Nat) (n : Nat) (h : ∀ p ∈ s.nodes, p.1 < n) :
    ∀ p ∈ (updPrev s j v).nodes, p.1 < n := by
  simp only [updPrev]
  exact mem_fst_adj (fun nd => { nd with prev := v }) j s.nodes n h

theorem addToFront_nodes_fst {α : Type} (s : CacheState α) (i : Nat) :
    (addToFront s i).nodes.map Prod.fst = s.nodes.map Prod.fst := by
  rw [addToFront_nodes]
  cases hh : s.head with
  | none =>
    simp only [hh]
    rw [updPrev_nodes_fst, updNext_nodes_fst]
  | some h =>
    simp only [hh]
    rw [updPrev_nodes_fst, updPrev_nodes_fst, updNext_nodes_fst]

theorem addToFront_nodes_bound {α : Type} (s : CacheState α) (i : Nat)
    (n : Nat) (hb : ∀ p ∈ s.nodes, p.1 < n) :
    ∀ p ∈ (addToFront s i).nodes, p.1 < n := by
  rw [addToFront_nodes]
  cases hh : s.head with
  | none =>
    simp only [hh]
    exact updPrev_nodes_bound _ _ _ _ (updNext_nodes_bound _ _ _ _ hb)
  | some h =>
    simp only [hh]
    exact updPrev_nodes_bound _ _ _ _
      (updPrev_nodes_bound _ _ _ _ (updNext_nodes_bound _ _ _ _ hb))


theorem addToFront_getNode {α : Type} (s : CacheState α) (i h x : Nat)
    (hh : s.head = some h) (hih : i ≠ h) :
    getNode (addToFront s i) x =
      (if x = i then
        (getNode s i).map (fun nd => { nd with prev := none, next := some h })
      else if x = h then
        (getNode s h).map (fun nd => { nd with prev := some i })
      else getNode s x) := by
  have hn : (addToFront s i).nodes =
      (updPrev (updPrev (updNext s i s.head) i none) h (some i)).nodes := by
    rw [addToFront_nodes]
    simp only [hh]
  show List.lookup x (addToFront s i).nodes = _
  rw [hn]
  show getNode (updPrev (updPrev (updNext s i s.head) i none) h (some i)) x = _
  rw [getNode_updPrev, getNode_updPrev, getNode_updNext, hh]
  by_cases hxi : x = i
  · subst hxi
    rw [if_neg hih, if_pos rfl, if_pos rfl, if_pos rfl]
    cases getNode s x <;> rfl
  · rw [if_neg hxi, if_neg hxi, if_neg hxi]
    by_cases hxh : x = h
    · subst hxh
      rw [if_pos rfl]
    · rw [if_neg hxh, if_neg hxh]

theorem addToFront_getNode_nohead {α : Type} (s : CacheState α) (i x : Nat)
    (hh : s.head = none) :
    getNode (addToFront s i) x =
      (if x = i then
        (getNode s i).map (fun nd => { nd with prev := none, next := none })
      else getNode s x) := by
  have hn : (addToFront s i).nodes =
      (updPrev (updNext s i s.head) i none).nodes := by
    rw [addToFront_nodes]
    simp only [hh]
  show List.lookup x (addToFront s i).nodes = _
  rw [hn]
  show getNode (updPrev (updNext s i s.head) i none) x = _
  rw [getNode_updPrev, getNode_updNext, hh]
  by_cases hxi : x = i
  · subst hxi
    rw [if_pos rfl, if_pos rfl, if_pos rfl]
    cases getNode s x <;> rfl
  · rw [if_neg hxi, if_neg hxi, if_neg hxi]


theorem addFreshCore {α : Type} (nodes0 : List (Nat × CacheNode)) (n0 : Nat)
    (entries0 : List (String × Nat × α)) (M : Nat)
    (ids : List Nat) (kds : List (String × α)) (k : String) (d : α)
    (hnd : (nodes0.map Prod.fst).Nodup) (hlt : ∀ p ∈ nodes0, p.1 < n0)
    (hlen : ids.length = kds.length) (hidn : ids.Nodup)
    (hkdn : (kds.map Prod.fst).Nodup) (hk : k ∉ kds.map Prod.fst)
    (hchain : ChainTo nodes0 none ids (kds.map Prod.fst) none)
    (hperm : entries0.Perm (modelEntries ids kds))
    (h0 t0 : Option Nat) (hh0 : h0 = ids.head?) (ht0 : t0 = ids.getLast?) :
    Queued (addToFront
      { nodes := nodes0 ++ [(n0, { key := k, prev := none, next := none })],
        nextId := n0 + 1, entries := entries0 ++ [(k, (n0, d))],
        head := h0, tail := t0, maxSize := M }
      n0)
      (n0 :: ids) ((k, d) :: kds) := by
  subst hh0
  subst ht0
  have hids_lt : ∀ x ∈ ids, x < n0 := by
    intro x hx
    obtain ⟨nd, hnd2⟩ :=
      chainTo_mem_lookup nodes0 ids (kds.map Prod.fst) none none hchain x hx
    exact hlt _ (mem_of_lookup x nd nodes0 hnd2)
  have hn0 : n0 ∉ nodes0.map Prod.fst := by
    intro hmem
    obtain ⟨p, hp, he⟩ := List.mem_map.mp hmem
    exact absurd (he ▸ hlt p hp) (lt_irrefl n0)
  have hlk0 : List.lookup n0
      (nodes0 ++ [(n0, ({ key := k, prev := none, next := none } : CacheNode))]) =
      some { key := k, prev := none, next := none } := by
    rw [lookup_append_kv, lookup_eq_none_of_not_mem n0 nodes0 hn0]
    simp [List.lookup]
  have hlkold : ∀ x ∈ ids, List.lookup x
      (nodes0 ++ [(n0, ({ key := k, prev := none, next := none } : CacheNode))]) =
      List.lookup x nodes0 := by
    intro x hx
    obtain ⟨nd, hnd2⟩ :=
      chainTo_mem_lookup nodes0 ids (kds.map Prod.fst) none none hchain x hx
    rw [lookup_append_kv, hnd2]
  refine ⟨?_, ?_, ?_, ?_, ?_, ?_, ?_, ?_, ?_⟩
  · rw [addToFront_nodes_fst]
    show ((nodes0 ++
      [(n0, ({ key := k, prev := none, next := none } : CacheNode))]).map
        Prod.fst).Nodup
    simp only [List.map_append, List.map_cons, List.map_nil]
    rw [List.nodup_append]
    refine ⟨hnd, List.nodup_singleton n0, ?_⟩
    intro a ha hb
    rw [List.mem_singleton] at hb
    exact absurd (hb ▸ ha) hn0
  · intro p hp
    rw [addToFront_nextId]
    show p.1 < n0 + 1
    refine addToFront_nodes_bound _ n0 (n0 + 1) ?_ p hp
    intro q hq
    rcases List.mem_append.mp hq with hq | hq
    · exact Nat.lt_succ_of_lt (hlt q hq)
    · rw [List.mem_singleton] at hq
      subst hq
      exact Nat.lt_succ_self n0
  · simp [hlen]
  · rw [List.nodup_cons]
    exact ⟨fun hmem => absurd (hids_lt n0 hmem) (lt_irrefl n0), hidn⟩
  · simp only [List.map_cons]
    rw [List.nodup_cons]
    exact ⟨hk, hkdn⟩
  · rw [addToFront_head]
    rfl
  · cases ids with
    | nil =>
      rw [addToFront_tail_none _ _ rfl]
      rfl
    | cons h rest =>
      rw [addToFront_tail_some]
      · show (h :: rest).getLast? = (n0 :: h :: rest).getLast?
        rw [List.getLast?_cons_cons]
      · show (h :: rest).getLast? ≠ none
        intro hcon
        exact absurd (List.getLast?_eq_none_iff.mp hcon) (by simp)
  · cases ids with
    | nil =>
      have hkds : kds = [] := by
        cases kds with
        | nil => rfl
        | cons a l => simp at hlen
      subst hkds
      refine ⟨?_, trivial⟩
      show getNode (addToFront _ n0) n0 =
        some { key := k, prev := none, next := none }
      rw [addToFront_getNode_nohead _ n0 n0 rfl, if_pos rfl]
      show (List.lookup n0 (nodes0 ++
        [(n0, ({ key := k, prev := none, next := none } : CacheNode))])).map _ = _
      rw [hlk0]
      rfl
    | cons h rest =>
      cases kds with
      | nil => simp at hlen
      | cons kd kl =>
        have hhlt : h < n0 := hids_lt h (List.mem_cons_self _ _)
        have hneq : n0 ≠ h := fun he => absurd (he ▸ hhlt) (lt_irrefl n0)
        obtain ⟨hch1, hch2⟩ := hchain
        refine ⟨?_, ?_, ?_⟩
        · show getNode (addToFront _ n0) n0 =
            some { key := k, prev := none, next := some h }
          rw [addToFront_getNode _ n0 h n0 rfl hneq, if_pos rfl]
          show (List.lookup n0 (nodes0 ++
            [(n0, ({ key := k, prev := none, next := none } : CacheNode))])).map
              _ = _
          rw [hlk0]
          rfl
        · show getNode (addToFront _ n0) h =
            some { key := kd.1, prev := some n0, next := headOr rest none }
          rw [addToFront_getNode _ n0 h h rfl hneq,
            if_neg (fun he => hneq he.symm), if_pos rfl]
          show (List.lookup h (nodes0 ++
            [(n0, ({ key := k, prev := none, next := none } : CacheNode))])).map
              _ = _
          rw [hlkold h (List.mem_cons_self _ _), hch1]
          rfl
        · refine chainTo_congr nodes0 _ rest (kl.map Prod.fst) (some h) none
            ?_ hch2
          intro x hx
          have hxlt : x < n0 :=
            hids_lt x (List.mem_cons_of_mem _ hx)
          have hxn : x ≠ n0 := fun he => absurd (he ▸ hxlt) (lt_irrefl _)
          have hxh : x ≠ h := by
            intro he
            subst he
            exact absurd hx (List.nodup_cons.mp hidn).1
          show getNode (addToFront _ n0) x = _
          rw [addToFront_getNode _ n0 h x rfl hneq, if_neg hxn, if_neg hxh]
          show List.lookup x (nodes0 ++ _) = _
          rw [hlkold x (List.mem_cons_of_mem _ hx)]
  · rw [addToFront_entries]
    show (entries0 ++ [(k, (n0, d))]).Perm ((k, (n0, d)) :: modelEntries ids kds)
    exact (List.perm_append_singleton _ _).trans (hperm.cons _)


theorem modelEntries_length {α : Type} (ids : List Nat)
    (kds : List (String × α)) (h : ids.length = kds.length) :
    (modelEntries ids kds).length = kds.length := by
  simp [modelEntries, h]

theorem modelEntries_append {α : Type} (i1 i2 : List Nat)
    (k1 k2 : List (String × α)) (h : i1.length = k1.length) :
    modelEntries (i1 ++ i2) (k1 ++ k2) =
      modelEntries i1 k1 ++ modelEntries i2 k2 := by
  simp [modelEntries, List.zip_append h]

theorem mem_modelEntries_fst {α : Type} (ids : List Nat)
    (kds : List (String × α)) (h : ids.length = kds.length) :
    ∀ a ∈ modelEntries ids kds, a.1 ∈ kds.map Prod.fst := by
  intro a ha
  have : a.1 ∈ (modelEntries ids kds).map Prod.fst := List.mem_map_of_mem _ ha
  rwa [modelEntries_map_fst ids kds h] at this

theorem headOr_of_ne_nil (is : List Nat) (q q' : Option Nat) (h : is ≠ []) :
    headOr is q = headOr is q' := by
  cases is with
  | nil => exact absurd rfl h
  | cons a l => rfl

theorem mem_of_getLast_some {β : Type} (l : List β) (a : β)
    (h : l.getLast? = some a) : a ∈ l := by
  cases l with
  | nil => simp at h
  | cons x xs =>
    rw [List.getLast?_eq_getLast_of_ne_nil (by simp)] at h
    injection h with h
    rw [← h]
    exact List.getLast_mem _

theorem chainTo_updNext_last {α : Type} (s : CacheState α) :
    ∀ (is : List Nat) (ks : List String) (p q q' : Option Nat) (t : Nat),
      is.getLast? = some t → is.Nodup →
      ChainTo s.nodes p is ks q →
      ChainTo (updNext s t q').nodes p is ks q' := by
  intro is
  induction is with
  | nil => intro ks p q q' t ht _ _; simp at ht
  | cons i is ih =>
    intro ks p q q' t ht hnd hch
    cases ks with
    | nil => exact absurd hch (by simp [ChainTo])
    | cons k ks =>
      obtain ⟨h1, h2⟩ := hch
      cases is with
      | nil =>
        have hti : i = t := by simpa using ht
        subst hti
        cases ks with
        | cons a l => exact absurd h2 (by simp [ChainTo])
        | nil =>
          refine ⟨?_, trivial⟩
          show getNode (updNext s i q') i = _
          rw [getNode_updNext, if_pos rfl,
            show getNode s i = some { key := k, prev := p, next := headOr [] q }
              from h1]
          rfl
      | cons j is2 =>
        have ht2 : (j :: is2).getLast? = some t := by
          rw [← List.getLast?_cons_cons]
          exact ht
        have htmem : t ∈ j :: is2 := mem_of_getLast_some _ t ht2
        have hit : i ≠ t := by
          intro he
          exact absurd (he ▸ htmem) (List.nodup_cons.mp hnd).1
        refine ⟨?_, ih ks (some i) q q' t ht2 (List.nodup_cons.mp hnd).2 h2⟩
        show getNode (updNext s t q') i = _
        rw [getNode_updNext, if_neg hit,
          show getNode s i
              = some { key := k, prev := p, next := headOr (j :: is2) q }
            from h1]
        rw [headOr_of_ne_nil _ q q' (by simp)]


theorem cacheMapSet_fresh {α : Type} (s : CacheState α) (k : String)
    (v : Nat × α) (h : List.lookup k s.entries = none) :
    cacheMapSet s k v = { s with entries := s.entries ++ [(k, v)] } := by
  simp [cacheMapSet, h]

theorem head?_append_left {β : Type} (l l2 : List β) (h : l ≠ []) :
    (l ++ l2).head? = l.head? := by
  cases l with
  | nil => exact absurd rfl h
  | cons a as => rfl

theorem modelEntries_filter_last {α : Type} (ids : List Nat)
    (kds : List (String × α)) (hlen : ids.length = kds.length)
    (hkdn : (kds.map Prod.fst).Nodup) (t : Nat) (kdl : String × α)
    (hid : ids.getLast? = some t) (hkd : kds.getLast? = some kdl) :
    (modelEntries ids kds).filter (fun p => p.1 ≠ kdl.1) =
      modelEntries ids.dropLast kds.dropLast := by
  have hi : ids.dropLast ++ [t] = ids := List.dropLast_append_getLast? t hid
  have hk2 : kds.dropLast ++ [kdl] = kds := List.dropLast_append_getLast? kdl hkd
  have hlen2 : ids.dropLast.length = kds.dropLast.length := by
    rw [List.length_dropLast, List.length_dropLast, hlen]
  have hnotin : kdl.1 ∉ (kds.dropLast).map Prod.fst := by
    have hnd2 : ((kds.dropLast).map Prod.fst ++ [kdl.1]).Nodup := by
      have : (kds.dropLast ++ [kdl]).map Prod.fst = kds.map Prod.fst :=
        congrArg (List.map Prod.fst) hk2
      rw [List.map_append] at this
      rw [show ([kdl] : List (String × α)).map Prod.fst = [kdl.1] from rfl]
        at this
      rw [this]
      exact hkdn
    rcases List.nodup_append.mp hnd2 with ⟨h1, h2, hdisj⟩
    intro hcon
    exact hdisj hcon (by simp)
  conv_lhs => rw [← hi, ← hk2]
  rw [modelEntries_append _ _ _ _ hlen2, List.filter_append]
  have h1 : (modelEntries ids.dropLast kds.dropLast).filter
      (fun p => p.1 ≠ kdl.1) = modelEntries ids.dropLast kds.dropLast := by
    rw [List.filter_eq_self]
    intro a ha
    have hmem : a.1 ∈ (kds.dropLast).map Prod.fst :=
      mem_modelEntries_fst _ _ hlen2 a ha
    exact decide_eq_true (fun hcon => hnotin (hcon ▸ hmem))
  have h2 : (modelEntries [t] [kdl]).filter (fun p => p.1 ≠ kdl.1) = [] := by
    show List.filter _ [(kdl.1, t, kdl.2)] = []
    simp [List.filter]
  rw [h1, h2, List.append_nil]


theorem getNode_cacheMapDelete {α : Type} (s : CacheState α) (k : String)
    (i : Nat) : getNode (cacheMapDelete s k) i = getNode s i := rfl

theorem removeTail_case_none {α : Type} (s : CacheState α) (t : Nat)
    (nd : CacheNode) (ht : s.tail = some t) (hg : getNode s t = some nd)
    (hp : nd.prev = none) :
    removeTail s = { s with head := none, tail := none } := by
  simp only [removeTail]
  split
  · next heq => rw [heq] at ht; cases ht
  · next t2 heq =>
    have ht2 : t2 = t := by
      rw [ht] at heq
      injection heq with h9
      exact h9.symm
    subst ht2
    split
    · next heq2 => rw [hg] at heq2; cases heq2
    · next nd2 heq2 =>
      have hnd2 : nd2 = nd := by
        rw [hg] at heq2
        injection heq2 with h9
        exact h9.symm
      subst hnd2
      split
      · next p heq3 => rw [hp] at heq3; cases heq3
      · rfl

theorem removeTail_case_some {α : Type} (s : CacheState α) (t p2 : Nat)
    (nd : CacheNode) (ht : s.tail = some t) (hg : getNode s t = some nd)
    (hp : nd.prev = some p2) (hne : t ≠ p2) :
    removeTail s = { updNext s p2 none with tail := some p2 } := by
  simp only [removeTail]
  split
  · next heq => rw [heq] at ht; cases ht
  · next t2 heq =>
    have ht2 : t2 = t := by
      rw [ht] at heq
      injection heq with h9
      exact h9.symm
    subst ht2
    split
    · next heq2 => rw [hg] at heq2; cases heq2
    · next nd2 heq2 =>
      have hnd2 : nd2 = nd := by
        rw [hg] at heq2
        injection heq2 with h9
        exact h9.symm
      subst hnd2
      split
      · next p heq3 =>
        have hpp : p = p2 := by
          rw [hp] at heq3
          injection heq3 with h9
          exact h9.symm
        subst hpp
        have hge : getNode (updNext s p none) t2 = some nd2 := by
          rw [getNode_updNext, if_neg hne]
          exact hg
        rw [hge]
        show { updNext s p none with tail := nd2.prev } = _
        rw [hp]
      · next heq3 => rw [hp] at heq3; cases heq3

theorem cacheEvict_at_capacity {α : Type} (s : CacheState α) (t : Nat)
    (nd : CacheNode) (hcond : s.maxSize ≤ s.entries.length)
    (ht : s.tail = some t) (hg : getNode s t = some nd) :
    cacheEvict s = removeTail (cacheMapDelete s nd.key) := by
  simp only [cacheEvict]
  rw [if_pos hcond]
  split
  · next t2 heq =>
    have ht2 : t2 = t := by
      rw [ht] at heq
      injection heq with h9
      exact h9.symm
    subst ht2
    split
    · next nd2 heq2 =>
      have hnd2 : nd2 = nd := by
        rw [hg] at heq2
        injection heq2 with h9
        exact h9.symm
      subst hnd2
      rfl
    · next heq2 => rw [hg] at heq2; cases heq2
  · next heq => rw [heq] at ht; cases ht


theorem cacheEvict_full {α : Type} (s : CacheState α) (ids : List Nat)
    (kds : List (String × α)) (hq : Queued s ids kds)
    (hfull : s.maxSize ≤ kds.length) (hne : kds ≠ []) :
    Queued (cacheEvict s) ids.dropLast kds.dropLast ∧
      (cacheEvict s).nextId = s.nextId ∧
      (cacheEvict s).maxSize = s.maxSize := by
  obtain ⟨hnd, hlt, hlen, hidn, hkdn, hhead, htail, hchain, hperm⟩ := hq
  have hidsne : ids ≠ [] := by
    intro he
    subst he
    exact hne (List.length_eq_zero.mp hlen.symm)
  cases hid : ids.getLast? with
  | none => exact absurd (List.getLast?_eq_none_iff.mp hid) hidsne
  | some t =>
  cases hkd : kds.getLast? with
  | none => exact absurd (List.getLast?_eq_none_iff.mp hkd) hne
  | some kdl =>
  have hi : ids.dropLast ++ [t] = ids := List.dropLast_append_getLast? t hid
  have hk2 : kds.dropLast ++ [kdl] = kds := List.dropLast_append_getLast? kdl hkd
  have hlen2 : ids.dropLast.length = kds.dropLast.length := by
    rw [List.length_dropLast, List.length_dropLast, hlen]
  have hksplit : kds.map Prod.fst = (kds.dropLast).map Prod.fst ++ [kdl.1] := by
    conv_lhs => rw [← hk2]
    rw [List.map_append]
    rfl
  have hchain2 : ChainTo s.nodes none (ids.dropLast ++ [t])
      ((kds.dropLast).map Prod.fst ++ [kdl.1]) none := by
    rw [hi, ← hksplit]
    exact hchain
  have hlenk : ids.dropLast.length = ((kds.dropLast).map Prod.fst).length := by
    rw [List.length_map]
    exact hlen2
  obtain ⟨hchInit, hchLast⟩ := (chainTo_append s.nodes ids.dropLast
    ((kds.dropLast).map Prod.fst) [t] [kdl.1] none none hlenk).mp hchain2
  obtain ⟨hlkt, -⟩ := hchLast
  have hels : s.entries.length = kds.length := by
    rw [hperm.length_eq, modelEntries_length _ _ hlen]
  have hcond : s.maxSize ≤ s.entries.length := by
    rw [hels]
    exact hfull
  have htailt : s.tail = some t := by rw [htail, hid]
  have hflt := modelEntries_filter_last ids kds hlen hkdn t kdl hid hkd
  have hdlid : (ids.dropLast).Nodup := hidn.sublist (List.dropLast_sublist ids)
  have hdlkn : ((kds.dropLast).map Prod.fst).Nodup := by
    rw [List.map_dropLast]
    exact hkdn.sublist (List.dropLast_sublist _)
  have ht_not_dl : t ∉ ids.dropLast := by
    rw [← hi] at hidn
    rcases List.nodup_append.mp hidn with ⟨-, -, hdisj⟩
    intro hcon
    exact hdisj hcon (by simp)
  cases hpen : (ids.dropLast).getLast? with
  | none =>
    have hdl : ids.dropLast = [] := List.getLast?_eq_none_iff.mp hpen
    have hkdl : kds.dropLast = [] := by
      rw [hdl] at hlen2
      exact List.length_eq_zero.mp hlen2.symm
    rw [hpen] at hlkt
    have hlkt2 : getNode s t =
        some { key := kdl.1, prev := none, next := none } := hlkt
    have hev : cacheEvict s =
        { cacheMapDelete s kdl.1 with head := none, tail := none } := by
      rw [cacheEvict_at_capacity s t
        { key := kdl.1, prev := none, next := none } hcond htailt hlkt2]
      exact removeTail_case_none _ t
        { key := kdl.1, prev := none, next := none } htailt hlkt2 rfl
    rw [hev, hdl, hkdl]
    rw [hdl, hkdl] at hflt
    refine ⟨⟨hnd, hlt, rfl, List.nodup_nil, by simp, rfl, rfl, trivial, ?_⟩,
      rfl, rfl⟩
    show (s.entries.filter (fun p => p.1 ≠ kdl.1)).Perm (modelEntries [] [])
    exact (hperm.filter _).trans (hflt ▸ List.Perm.refl _)
  | some p2 =>
    have hdlne : ids.dropLast ≠ [] := by
      intro he
      rw [he] at hpen
      simp at hpen
    have hp2mem : p2 ∈ ids.dropLast := mem_of_getLast_some _ _ hpen
    have hp2t : p2 ≠ t := fun he => ht_not_dl (he ▸ hp2mem)
    have htp2 : t ≠ p2 := fun he => hp2t he.symm
    rw [hpen] at hlkt
    have hlkt2 : getNode s t =
        some { key := kdl.1, prev := some p2, next := none } := hlkt
    have hev : cacheEvict s =
        { updNext (cacheMapDelete s kdl.1) p2 none with tail := some p2 } := by
      rw [cacheEvict_at_capacity s t
        { key := kdl.1, prev := some p2, next := none } hcond htailt hlkt2]
      exact removeTail_case_some _ t p2
        { key := kdl.1, prev := some p2, next := none } htailt hlkt2 rfl htp2
    rw [hev]
    refine ⟨⟨?_, ?_, hlen2, hdlid, hdlkn, ?_, hpen.symm, ?_, ?_⟩, rfl, rfl⟩
    · show ((updNext (cacheMapDelete s kdl.1) p2 none).nodes.map
        Prod.fst).Nodup
      rw [updNext_nodes_fst]
      exact hnd
    · intro p hp
      show p.1 < s.nextId
      exact updNext_nodes_bound (cacheMapDelete s kdl.1) p2 none s.nextId
        hlt p hp
    · show s.head = (ids.dropLast).head?
      rw [hhead]
      conv_lhs => rw [← hi]
      rw [head?_append_left _ _ hdlne]
    · show ChainTo (updNext (cacheMapDelete s kdl.1) p2 none).nodes none
        ids.dropLast ((kds.dropLast).map Prod.fst) none
      exact chainTo_updNext_last s ids.dropLast
        ((kds.dropLast).map Prod.fst) none (some t) none p2 hpen hdlid hchInit
    · show (s.entries.filter (fun p => p.1 ≠ kdl.1)).Perm
        (modelEntries ids.dropLast kds.dropLast)
      exact (hperm.filter _).trans (hflt ▸ List.Perm.refl _)


theorem Queued.len {α : Type} {s : CacheState α} {ids : List Nat}
    {kds : List (String × α)} (hq : Queued s ids kds) :
    ids.length = kds.length := hq.2.2.1

theorem Queued.permE {α : Type} {s : CacheState α} {ids : List Nat}
    {kds : List (String × α)} (hq : Queued s ids kds) :
    s.entries.Perm (modelEntries ids kds) := hq.2.2.2.2.2.2.2.2

theorem queued_entries_len {α : Type} {s : CacheState α} {ids : List Nat}
    {kds : List (String × α)} (hq : Queued s ids kds) :
    s.entries.length = kds.length := by
  rw [(Queued.permE hq).length_eq, modelEntries_length _ _ (Queued.len hq)]

theorem cacheSet_fresh_aux {α : Type} (s2 : CacheState α) (ids : List Nat)
    (kds : List (String × α)) (k : String) (d : α)
    (hq : Queued s2 ids kds) (hk : k ∉ kds.map Prod.fst) :
    Queued (addToFront (cacheMapSet
      { s2 with
        nodes := s2.nodes ++ [(s2.nextId, { key := k, prev := none, next := none })],
        nextId := s2.nextId + 1 } k (s2.nextId, d)) s2.nextId)
      (s2.nextId :: ids) ((k, d) :: kds) := by
  have hkent : List.lookup k s2.entries = none := queued_lookup_none hq k hk
  obtain ⟨hnd, hlt, hlen, hidn, hkdn, hhead, htail, hchain, hperm⟩ := hq
  have hmap := cacheMapSet_fresh
    ({ s2 with
      nodes := s2.nodes ++ [(s2.nextId, { key := k, prev := none, next := none })],
      nextId := s2.nextId + 1 } : CacheState α) k (s2.nextId, d) hkent
  rw [hmap]
  exact addFreshCore s2.nodes s2.nextId s2.entries s2.maxSize ids kds k d
    hnd hlt hlen hidn hkdn hk hchain hperm s2.head s2.tail hhead htail

theorem cacheSet_fresh_lt {α : Type} (s : CacheState α) (ids : List Nat)
    (kds : List (String × α)) (k : String) (d : α)
    (hq : Queued s ids kds) (hk : k ∉ kds.map Prod.fst)
    (hcap : kds.length < s.maxSize) :
    ∃ ids2, Queued (cacheSet s k d) ids2 ((k, d) :: kds) := by
  have hkent : List.lookup k s.entries = none := queued_lookup_none hq k hk
  have hhas : cacheHas s k = false := by simp [cacheHas, hkent]
  have hs1 : (if cacheHas s k then cacheRemove s k else s) = s := by
    rw [hhas]
    rfl
  have hels : s.entries.length = kds.length := queued_entries_len hq
  have hnoev : cacheEvict s = s := by
    simp only [cacheEvict]
    rw [if_neg]
    rw [hels]
    omega
  refine ⟨s.nextId :: ids, ?_⟩
  simp only [cacheSet, hs1, hnoev]
  exact cacheSet_fresh_aux s ids kds k d hq hk

theorem cacheSet_fresh_full {α : Type} (s : CacheState α) (ids : List Nat)
    (kds : List (String × α)) (k : String) (d : α)
    (hq : Queued s ids kds) (hk : k ∉ kds.map Prod.fst)
    (hcap : s.maxSize ≤ kds.length) (hne : kds ≠ []) :
    ∃ ids2, Queued (cacheSet s k d) ids2 ((k, d) :: kds.dropLast) := by
  have hkent : List.lookup k s.entries = none := queued_lookup_none hq k hk
  have hhas : cacheHas s k = false := by simp [cacheHas, hkent]
  have hs1 : (if cacheHas s k then cacheRemove s k else s) = s := by
    rw [hhas]
    rfl
  obtain ⟨hqE, hnextE, hmaxE⟩ := cacheEvict_full s ids kds hq hcap hne
  have hk2 : k ∉ (kds.dropLast).map Prod.fst := by
    intro hcon
    apply hk
    rw [List.map_dropLast] at hcon
    exact (List.dropLast_sublist _).subset hcon
  refine ⟨(cacheEvict s).nextId :: ids.dropLast, ?_⟩
  simp only [cacheSet, hs1]
  exact cacheSet_fresh_aux (cacheEvict s) ids.dropLast kds.dropLast k d hqE hk2


theorem cacheMapSet_maxSize {α : Type} (s : CacheState α) (k : String)
    (v : Nat × α) : (cacheMapSet s k v).maxSize = s.maxSize := by
  simp only [cacheMapSet]
  split <;> rfl

theorem removeTail_maxSize {α : Type} (s : CacheState α) :
    (removeTail s).maxSize = s.maxSize := by
  simp only [removeTail]
  split
  · rfl
  · split
    · rfl
    · split <;> rfl

theorem cacheRemove_maxSize {α : Type} (s : CacheState α) (k : String) :
    (cacheRemove s k).maxSize = s.maxSize := by
  simp only [cacheRemove]
  split
  · rfl
  · split
    · rfl
    · split <;> split <;> split <;> split <;> rfl

theorem cacheEvict_maxSize {α : Type} (s : CacheState α) :
    (cacheEvict s).maxSize = s.maxSize := by
  simp only [cacheEvict]
  split
  · split
    · rw [removeTail_maxSize]
      split <;> rfl
    · rfl
  · rfl

theorem cacheSet_maxSize {α : Type} (s : CacheState α) (k : String) (d : α) :
    (cacheSet s k d).maxSize = s.maxSize := by
  simp only [cacheSet]
  rw [addToFront_maxSize, cacheMapSet_maxSize]
  show (cacheEvict (if cacheHas s k then cacheRemove s k else s)).maxSize =
    s.maxSize
  rw [cacheEvict_maxSize]
  split
  · rw [cacheRemove_maxSize]
  · rfl

theorem cacheGet_miss {α : Type} (s : CacheState α) (repo : String → Int → α)
    (v : String) (lap : Int) (ids : List Nat) (kds : List (String × α))
    (hq : Queued s ids kds)
    (hk : (v ++ "-" ++ toString lap) ∉ kds.map Prod.fst)
    (hM : 1 ≤ s.maxSize) (hcap : kds.length ≤ s.maxSize) :
    ∃ ids2, Queued (cacheGet s repo v lap).2 ids2
      (((v ++ "-" ++ toString lap, repo v lap) :: kds).take s.maxSize) := by
  have hkent : List.lookup (v ++ "-" ++ toString lap) s.entries = none :=
    queued_lookup_none hq _ hk
  have hmiss : (cacheGet s repo v lap).2 =
      cacheSet s (v ++ "-" ++ toString lap) (repo v lap) := by
    simp only [cacheGet]
    split
    · next a heq =>
      rw [show cacheLookup s (v ++ "-" ++ toString lap) = none from hkent]
        at heq
      cases heq
    · rfl
  rw [hmiss]
  rcases Nat.lt_or_ge kds.length s.maxSize with hlt | hge
  · have htake : ((v ++ "-" ++ toString lap, repo v lap) :: kds).take
        s.maxSize = (v ++ "-" ++ toString lap, repo v lap) :: kds :=
      List.take_of_length_le (by simp; omega)
    rw [htake]
    exact cacheSet_fresh_lt s ids kds _ _ hq hk hlt
  · have heq : kds.length = s.maxSize := le_antisymm hcap hge
    have hne : kds ≠ [] := by
      intro he
      rw [he] at heq
      simp at heq
      omega
    have htake : ((v ++ "-" ++ toString lap, repo v lap) :: kds).take
        s.maxSize = (v ++ "-" ++ toString lap, repo v lap) :: kds.dropLast := by
      have hm1 : s.maxSize = (s.maxSize - 1) + 1 := by omega
      rw [hm1, List.take_succ_cons, List.dropLast_eq_take, heq]
    rw [htake]
    exact cacheSet_fresh_full s ids kds _ _ hq hk hge hne


theorem moveToFront_maxSize {α : Type} (s : CacheState α) (k : String) :
    (moveToFront s k).maxSize = s.maxSize := by
  simp only [moveToFront]
  split
  · rfl
  · split
    · rfl
    · rw [addToFront_maxSize]
      split
      · split <;> split <;> rfl
      · split <;> split <;> rfl

theorem cacheGet_maxSize {α : Type} (s : CacheState α)
    (repo : String → Int → α) (v : String) (lap : Int) :
    (cacheGet s repo v lap).2.maxSize = s.maxSize := by
  simp only [cacheGet]
  split
  · exact moveToFront_maxSize s _
  · exact cacheSet_maxSize s _ _

/-- The abstract LRU bookkeeping: each get of a fresh key prepends
`key → repo result` and clips the recency list at `maxSize`. -/
def lruRun {α : Type} (repo : String → Int → α) (M : Nat) :
    List (String × Int) → List (String × α) → List (String × α)
  | [], kds => kds
  | p :: ps, kds => lruRun repo M ps
      (((p.1 ++ "-" ++ toString p.2, repo p.1 p.2) :: kds).take M)

theorem runGets_fresh {α : Type} (repo : String → Int → α) :
    ∀ (ps : List (String × Int)) (s : CacheState α) (ids : List Nat)
      (kds : List (String × α)),
      Queued s ids kds → 1 ≤ s.maxSize → kds.length ≤ s.maxSize →
      (∀ p ∈ ps, (p.1 ++ "-" ++ toString p.2) ∉ kds.map Prod.fst) →
      (ps.map (fun p => p.1 ++ "-" ++ toString p.2)).Nodup →
      ∃ ids2, Queued (runGets repo s ps) ids2
        (lruRun repo s.maxSize ps kds) := by
  intro ps
  induction ps with
  | nil =>
    intro s ids kds hq _ _ _ _
    exact ⟨ids, hq⟩
  | cons p ps ih =>
    intro s ids kds hq hM hcap hfresh hnd
    simp only [List.map_cons] at hnd
    obtain ⟨ids2, hq2⟩ := cacheGet_miss s repo p.1 p.2 ids kds hq
      (hfresh p (List.mem_cons_self _ _)) hM hcap
    have hms : (cacheGet s repo p.1 p.2).2.maxSize = s.maxSize :=
      cacheGet_maxSize s repo p.1 p.2
    have hM2 : 1 ≤ (cacheGet s repo p.1 p.2).2.maxSize := by
      rw [hms]
      exact hM
    have hcap2 : (((p.1 ++ "-" ++ toString p.2, repo p.1 p.2) :: kds).take
        s.maxSize).length ≤ (cacheGet s repo p.1 p.2).2.maxSize := by
      rw [hms, List.length_take]
      omega
    have hfresh2 : ∀ q ∈ ps, (q.1 ++ "-" ++ toString q.2) ∉
        ((((p.1 ++ "-" ++ toString p.2, repo p.1 p.2) :: kds).take
          s.maxSize).map Prod.fst) := by
      intro q hqm hcon
      rw [List.map_take] at hcon
      have hcon2 := List.take_subset _ _ hcon
      simp only [List.map_cons] at hcon2
      rcases List.mem_cons.mp hcon2 with he | he
      · exact absurd (he ▸ List.mem_map_of_mem
          (fun r => r.1 ++ "-" ++ toString r.2) hqm) (List.nodup_cons.mp hnd).1
      · exact hfresh q (List.mem_cons_of_mem _ hqm) he
    obtain ⟨ids3, hq3⟩ := ih (cacheGet s repo p.1 p.2).2 ids2 _ hq2 hM2 hcap2
      hfresh2 (List.nodup_cons.mp hnd).2
    rw [hms] at hq3
    exact ⟨ids3, hq3⟩


theorem take_append_take {β : Type} (a b : List β) (M : Nat) :
    (a ++ b.take M).take M = (a ++ b).take M := by
  rw [List.take_append_eq_append_take, List.take_append_eq_append_take,
    List.take_take]
  rw [min_eq_left (Nat.sub_le M a.length)]

theorem lruRun_map_fst {α : Type} (repo : String → Int → α) (M : Nat) :
    ∀ (ps : List (String × Int)) (kds : List (String × α)),
      kds.length ≤ M →
      (lruRun repo M ps kds).map Prod.fst =
        ((ps.map (fun p => p.1 ++ "-" ++ toString p.2)).reverse ++
          kds.map Prod.fst).take M := by
  intro ps
  induction ps with
  | nil =>
    intro kds hlen
    simp only [lruRun, List.map_nil, List.reverse_nil, List.nil_append]
    rw [List.take_of_length_le (by rw [List.length_map]; exact hlen)]
  | cons p ps ih =>
    intro kds hlen
    show (lruRun repo M ps
      (((p.1 ++ "-" ++ toString p.2, repo p.1 p.2) :: kds).take M)).map
        Prod.fst = _
    rw [ih _ (by rw [List.length_take]; omega)]
    rw [List.map_take, List.map_cons]
    rw [take_append_take]
    simp only [List.map_cons, List.reverse_cons, List.append_assoc,
      List.cons_append, List.nil_append]

theorem queued_empty (α : Type) (M : Nat) :
    Queued (emptyCache α M) [] [] :=
  ⟨List.nodup_nil, fun p hp => absurd hp (List.not_mem_nil p), rfl,
    List.nodup_nil, List.nodup_nil, rfl, rfl, trivial, List.Perm.refl []⟩


theorem lookup_of_mem_nodup {κ β : Type} [BEq κ] [LawfulBEq κ] :
    ∀ (l : List (κ × β)), (l.map Prod.fst).Nodup →
      ∀ (k : κ) (v : β), (k, v) ∈ l → List.lookup k l = some v := by
  intro l
  induction l with
  | nil => intro _ k v hm; exact absurd hm (List.not_mem_nil _)
  | cons p l ih =>
    intro hnd k v hm
    obtain ⟨a, b⟩ := p
    simp only [List.map_cons] at hnd
    rcases List.mem_cons.mp hm with he | hm2
    · injection he with h1 h2
      subst h1
      subst h2
      simp [lookup_cons]
    · have hka : (k == a) = false := by
        have : k ≠ a := by
          intro he2
          subst he2
          exact absurd (List.mem_map_of_mem Prod.fst hm2)
            (List.nodup_cons.mp hnd).1
        simpa using this
      rw [lookup_cons, if_neg (by simp [hka])]
      exact ih (List.nodup_cons.mp hnd).2 k v hm2

theorem chainTo_updPrev_first {α : Type} (s : CacheState α) (i : Nat)
    (is : List Nat) (ks : List String) (p p2 q : Option Nat)
    (hch : ChainTo s.nodes p (i :: is) ks q) (hnd : (i :: is).Nodup) :
    ChainTo (updPrev s i p2).nodes p2 (i :: is) ks q := by
  cases ks with
  | nil => exact absurd hch (by simp [ChainTo])
  | cons k ks =>
    obtain ⟨h1, h2⟩ := hch
    refine ⟨?_, ?_⟩
    · show getNode (updPrev s i p2) i = _
      rw [getNode_updPrev, if_pos rfl,
        show getNode s i = some { key := k, prev := p, next := headOr is q }
          from h1]
      rfl
    · refine chainTo_congr s.nodes _ is ks (some i) q ?_ h2
      intro x hx
      have hxi : x ≠ i := by
        intro he
        subst he
        exact absurd hx (List.nodup_cons.mp hnd).1
      show getNode (updPrev s i p2) x = _
      rw [getNode_updPrev, if_neg hxi]
      rfl


theorem moveToFront_last {α : Type} (s : CacheState α) (k : String)
    (x pl : Nat) (dat : α) (nd : CacheNode)
    (hlk : cacheLookup s k = some (x, dat)) (hg : getNode s x = some nd)
    (hprev : nd.prev = some pl) (hxpl : x ≠ pl) (hnext : nd.next = none)
    (htl : s.tail = some x) :
    moveToFront s k =
      addToFront { updNext s pl none with tail := some pl } x := by
  simp only [moveToFront]
  split
  · next heq => rw [hlk] at heq; cases heq
  · next i d heq =>
    rw [hlk] at heq
    injection heq with heq2
    injection heq2 with heqi heqd
    subst heqi
    split
    · next heq3 => rw [hg] at heq3; cases heq3
    · next nd2 heq3 =>
      have hnd2 : nd2 = nd := by
        rw [hg] at heq3
        injection heq3 with h9
        exact h9.symm
      subst hnd2
      rw [hprev, hnext]
      dsimp only
      rw [show getNode (updNext s pl none) x = some nd2 from by
        rw [getNode_updNext, if_neg hxpl]
        exact hg]
      simp only [Option.getD_some]
      rw [hnext]
      dsimp only
      rw [show getNode (updNext s pl none) x = some nd2 from by
        rw [getNode_updNext, if_neg hxpl]
        exact hg]
      simp only [Option.getD_some]
      rw [hprev]
      rw [if_pos (show (updNext s pl none).tail = some x from htl)]


theorem moveToFront_mid {α : Type} (s : CacheState α) (k : String)
    (x pl y : Nat) (dat : α) (nd : CacheNode)
    (hlk : cacheLookup s k = some (x, dat)) (hg : getNode s x = some nd)
    (hprev : nd.prev = some pl) (hxpl : x ≠ pl) (hnext : nd.next = some y)
    (hxy : x ≠ y) (htl : s.tail ≠ some x) :
    moveToFront s k =
      addToFront (updPrev (updNext s pl (some y)) y (some pl)) x := by
  simp only [moveToFront]
  split
  · next heq => rw [hlk] at heq; cases heq
  · next i d heq =>
    rw [hlk] at heq
    injection heq with heq2
    injection heq2 with heqi heqd
    subst heqi
    split
    · next heq3 => rw [hg] at heq3; cases heq3
    · next nd2 heq3 =>
      have hnd2 : nd2 = nd := by
        rw [hg] at heq3
        injection heq3 with h9
        exact h9.symm
      subst hnd2
      rw [hprev, hnext]
      dsimp only
      rw [show getNode (updNext s pl (some y)) x = some nd2 from by
        rw [getNode_updNext, if_neg hxpl]
        exact hg]
      simp only [Option.getD_some]
      rw [hnext, hprev]
      dsimp only
      rw [show getNode (updPrev (updNext s pl (some y)) y (some pl)) x
            = some nd2 from by
        rw [getNode_updPrev, if_neg hxy, getNode_updNext, if_neg hxpl]
        exact hg]
      simp only [Option.getD_some]
      rw [if_neg (show ¬(updPrev (updNext s pl (some y)) y
        (some pl)).tail = some x from htl)]


theorem chainTo_upd_out_next {α : Type} (s : CacheState α) (j : Nat)
    (v : Option Nat) (is : List Nat) (ks : List String) (p q : Option Nat)
    (hj : j ∉ is) (hch : ChainTo s.nodes p is ks q) :
    ChainTo (updNext s j v).nodes p is ks q := by
  refine chainTo_congr s.nodes _ is ks p q ?_ hch
  intro i hi
  show getNode (updNext s j v) i = _
  rw [getNode_updNext, if_neg (show ¬i = j from fun he => hj (he ▸ hi))]
  rfl

theorem chainTo_upd_out_prev {α : Type} (s : CacheState α) (j : Nat)
    (v : Option Nat) (is : List Nat) (ks : List String) (p q : Option Nat)
    (hj : j ∉ is) (hch : ChainTo s.nodes p is ks q) :
    ChainTo (updPrev s j v).nodes p is ks q := by
  refine chainTo_congr s.nodes _ is ks p q ?_ hch
  intro i hi
  show getNode (updPrev s j v) i = _
  rw [getNode_updPrev, if_neg (show ¬i = j from fun he => hj (he ▸ hi))]
  rfl


theorem moveToFront_queued {α : Type} (s : CacheState α)
    (pre suf : List Nat) (x : Nat) (kpre ksuf : List (String × α))
    (kx : String × α)
    (hq : Queued s (pre ++ x :: suf) (kpre ++ kx :: ksuf))
    (hlenp : pre.length = kpre.length) (hpre : pre ≠ []) :
    Queued (moveToFront s kx.1) (x :: (pre ++ suf)) (kx :: (kpre ++ ksuf)) := by
  have hekeys := queued_entries_keys hq
  obtain ⟨hnd, hlt, hlen, hidn, hkdn, hhead, htail, hchain, hperm⟩ := hq
  have hentnodup : (s.entries.map Prod.fst).Nodup := hekeys.nodup_iff.mpr hkdn
  have hkeys : (kpre ++ kx :: ksuf).map Prod.fst
      = kpre.map Prod.fst ++ kx.1 :: ksuf.map Prod.fst := by simp
  rw [hkeys] at hchain hkdn
  have hlenp2 : pre.length = (kpre.map Prod.fst).length := by
    rw [List.length_map]
    exact hlenp
  obtain ⟨hchPre0, hchSuf0⟩ := (chainTo_append s.nodes pre
    (kpre.map Prod.fst) (x :: suf) (kx.1 :: ksuf.map Prod.fst) none none
    hlenp2).mp hchain
  cases hplq : pre.getLast? with
  | none => exact absurd (List.getLast?_eq_none_iff.mp hplq) hpre
  | some pl =>
  rw [hplq] at hchSuf0
  have hchSuf : ChainTo s.nodes (some pl) (x :: suf)
      (kx.1 :: ksuf.map Prod.fst) none := hchSuf0
  obtain ⟨hlkx, hchSufT⟩ := hchSuf
  have hchPre : ChainTo s.nodes none pre (kpre.map Prod.fst) (some x) :=
    hchPre0
  have hidn2 : (x :: (pre ++ suf)).Nodup := List.nodup_middle.mp hidn
  have hx_notin : x ∉ pre ++ suf := (List.nodup_cons.mp hidn2).1
  have hx_pre : x ∉ pre := fun h => hx_notin (List.mem_append.mpr (Or.inl h))
  have hx_suf : x ∉ suf := fun h => hx_notin (List.mem_append.mpr (Or.inr h))
  obtain ⟨hpre_nodup, hxsuf_nodup, hdisj_ps⟩ := List.nodup_append.mp hidn
  have hsuf_nodup : suf.Nodup := (List.nodup_cons.mp hxsuf_nodup).2
  have hpl_pre : pl ∈ pre := mem_of_getLast_some _ _ hplq
  have hxpl : x ≠ pl := fun he => hx_pre (he ▸ hpl_pre)
  have hpl_not_suf : pl ∉ suf := fun h =>
    hdisj_ps hpl_pre (List.mem_cons_of_mem _ h)
  have hmodelmem : (kx.1, (x, kx.2)) ∈
      modelEntries (pre ++ x :: suf) (kpre ++ kx :: ksuf) := by
    rw [modelEntries_append pre (x :: suf) kpre (kx :: ksuf) hlenp]
    refine List.mem_append.mpr (Or.inr ?_)
    show _ ∈ (kx.1, x, kx.2) :: modelEntries suf ksuf
    exact List.mem_cons_self _ _
  have hlkE : cacheLookup s kx.1 = some (x, kx.2) :=
    lookup_of_mem_nodup s.entries hentnodup kx.1 (x, kx.2)
      (hperm.mem_iff.mpr hmodelmem)
  have hlens : suf.length = ksuf.length := by
    have hl2 := hlen
    simp only [List.length_append, List.length_cons] at hl2
    omega
  have hpermF : s.entries.Perm
      (modelEntries (x :: (pre ++ suf)) (kx :: (kpre ++ ksuf))) := by
    refine hperm.trans ?_
    rw [modelEntries_append _ _ _ _ hlenp]
    show (modelEntries pre kpre ++
      ((kx.1, x, kx.2) :: modelEntries suf ksuf)).Perm _
    refine List.perm_middle.trans ?_
    rw [show modelEntries (x :: (pre ++ suf)) (kx :: (kpre ++ ksuf))
          = (kx.1, x, kx.2) :: modelEntries (pre ++ suf) (kpre ++ ksuf)
        from rfl]
    rw [modelEntries_append _ _ _ _ hlenp]
  cases hpc : pre with
  | nil => exact absurd hpc hpre
  | cons h0 pre2 =>
  subst hpc
  have hh0 : s.head = some h0 := hhead
  have hxh0 : x ≠ h0 := fun he =>
    hx_pre (he ▸ List.mem_cons_self h0 pre2)
  have hkdn2 : (kx.1 :: (kpre.map Prod.fst ++ ksuf.map Prod.fst)).Nodup :=
    List.nodup_middle.mp hkdn
  cases hsc : suf with
  | nil =>
    subst hsc
    have hksuf : ksuf = [] := List.length_eq_zero.mp hlens.symm
    subst hksuf
    have hnd0 : getNode s x =
        some { key := kx.1, prev := some pl, next := none } := hlkx
    have htlx : s.tail = some x := by
      rw [htail, List.getLast?_append_of_ne_nil _ (by simp)]
      simp
    rw [moveToFront_last s kx.1 x pl kx.2
      { key := kx.1, prev := some pl, next := none } hlkE hnd0 rfl hxpl rfl
      htlx]
    have hh3 : ({ updNext s pl none with tail := some pl } :
        CacheState α).head = some h0 := hh0
    have hFn : (addToFront { updNext s pl none with tail := some pl } x).nodes
        = (updPrev (updPrev (updNext
            { updNext s pl none with tail := some pl } x (some h0)) x none)
            h0 (some x)).nodes := by
      rw [addToFront_nodes, hh3]
    have hcS3 : ChainTo ({ updNext s pl none with tail := some pl } :
        CacheState α).nodes none (h0 :: pre2) (kpre.map Prod.fst) none := by
      show ChainTo (updNext s pl none).nodes none (h0 :: pre2)
        (kpre.map Prod.fst) none
      exact chainTo_updNext_last s (h0 :: pre2) (kpre.map Prod.fst) none
        (some x) none pl hplq hpre_nodup hchPre
    have hc1 := chainTo_upd_out_next
      ({ updNext s pl none with tail := some pl } : CacheState α) x (some h0)
      (h0 :: pre2) (kpre.map Prod.fst) none none hx_pre hcS3
    have hc2 := chainTo_upd_out_prev _ x none (h0 :: pre2)
      (kpre.map Prod.fst) none none hx_pre hc1
    have hc3 := chainTo_updPrev_first _ h0 pre2 (kpre.map Prod.fst) none
      (some x) none hc2 hpre_nodup
    refine ⟨?_, ?_, ?_, ?_, ?_, ?_, ?_, ?_, ?_⟩
    · rw [addToFront_nodes_fst]
      show ((updNext s pl none).nodes.map Prod.fst).Nodup
      rw [updNext_nodes_fst]
      exact hnd
    · intro p hp
      rw [addToFront_nextId]
      show p.1 < s.nextId
      refine addToFront_nodes_bound _ x s.nextId ?_ p hp
      intro q hqq
      show q.1 < s.nextId
      exact updNext_nodes_bound s pl none s.nextId hlt q hqq
    · simp only [List.length_cons, List.length_append]
      simp only [List.length_append, List.length_cons] at hlen
      omega
    · exact hidn2
    · simp only [List.map_cons, List.map_append, List.map_nil,
        List.append_nil]
      simp only [List.map_nil, List.append_nil] at hkdn2
      exact hkdn2
    · rw [addToFront_head]
      rfl
    · rw [addToFront_tail_some _ _ (by
        show ¬(some pl = none)
        simp)]
      show some pl = (x :: ((h0 :: pre2) ++ [])).getLast?
      rw [show (x :: ((h0 :: pre2) ++ [])).getLast?
            = ((h0 :: pre2) ++ ([] : List Nat)).getLast? from by
          simp [List.getLast?_cons_cons]]
      rw [List.append_nil, hplq]
    · show ChainTo (addToFront { updNext s pl none with tail := some pl }
        x).nodes none (x :: ((h0 :: pre2) ++ []))
        ((kx :: (kpre ++ [])).map Prod.fst) none
      rw [hFn]
      simp only [List.append_nil, List.map_cons]
      refine ⟨?_, ?_⟩
      · show getNode (updPrev (updPrev (updNext
          { updNext s pl none with tail := some pl } x (some h0)) x none)
          h0 (some x)) x = _
        rw [getNode_updPrev, if_neg hxh0, getNode_updPrev, if_pos rfl,
          getNode_updNext, if_pos rfl]
        rw [show getNode ({ updNext s pl none with tail := some pl } :
            CacheState α) x
              = some { key := kx.1, prev := some pl, next := none } from by
          show getNode (updNext s pl none) x = _
          rw [getNode_updNext, if_neg hxpl]
          exact hnd0]
        rfl
      · exact hc3
    · rw [addToFront_entries]
      show s.entries.Perm _
      simp only [List.append_nil]
      simp only [List.append_nil] at hpermF
      exact hpermF
  | cons y suf2 =>
    subst hsc
    have hxy : x ≠ y := fun he =>
      hx_suf (he ▸ List.mem_cons_self y suf2)
    have hply : pl ≠ y := fun he =>
      hpl_not_suf (he ▸ List.mem_cons_self y suf2)
    have hnd0 : getNode s x =
        some { key := kx.1, prev := some pl, next := some y } := hlkx
    have htlx : s.tail ≠ some x := by
      rw [htail, List.getLast?_append_of_ne_nil _ (by simp),
        List.getLast?_cons_cons]
      intro hcon
      exact hx_suf (mem_of_getLast_some _ _ hcon)
    rw [moveToFront_mid s kx.1 x pl y kx.2
      { key := kx.1, prev := some pl, next := some y } hlkE hnd0 rfl hxpl rfl
      hxy htlx]
    have hh3 : (updPrev (updNext s pl (some y)) y (some pl)).head = some h0 :=
      hh0
    have hFn : (addToFront (updPrev (updNext s pl (some y)) y (some pl))
        x).nodes
        = (updPrev (updPrev (updNext
            (updPrev (updNext s pl (some y)) y (some pl)) x (some h0)) x none)
            h0 (some x)).nodes := by
      rw [addToFront_nodes, hh3]
    have hcPre1 : ChainTo (updNext s pl (some y)).nodes none (h0 :: pre2)
        (kpre.map Prod.fst) (some y) :=
      chainTo_updNext_last s (h0 :: pre2) (kpre.map Prod.fst) none (some x)
        (some y) pl hplq hpre_nodup hchPre
    have hcPre2 := chainTo_upd_out_prev (updNext s pl (some y)) y (some pl)
      (h0 :: pre2) (kpre.map Prod.fst) none (some y)
      (fun hcon => hdisj_ps hcon (by simp)) hcPre1
    have hcPre3 := chainTo_upd_out_next
      (updPrev (updNext s pl (some y)) y (some pl)) x (some h0) (h0 :: pre2)
      (kpre.map Prod.fst) none (some y) hx_pre hcPre2
    have hcPre4 := chainTo_upd_out_prev _ x none (h0 :: pre2)
      (kpre.map Prod.fst) none (some y) hx_pre hcPre3
    have hcPre5 := chainTo_updPrev_first _ h0 pre2 (kpre.map Prod.fst) none
      (some x) (some y) hcPre4 hpre_nodup
    have hcSuf1 : ChainTo (updNext s pl (some y)).nodes (some x) (y :: suf2)
        (ksuf.map Prod.fst) none :=
      chainTo_upd_out_next s pl (some y) (y :: suf2) (ksuf.map Prod.fst)
        (some x) none hpl_not_suf hchSufT
    have hcSuf2 := chainTo_updPrev_first (updNext s pl (some y)) y suf2
      (ksuf.map Prod.fst) (some x) (some pl) none hcSuf1 hsuf_nodup
    have hcSuf3 := chainTo_upd_out_next
      (updPrev (updNext s pl (some y)) y (some pl)) x (some h0) (y :: suf2)
      (ksuf.map Prod.fst) (some pl) none hx_suf hcSuf2
    have hcSuf4 := chainTo_upd_out_prev _ x none (y :: suf2)
      (ksuf.map Prod.fst) (some pl) none hx_suf hcSuf3
    have hcSuf5 := chainTo_upd_out_prev _ h0 (some x) (y :: suf2)
      (ksuf.map Prod.fst) (some pl) none
      (fun hcon => hdisj_ps (List.mem_cons_self h0 pre2)
        (List.mem_cons_of_mem _ hcon)) hcSuf4
    refine ⟨?_, ?_, ?_, ?_, ?_, ?_, ?_, ?_, ?_⟩
    · rw [addToFront_nodes_fst]
      show ((updPrev (updNext s pl (some y)) y (some pl)).nodes.map
        Prod.fst).Nodup
      rw [updPrev_nodes_fst, updNext_nodes_fst]
      exact hnd
    · intro p hp
      rw [addToFront_nextId]
      show p.1 < s.nextId
      refine addToFront_nodes_bound _ x s.nextId ?_ p hp
      intro q hqq
      show q.1 < s.nextId
      refine updPrev_nodes_bound _ y (some pl) s.nextId ?_ q hqq
      intro r hr
      exact updNext_nodes_bound s pl (some y) s.nextId hlt r hr
    · simp only [List.length_cons, List.length_append]
      simp only [List.length_append, List.length_cons] at hlen
      omega
    · exact hidn2
    · show (kx.1 :: ((kpre ++ ksuf).map Prod.fst)).Nodup
      simp only [List.map_append]
      exact hkdn2
    · rw [addToFront_head]
      rfl
    · rw [addToFront_tail_some _ _ (by
        show ¬(s.tail = none)
        rw [htail, List.getLast?_append_of_ne_nil _ (by simp),
          List.getLast?_cons_cons]
        intro hcon
        exact absurd (List.getLast?_eq_none_iff.mp hcon) (by simp))]
      show s.tail = (x :: ((h0 :: pre2) ++ y :: suf2)).getLast?
      rw [htail, List.getLast?_append_of_ne_nil _ (by simp)]
      rw [show (x :: ((h0 :: pre2) ++ y :: suf2)).getLast?
            = ((h0 :: pre2) ++ y :: suf2).getLast? from
          List.getLast?_cons_cons]
      rw [List.getLast?_append_of_ne_nil _ (by simp),
        List.getLast?_cons_cons]
    · show ChainTo (addToFront (updPrev (updNext s pl (some y)) y (some pl))
        x).nodes none (x :: ((h0 :: pre2) ++ y :: suf2))
        ((kx :: (kpre ++ ksuf)).map Prod.fst) none
      rw [hFn]
      simp only [List.map_cons]
      refine ⟨?_, ?_⟩
      · show getNode (updPrev (updPrev (updNext
          (updPrev (updNext s pl (some y)) y (some pl)) x (some h0)) x none)
          h0 (some x)) x = _
        rw [getNode_updPrev, if_neg hxh0, getNode_updPrev, if_pos rfl,
          getNode_updNext, if_pos rfl]
        rw [show getNode (updPrev (updNext s pl (some y)) y (some pl)) x
              = some { key := kx.1, prev := some pl, next := some y } from by
          rw [getNode_updPrev, if_neg hxy, getNode_updNext, if_neg hxpl]
          exact hnd0]
        rfl
      · rw [show (kpre ++ ksuf).map Prod.fst
              = kpre.map Prod.fst ++ ksuf.map Prod.fst from by simp]
        refine (chainTo_append _ (h0 :: pre2) (kpre.map Prod.fst) (y :: suf2)
          (ksuf.map Prod.fst) (some x) none hlenp2).mpr ⟨?_, ?_⟩
        · exact hcPre5
        · rw [hplq]
          exact hcSuf5
    · rw [addToFront_entries]
      show s.entries.Perm _
      exact hpermF


theorem runGets_maxSize {α : Type} (repo : String → Int → α) :
    ∀ (ps : List (String × Int)) (s : CacheState α),
      (runGets repo s ps).maxSize = s.maxSize := by
  intro ps
  induction ps with
  | nil => intro s; rfl
  | cons p ps ih =>
    intro s
    show (runGets repo (cacheGet s repo p.1 p.2).2 ps).maxSize = s.maxSize
    rw [ih, cacheGet_maxSize]

theorem cacheGet_hit {α : Type} (s : CacheState α) (repo : String → Int → α)
    (v : String) (lap : Int) (x : Nat) (dat : α)
    (hlk : cacheLookup s (v ++ "-" ++ toString lap) = some (x, dat)) :
    (cacheGet s repo v lap).2 = moveToFront s (v ++ "-" ++ toString lap) := by
  simp only [cacheGet]
  split
  · rfl
  · next heq =>
    rw [hlk] at heq
    cases heq

theorem take_getD_drop {β : Type} (d : β) :
    ∀ (l : List β) (n : Nat), n < l.length →
      l.take n ++ l.getD n d :: l.drop (n + 1) = l := by
  intro l
  induction l with
  | nil => intro n h; simp at h
  | cons a l ih =>
    intro n h
    cases n with
    | zero => rfl
    | succ m =>
      show a :: (l.take m ++ l.getD m d :: l.drop (m + 1)) = a :: l
      rw [ih m (by simpa using h)]

theorem map_fst_middle_split {β γ : Type} :
    ∀ (l : List (β × γ)) (c1 : List β) (k : β) (c2 : List β),
      l.map Prod.fst = c1 ++ k :: c2 →
      ∃ l1 kx l2, l = l1 ++ kx :: l2 ∧ l1.map Prod.fst = c1 ∧
        kx.1 = k ∧ l2.map Prod.fst = c2 := by
  intro l
  induction l with
  | nil =>
    intro c1 k c2 h
    rw [List.map_nil] at h
    exact absurd h.symm (by simp)
  | cons p l ih =>
    intro c1 k c2 h
    cases c1 with
    | nil =>
      rw [List.map_cons, List.nil_append] at h
      injection h with h1 h2
      exact ⟨[], p, l, rfl, rfl, h1, h2⟩
    | cons c c1 =>
      rw [List.map_cons, List.cons_append] at h
      injection h with h1 h2
      obtain ⟨l1, kx, l2, hsp, hm1, hmk, hm2⟩ := ih c1 k c2 h2
      exact ⟨p :: l1, kx, l2, by rw [hsp, List.cons_append],
        by rw [List.map_cons, hm1, h1], hmk, hm2⟩

theorem take_one_ne_nil {β : Type} (c l : List β) (hne : c ≠ []) :
    ∃ a, a ∈ c ∧ (c ++ l).take 1 = [a] := by
  cases c with
  | nil => exact absurd rfl hne
  | cons a c2 => exact ⟨a, List.mem_cons_self _ _, rfl⟩


/-- The composite cache key of a `getTelemetryByVehicleAndLap` call. -/
def pairKey (p : String × Int) : String := p.1 ++ "-" ++ toString p.2

theorem runGets_all_fresh {α : Type} (repo : String → Int → α) (M : Nat)
    (pairs : List (String × Int)) (hM : 1 ≤ M)
    (hnd : (pairs.map pairKey).Nodup) :
    ∃ ids1, Queued (runGets repo (emptyCache α M) pairs) ids1
      (lruRun repo M pairs []) := by
  refine runGets_fresh repo pairs (emptyCache α M) [] [] (queued_empty α M)
    hM (by simp) ?_ hnd
  intro p hp
  simp

theorem lruRun_empty_keys {α : Type} (repo : String → Int → α) (M : Nat)
    (pairs : List (String × Int)) :
    (lruRun repo M pairs []).map Prod.fst =
      ((pairs.map pairKey).reverse).take M := by
  rw [lruRun_map_fst repo M pairs [] (by simp)]
  rw [List.map_nil, List.append_nil]
  rfl


/-- C1: LRU correctness of the TelemetryCache.  After cache-miss gets on
more than `maxSize` pairwise distinct vehicle/lap keys from a fresh cache
(no repeated get), the map retains exactly the `maxSize` most recently
inserted composite keys (part one, stated as a permutation of the key
multiset).  And a get on a currently cached key that has at least one
more recently used entry (any cached index `j` with `len - maxSize ≤ j`
and `j + 1 < len`) makes that key most-recently-used — the list head
points at its node — so it survives the next `maxSize - 1` fresh-key
misses, while without the refreshing get the same misses evict it
(part two). -/
theorem c1_lru_correctness {α : Type} (repo : String → Int → α) (M : Nat)
    (pairs : List (String × Int)) (hM : 1 ≤ M) (hlen : M < pairs.length)
    (hnd : (pairs.map pairKey).Nodup) :
    (((runGets repo (emptyCache α M) pairs).entries.map Prod.fst).Perm
      (((pairs.map pairKey).reverse).take M)) ∧
    (∀ (j : Nat), pairs.length - M ≤ j → j + 1 < pairs.length →
      (∃ i nd,
        (runGets repo (runGets repo (emptyCache α M) pairs)
          [pairs.getD j ("", 0)]).head = some i ∧
        getNode (runGets repo (runGets repo (emptyCache α M) pairs)
          [pairs.getD j ("", 0)]) i = some nd ∧
        nd.key = pairKey (pairs.getD j ("", 0))) ∧
      (∀ (qs : List (String × Int)), qs.length = M - 1 →
        ((qs ++ pairs).map pairKey).Nodup →
        (pairKey (pairs.getD j ("", 0)) ∈
          ((runGets repo (runGets repo (emptyCache α M) pairs)
            (pairs.getD j ("", 0) :: qs)).entries.map Prod.fst)) ∧
        (pairKey (pairs.getD j ("", 0)) ∉
          ((runGets repo (runGets repo (emptyCache α M) pairs)
            qs).entries.map Prod.fst)))) := by
  obtain ⟨ids1, hq1⟩ := runGets_all_fresh repo M pairs hM hnd
  have hks1 : (lruRun repo M pairs []).map Prod.fst =
      ((pairs.map pairKey).reverse).take M := lruRun_empty_keys repo M pairs
  constructor
  · exact (queued_entries_keys hq1).trans (hks1 ▸ List.Perm.refl _)
  intro j hj1 hj2
  have hjlt : j < pairs.length := by omega
  have hpd : pairs.take j ++ pairs.getD j ("", 0) :: pairs.drop (j + 1)
      = pairs := take_getD_drop ("", 0) pairs j hjlt
  have hpjmem : pairs.getD j ("", 0) ∈ pairs := by
    have h9 : pairs.getD j ("", 0) ∈ pairs.take j ++
        pairs.getD j ("", 0) :: pairs.drop (j + 1) :=
      List.mem_append.mpr (Or.inr (List.mem_cons_self _ _))
    rwa [hpd] at h9
  have hkeyssplit : pairs.map pairKey
      = (pairs.take j).map pairKey ++ pairKey (pairs.getD j ("", 0)) ::
        (pairs.drop (j + 1)).map pairKey := by
    conv_lhs => rw [← hpd]
    rw [List.map_append, List.map_cons]
  have hAlen : ((pairs.take j).map pairKey).length = j := by
    rw [List.length_map, List.length_take]
    omega
  have hBlen : ((pairs.drop (j + 1)).map pairKey).length
      = pairs.length - (j + 1) := by
    rw [List.length_map, List.length_drop]
  have hrev : (pairs.map pairKey).reverse
      = ((pairs.drop (j + 1)).map pairKey).reverse ++
        pairKey (pairs.getD j ("", 0)) ::
        ((pairs.take j).map pairKey).reverse := by
    rw [hkeyssplit, List.reverse_append, List.reverse_cons, List.append_assoc]
    rfl
  have hkstake : ((pairs.map pairKey).reverse).take M
      = ((pairs.drop (j + 1)).map pairKey).reverse ++
        pairKey (pairs.getD j ("", 0)) ::
        (((pairs.take j).map pairKey).reverse.take
          (M - (pairs.length - (j + 1)) - 1)) := by
    rw [hrev, List.take_append_eq_append_take]
    rw [List.take_of_length_le (by rw [List.length_reverse]; omega)]
    rw [List.length_reverse, hBlen]
    rw [show M - (pairs.length - (j + 1))
          = (M - (pairs.length - (j + 1)) - 1) + 1 from by omega]
    rw [List.take_succ_cons, Nat.add_sub_cancel]
  have hks1split : (lruRun repo M pairs []).map Prod.fst
      = ((pairs.drop (j + 1)).map pairKey).reverse ++
        pairKey (pairs.getD j ("", 0)) ::
        (((pairs.take j).map pairKey).reverse.take
          (M - (pairs.length - (j + 1)) - 1)) := hks1.trans hkstake
  obtain ⟨kpre, kx, ksuf, hkdec, hkprem, hkxk, hksufm⟩ :=
    map_fst_middle_split (lruRun repo M pairs [])
      (((pairs.drop (j + 1)).map pairKey).reverse)
      (pairKey (pairs.getD j ("", 0)))
      ((((pairs.take j).map pairKey).reverse.take
        (M - (pairs.length - (j + 1)) - 1))) hks1split
  have hkprelen : kpre.length = pairs.length - (j + 1) := by
    have h9 := congrArg List.length hkprem
    rw [List.length_map, List.length_reverse, hBlen] at h9
    exact h9
  have hkds1len : (lruRun repo M pairs []).length = M := by
    have h9 := congrArg List.length hks1
    rw [List.length_map, List.length_take, List.length_reverse,
      List.length_map] at h9
    omega
  have hkds1nd : ((lruRun repo M pairs []).map Prod.fst).Nodup := by
    rw [hks1]
    exact (List.take_sublist _ _).nodup (List.nodup_reverse.mpr hnd)
  have hids1len : ids1.length = M := (Queued.len hq1).trans hkds1len
  have hjjlt : kpre.length < ids1.length := by
    rw [hids1len, hkprelen]
    omega
  have hidec : ids1.take kpre.length ++ ids1.getD kpre.length 0 ::
      ids1.drop (kpre.length + 1) = ids1 :=
    take_getD_drop 0 ids1 kpre.length hjjlt
  have hprelen : (ids1.take kpre.length).length = kpre.length := by
    rw [List.length_take]
    omega
  have hprene : ids1.take kpre.length ≠ [] := by
    intro he
    rw [he] at hprelen
    simp at hprelen
    omega
  rw [← hidec, hkdec] at hq1
  have hq2 := moveToFront_queued _ _ _ _ _ _ _ hq1 hprelen hprene
  have hekeys1 := queued_entries_keys hq1
  have hentnd1 : ((runGets repo (emptyCache α M) pairs).entries.map
      Prod.fst).Nodup := by
    refine hekeys1.nodup_iff.mpr ?_
    rw [hkdec] at hkds1nd
    exact hkds1nd
  have hmodmem : (kx.1, (ids1.getD kpre.length 0, kx.2)) ∈
      modelEntries (ids1.take kpre.length ++ ids1.getD kpre.length 0 ::
        ids1.drop (kpre.length + 1)) (kpre ++ kx :: ksuf) := by
    rw [modelEntries_append _ _ _ _ (hprelen.trans rfl)]
    refine List.mem_append.mpr (Or.inr ?_)
    show _ ∈ (kx.1, ids1.getD kpre.length 0, kx.2) :: modelEntries _ ksuf
    exact List.mem_cons_self _ _
  have hlk1 : cacheLookup (runGets repo (emptyCache α M) pairs) kx.1
      = some (ids1.getD kpre.length 0, kx.2) :=
    lookup_of_mem_nodup _ hentnd1 kx.1 _ ((Queued.permE hq1).mem_iff.mpr
      hmodmem)
  have hlk1b : cacheLookup (runGets repo (emptyCache α M) pairs)
      ((pairs.getD j ("", 0)).1 ++ "-" ++ toString (pairs.getD j ("", 0)).2)
      = some (ids1.getD kpre.length 0, kx.2) := by
    show cacheLookup (runGets repo (emptyCache α M) pairs) (pairKey
      (pairs.getD j ("", 0))) = _
    rw [← hkxk]
    exact hlk1
  have href : (cacheGet (runGets repo (emptyCache α M) pairs) repo
      (pairs.getD j ("", 0)).1 (pairs.getD j ("", 0)).2).2
      = moveToFront (runGets repo (emptyCache α M) pairs) kx.1 := by
    refine (cacheGet_hit _ repo _ _ _ _ hlk1b).trans ?_
    rw [show (pairs.getD j ("", 0)).1 ++ "-" ++
      toString (pairs.getD j ("", 0)).2 = kx.1 from hkxk.symm]
  rw [← href] at hq2
  constructor
  · obtain ⟨-, -, -, -, -, hh2, -, hch2, -⟩ := hq2
    obtain ⟨hl2, -⟩ := hch2
    refine ⟨ids1.getD kpre.length 0, _, ?_, hl2, hkxk⟩
    exact hh2
  intro qs hqlen hqnd
  simp only [List.map_append] at hqnd
  obtain ⟨hqnd1, hpnd1, hdisjqp⟩ := List.nodup_append.mp hqnd
  have hkds1sub : ∀ z ∈ (lruRun repo M pairs []).map Prod.fst,
      z ∈ pairs.map pairKey := by
    rw [hks1]
    intro z hz
    exact List.mem_reverse.mp (List.take_subset _ _ hz)
  have hsub2 : ∀ z ∈ (kpre ++ kx :: ksuf).map Prod.fst,
      z ∈ pairs.map pairKey := by
    rw [← hkdec]
    exact hkds1sub
  have hms1 : (runGets repo (emptyCache α M) pairs).maxSize = M := by
    rw [runGets_maxSize]
    rfl
  have hkdslen2 : (kpre ++ kx :: ksuf).length = M := by
    rw [← hkdec]
    exact hkds1len
  have hms2 : (cacheGet (runGets repo (emptyCache α M) pairs) repo
      (pairs.getD j ("", 0)).1 (pairs.getD j ("", 0)).2).2.maxSize = M := by
    rw [cacheGet_maxSize, hms1]
  have hfresh2 : ∀ q ∈ qs, (q.1 ++ "-" ++ toString q.2) ∉
      ((kx :: (kpre ++ ksuf)).map Prod.fst) := by
    intro q hqm hcon
    have hqk : pairKey q ∈ (kpre ++ kx :: ksuf).map Prod.fst := by
      simp only [List.map_cons, List.map_append] at hcon ⊢
      rcases List.mem_cons.mp hcon with he | he
      · exact he ▸ List.mem_append.mpr (Or.inr (List.mem_cons_self _ _))
      · rcases List.mem_append.mp he with h9 | h9
        · exact List.mem_append.mpr (Or.inl h9)
        · exact List.mem_append.mpr (Or.inr (List.mem_cons_of_mem _ h9))
    exact hdisjqp (List.mem_map_of_mem pairKey hqm) (hsub2 _ hqk)
  obtain ⟨ids3, hq3⟩ := runGets_fresh repo qs _ _ _ hq2
    (by rw [hms2]; exact hM)
    (by rw [hms2]; simp only [List.length_cons, List.length_append]
        simp only [List.length_append, List.length_cons] at hkdslen2
        omega)
    hfresh2 hqnd1
  rw [hms2] at hq3
  have hfin3 : (lruRun repo M qs (kx :: (kpre ++ ksuf))).map Prod.fst
      = ((qs.map (fun p => p.1 ++ "-" ++ toString p.2)).reverse ++
        (kx :: (kpre ++ ksuf)).map Prod.fst).take M := by
    refine lruRun_map_fst repo M qs _ ?_
    simp only [List.length_cons, List.length_append]
    simp only [List.length_append, List.length_cons] at hkdslen2
    omega
  have hqrevlen : ((qs.map (fun p => p.1 ++ "-" ++ toString p.2)).reverse).length
      = M - 1 := by
    rw [List.length_reverse, List.length_map, hqlen]
  have hfin3b : (lruRun repo M qs (kx :: (kpre ++ ksuf))).map Prod.fst
      = (qs.map (fun p => p.1 ++ "-" ++ toString p.2)).reverse ++ [kx.1] := by
    rw [hfin3, List.take_append_eq_append_take]
    rw [List.take_of_length_le (by rw [hqrevlen]; omega)]
    rw [hqrevlen]
    rw [show M - (M - 1) = 1 from by omega]
    rw [show (kx :: (kpre ++ ksuf)).map Prod.fst
          = kx.1 :: (kpre ++ ksuf).map Prod.fst from rfl]
    rw [List.take_succ_cons, List.take_zero]
  constructor
  · refine (queued_entries_keys hq3).mem_iff.mpr ?_
    rw [hfin3b]
    refine List.mem_append.mpr (Or.inr ?_)
    rw [← hkxk]
    exact List.mem_singleton.mpr rfl
  · obtain ⟨ids4, hq4⟩ := runGets_fresh repo qs _ _ _ hq1
      (by rw [hms1]; exact hM)
      (by rw [hms1]
          simp only [List.length_append, List.length_cons]
          simp only [List.length_append, List.length_cons] at hkdslen2
          omega)
      (by intro q hqm hcon
          exact hdisjqp (List.mem_map_of_mem pairKey hqm) (hsub2 _ hcon))
      hqnd1
    rw [hms1] at hq4
    obtain ⟨a, hamem, htake1⟩ := take_one_ne_nil
      (((pairs.drop (j + 1)).map pairKey).reverse)
      (pairKey (pairs.getD j ("", 0)) ::
        (((pairs.take j).map pairKey).reverse.take
          (M - (pairs.length - (j + 1)) - 1)))
      (by intro he
          have h9 := congrArg List.length he
          rw [List.length_reverse, hBlen] at h9
          simp at h9
          omega)
    have hfin4 : (lruRun repo M qs (kpre ++ kx :: ksuf)).map Prod.fst
        = (qs.map (fun p => p.1 ++ "-" ++ toString p.2)).reverse ++ [a] := by
      rw [lruRun_map_fst repo M qs _ (by rw [hkdslen2])]
      rw [List.take_append_eq_append_take]
      rw [List.take_of_length_le (by rw [hqrevlen]; omega)]
      rw [hqrevlen, show M - (M - 1) = 1 from by omega]
      rw [show (kpre ++ kx :: ksuf).map Prod.fst
            = (lruRun repo M pairs []).map Prod.fst from by rw [← hkdec]]
      rw [hks1split]
      rw [htake1]
    intro hcon
    have hconk := (queued_entries_keys hq4).mem_iff.mp hcon
    rw [hfin4] at hconk
    rcases List.mem_append.mp hconk with h9 | h9
    · have h10 : pairKey (pairs.getD j ("", 0)) ∈
          qs.map (fun p => p.1 ++ "-" ++ toString p.2) :=
        List.mem_reverse.mp h9
    -- pairKey pj is in pairs keys; disjointness kills it
      exact hdisjqp h10 (List.mem_map_of_mem pairKey hpjmem)
    · have h10 : pairKey (pairs.getD j ("", 0)) = a :=
        List.mem_singleton.mp h9
      have hand : a ∈ (pairs.drop (j + 1)).map pairKey :=
        List.mem_reverse.mp hamem
      have hnd2 : (pairKey (pairs.getD j ("", 0)) ::
          ((pairs.take j).map pairKey ++ (pairs.drop (j + 1)).map
            pairKey)).Nodup := by
        rw [← List.nodup_middle, ← hkeyssplit]
        exact hnd
      exact (List.nodup_cons.mp hnd2).1
        (h10 ▸ List.mem_append.mpr (Or.inr hand))


theorem c1_lru_correctness_witness :
    ((1 ≤ 2 ∧
      2 < ([("A", 1), ("B", 1), ("C", 1)] : List (String × Int)).length ∧
      (([("A", 1), ("B", 1), ("C", 1)] : List (String × Int)).map
        pairKey).Nodup)) ∧
    (((runGets (fun _ _ => (0 : Nat)) (emptyCache Nat 2)
      [("A", 1), ("B", 1), ("C", 1)]).entries.map Prod.fst).Perm
      (((([("A", 1), ("B", 1), ("C", 1)] : List (String × Int)).map
        pairKey).reverse).take 2)) ∧
    (pairKey ("B", 1) ∈
      ((runGets (fun _ _ => (0 : Nat)) (runGets (fun _ _ => (0 : Nat))
        (emptyCache Nat 2) [("A", 1), ("B", 1), ("C", 1)])
        (("B", 1) :: [("D", 1)])).entries.map Prod.fst)) ∧
    (pairKey ("B", 1) ∉
      ((runGets (fun _ _ => (0 : Nat)) (runGets (fun _ _ => (0 : Nat))
        (emptyCache Nat 2) [("A", 1), ("B", 1), ("C", 1)])
        [("D", 1)]).entries.map Prod.fst)) :=
  ⟨⟨by decide, by decide, by decide⟩,
    (c1_lru_correctness (fun _ _ => (0 : Nat)) 2
      [("A", 1), ("B", 1), ("C", 1)] (by decide) (by decide) (by decide)).1,
    ((c1_lru_correctness (fun _ _ => (0 : Nat)) 2
      [("A", 1), ("B", 1), ("C", 1)] (by decide) (by decide)
      (by decide)).2 1 (by decide) (by decide)).2 [("D", 1)] (by decide)
      (by decide)⟩

end RaceDash
